import Mathlib

/-!
# The uniform grid of `src/grid.h`

A shallow embedding of `bdm::Grid` (boxes, the intrusive successor chains, the
index arithmetic, `GetMooreBoxes` and the two iterators) together with the
properties proved about it, and of the time stepping of the two operations of
`src/core/operation/diffusion_op.h`.

Conventions of the embedding.

* `size_t`/`uint64_t` values are natural numbers reduced modulo `2^64`,
  `uint32_t` values modulo `2^32`, `uint16_t` values modulo `2^16`, at every
  place where the C++ expression is evaluated in that type.
* A `double` is modelled by the rational number it holds.  `floor`, the
  conversions to integer types and the comparisons are exact.  The results of
  the division in `GetBoxIndex`, of the subtraction in `operator()` and of the
  addition to a simulated time are rounded to the nearest double, ties to even
  (`round_to_double`).  The exponent range is not bounded: overflow to
  infinity and subnormal numbers are not represented.
* Undefined behaviour (an out-of-bounds vector access, a division by zero, a
  conversion of a `double` that does not fit its target type) is the result
  `none`.  `none` is never a reported error: the source has no error path.
* An exception thrown by an allocation (`resize` of `boxes_` or of
  `successors_`) is not represented: a result `some g0` of `Grid.ctor_init`
  stands for the constructor whose two allocations have returned.
* A `const Box*` is the index of the box in `boxes_`.
* Entity ids and vector sizes are below `2^64`, so `size_t` counters of the
  loops over `positions_` do not wrap.
-/

namespace bdm

/-- The type `array<T, 3>`. -/
structure array3 (α : Type) where
  a0 : α
  a1 : α
  a2 : α
deriving DecidableEq, Repr

/-- Addition of two `size_t` values. -/
def size_t_add (a b : Nat) : Nat := (a + b) % 2 ^ 64

/-- Subtraction of two `size_t` values (wraps below zero). -/
def size_t_sub (a b : Nat) : Nat := (a + (2 ^ 64 - b % 2 ^ 64)) % 2 ^ 64

/-- Conversion of a `double` whose value is the rational `q` to an unsigned
integer of `w` bits: the value is truncated toward zero; the conversion is
undefined when the truncated value is not representable. -/
def double_to_unsigned (w : Nat) (q : ℚ) : Option Nat :=
  let t : Int := if 0 ≤ q then ⌊q⌋ else ⌈q⌉
  if 0 ≤ t ∧ t < 2 ^ w then some t.toNat else none

/-- Rounding of a rational to the nearest integer, ties to the even one. -/
def round_half_even (x : ℚ) : Int :=
  if 2 * Int.fract x < 1 then ⌊x⌋
  else if 1 < 2 * Int.fract x then ⌊x⌋ + 1
  else if ⌊x⌋ % 2 = 0 then ⌊x⌋ else ⌊x⌋ + 1

/-- The double that an arithmetic operation with the exact result `q` returns:
`q` rounded to 53 significant bits, ties to even.  For `2^e ≤ |q| < 2^(e+1)`
the doubles around `q` are the multiples of `2^(e-52)`. -/
def round_to_double (q : ℚ) : ℚ :=
  if q = 0 then 0
  else
    let ulp : ℚ := (2 : ℚ) ^ (Int.log 2 |q| - 52)
    (if 0 < q then 1 else -1) * ((round_half_even (|q| / ulp) : Int) : ℚ) * ulp

/-- The expression `floor(p) / box_lenght_` stored into a `uint32_t`: the
quotient of the two doubles is rounded to a double, and the conversion
truncates that double toward zero.  For `|floor(p)| < 2^53` the truncated
rounded quotient is the truncating integer quotient of `⌊p⌋` by `L`, and that is
what the first branch evaluates; the two branches together are the one
expression `double_to_unsigned 32 (round_to_double (⌊p⌋ / L))` (lemma
`floor_div_to_uint32_eq`).  Undefined for `L = 0` (the quotient is infinite or
NaN) and when the truncated quotient is not representable. -/
def floor_div_to_uint32 (p : ℚ) (L : Nat) : Option Nat :=
  if L = 0 then none
  else
    let t : Int :=
      if ⌊p⌋.natAbs < 2 ^ 53 then Int.tdiv ⌊p⌋ (L : Int)
      else
        let q := round_to_double (((⌊p⌋ : Int) : ℚ) / (L : ℚ))
        if 0 ≤ q then ⌊q⌋ else ⌈q⌉
    if 0 ≤ t ∧ t < 2 ^ 32 then some t.toNat else none

/-- The struct `Grid::Box` (without the back pointer `grid_`, which is passed
explicitly where the source follows it). -/
structure Box where
  start_ : Nat
  length_ : Nat
deriving DecidableEq, Repr

/-- The member `Box::IsEmpty`. -/
def Box.IsEmpty (b : Box) : Bool := b.length_ == 0

/-- The member `Box::AddCell`; `successors_` is `grid_->successors_`.  The
result is the box and the successor table after the call. -/
def Box.AddCell (b : Box) (successors_ : List Nat) (cell_id : Nat) :
    Option (Box × List Nat) :=
  if b.IsEmpty then
    some ({ start_ := cell_id, length_ := (b.length_ + 1) % 2 ^ 16 }, successors_)
  else if cell_id < successors_.length then
    some ({ start_ := cell_id, length_ := (b.length_ + 1) % 2 ^ 16 },
      successors_.set cell_id b.start_)
  else none

/-- The struct `Grid::Box::Iterator` (without `grid_`). -/
structure Box.Iterator where
  current_value_ : Nat
  countdown_ : Int
deriving DecidableEq, Repr

/-- The member `Box::begin`. -/
def Box.begin (b : Box) : Box.Iterator :=
  { current_value_ := b.start_, countdown_ := (b.length_ : Int) }

/-- The member `Box::Iterator::IsAtEnd`. -/
def Box.Iterator.IsAtEnd (it : Box.Iterator) : Bool := decide (it.countdown_ ≤ 0)

/-- The member `Box::Iterator::operator*`. -/
def Box.Iterator.deref (it : Box.Iterator) : Nat := it.current_value_

/-- The member `Box::Iterator::operator++`; reads `successors_[current_value_]`. -/
def Box.Iterator.next (successors_ : List Nat) (it : Box.Iterator) :
    Option Box.Iterator :=
  match successors_[it.current_value_]? with
  | none => none
  | some v => some { current_value_ := v, countdown_ := it.countdown_ - 1 }

/-- The class `Grid`. -/
structure Grid where
  boxes_ : List Box
  positions_ : List (array3 ℚ)
  box_lenght_ : Nat
  num_boxes_axis_ : array3 Nat
  num_boxes_xy_ : Nat
  successors_ : List Nat
deriving DecidableEq

/-- The member `Grid::GetBoxPointer` followed by a dereference of the pointer. -/
def Grid.GetBox (g : Grid) (index : Nat) : Option Box := g.boxes_[index]?

/-- The member `Grid::GetBoxCoordinates`. -/
def Grid.GetBoxCoordinates (g : Grid) (box_idx : Nat) : Option (array3 Nat) :=
  if g.num_boxes_xy_ = 0 ∨ g.num_boxes_axis_.a0 = 0 then none
  else
    let xy := box_idx % g.num_boxes_xy_
    some { a0 := xy % g.num_boxes_axis_.a0,
           a1 := (xy / g.num_boxes_axis_.a0) % 2 ^ 32,
           a2 := (box_idx / g.num_boxes_xy_) % 2 ^ 32 }

/-- The member `Grid::GetBoxIndex(array<uint32_t, 3>&)`.  The product
`box_coord[1] * num_boxes_axis_[0]` has two `uint32_t` operands and is
evaluated in 32 bits; the other operations are evaluated in `size_t`. -/
def Grid.GetBoxIndex (g : Grid) (box_coord : array3 Nat) : Nat :=
  size_t_add
    (size_t_add ((box_coord.a2 * g.num_boxes_xy_) % 2 ^ 64)
      ((box_coord.a1 * g.num_boxes_axis_.a0) % 2 ^ 32))
    box_coord.a0

/-- The local `box_coord` computed by `Grid::GetBoxIndex(const array<double, 3>)`. -/
def Grid.BoxCoordOf (g : Grid) (position : array3 ℚ) : Option (array3 Nat) :=
  match floor_div_to_uint32 position.a0 g.box_lenght_,
        floor_div_to_uint32 position.a1 g.box_lenght_,
        floor_div_to_uint32 position.a2 g.box_lenght_ with
  | some c0, some c1, some c2 => some { a0 := c0, a1 := c1, a2 := c2 }
  | _, _, _ => none

/-- The member `Grid::GetBoxIndex(const array<double, 3>)`. -/
def Grid.GetBoxIndexPos (g : Grid) (position : array3 ℚ) : Option Nat :=
  (g.BoxCoordOf position).map g.GetBoxIndex

/-- The loop `for (cell_id = ...; cell_id < positions_.size(); cell_id++)` of
the constructor, over the positions that are still to be assigned. -/
def Grid.assign : List (array3 ℚ) → Nat → Grid → Option Grid
  | [], _, g => some g
  | position :: rest, cell_id, g =>
    match g.GetBoxIndexPos position with
    | none => none
    | some idx =>
      match g.GetBox idx with
      | none => none
      | some box =>
        match box.AddCell g.successors_ cell_id with
        | none => none
        | some r =>
          Grid.assign rest (cell_id + 1)
            { g with boxes_ := g.boxes_.set idx r.1, successors_ := r.2 }

/-- The constructor `Grid::Grid`.  An exception thrown by one of its two calls
of `resize` is not represented (see `Grid.ctor_init`). -/
def Grid.ctor (positions : List (array3 ℚ)) (box_length : Nat) (max_value : array3 ℚ) :
    Option Grid :=
  if box_length = 0 then none
  else
    match double_to_unsigned 64 max_value.a0, double_to_unsigned 64 max_value.a1,
          double_to_unsigned 64 max_value.a2 with
    | some m0, some m1, some m2 =>
      let nx := (m0 / box_length) % 2 ^ 32
      let ny := (m1 / box_length) % 2 ^ 32
      let nz := (m2 / box_length) % 2 ^ 32
      let num_boxes_xy := (nx * ny) % 2 ^ 32
      let total_num_boxes := (num_boxes_xy * nz) % 2 ^ 64
      Grid.assign positions 0
        { boxes_ := List.replicate total_num_boxes { start_ := 0, length_ := 0 },
          positions_ := positions,
          box_lenght_ := box_length,
          num_boxes_axis_ := { a0 := nx, a1 := ny, a2 := nz },
          num_boxes_xy_ := num_boxes_xy,
          successors_ := List.replicate positions.length 0 }
    | _, _, _ => none

/-- The member `Grid::GetMooreBoxes`: the indices passed to `GetBoxPointer`, in
the order of the `push_back` calls. -/
def Grid.GetMooreBoxes (g : Grid) (box_idx : Nat) : List Nat :=
  let xy := g.num_boxes_xy_
  let ny := g.num_boxes_axis_.a1
  [ box_idx,
    -- Adjacent 6
    size_t_sub box_idx xy,
    size_t_add box_idx xy,
    size_t_sub box_idx ny,
    size_t_add box_idx ny,
    size_t_sub box_idx 1,
    size_t_add box_idx 1,
    -- Adjacent 12
    size_t_sub (size_t_sub box_idx xy) ny,
    size_t_sub (size_t_sub box_idx xy) 1,
    size_t_sub (size_t_sub box_idx ny) 1,
    size_t_sub (size_t_add box_idx xy) ny,
    size_t_sub (size_t_add box_idx xy) 1,
    size_t_sub (size_t_add box_idx ny) 1,
    size_t_add (size_t_sub box_idx xy) ny,
    size_t_add (size_t_sub box_idx xy) 1,
    size_t_add (size_t_sub box_idx ny) 1,
    size_t_add (size_t_add box_idx xy) ny,
    size_t_add (size_t_add box_idx xy) 1,
    size_t_add (size_t_add box_idx ny) 1,
    -- Adjacent 8
    size_t_sub (size_t_sub (size_t_sub box_idx xy) ny) 1,
    size_t_add (size_t_sub (size_t_sub box_idx xy) ny) 1,
    size_t_sub (size_t_add (size_t_sub box_idx xy) ny) 1,
    size_t_add (size_t_add (size_t_sub box_idx xy) ny) 1,
    size_t_sub (size_t_sub (size_t_add box_idx xy) ny) 1,
    size_t_add (size_t_add (size_t_add box_idx xy) ny) 1,
    size_t_sub (size_t_add (size_t_add box_idx xy) ny) 1,
    size_t_add (size_t_add (size_t_add box_idx xy) ny) 1 ]

/-- The struct `Grid::NeighborIterator`; `neighbor_boxes_` holds the box
pointers as indices into `boxes_`. -/
structure NeighborIterator where
  neighbor_boxes_ : List Nat
  box_iterator_ : Box.Iterator
  box_idx_ : Nat
  is_end_ : Bool
deriving DecidableEq, Repr

/-- The member `NeighborIterator::IsAtEnd`. -/
def NeighborIterator.IsAtEnd (it : NeighborIterator) : Bool := it.is_end_

/-- The member `NeighborIterator::operator*`. -/
def NeighborIterator.deref (it : NeighborIterator) : Nat := it.box_iterator_.deref

/-- The `while (++box_idx_ < neighbor_boxes_->size())` loop of
`ForwardToNonEmptyBox`; the first argument bounds the number of evaluations of
the loop condition that are left (`size - box_idx_`); a loop that has not ended
within the bound yields no result.  The counter `box_idx_` is a `uint16_t`. -/
def NeighborIterator.ForwardLoop (g : Grid) : Nat → NeighborIterator → Option NeighborIterator
  | 0, _ => none
  | k + 1, it =>
    let idx := (it.box_idx_ + 1) % 2 ^ 16
    if idx < it.neighbor_boxes_.length then
      match it.neighbor_boxes_[idx]? with
      | none => none
      | some ptr =>
        match g.GetBox ptr with
        | none => none
        | some box =>
          if box.IsEmpty then
            NeighborIterator.ForwardLoop g k { it with box_idx_ := idx }
          else
            some { it with box_idx_ := idx, box_iterator_ := box.begin }
    else some { it with box_idx_ := idx, is_end_ := true }

/-- The member `NeighborIterator::ForwardToNonEmptyBox`. -/
def NeighborIterator.ForwardToNonEmptyBox (g : Grid) (it : NeighborIterator) :
    Option NeighborIterator :=
  NeighborIterator.ForwardLoop g (it.neighbor_boxes_.length - it.box_idx_) it

/-- The constructor `NeighborIterator::NeighborIterator`. -/
def NeighborIterator.ctor (g : Grid) (neighbor_boxes : List Nat) : Option NeighborIterator :=
  match neighbor_boxes[0]? with
  | none => none
  | some ptr =>
    match g.GetBox ptr with
    | none => none
    | some box =>
      let it : NeighborIterator :=
        { neighbor_boxes_ := neighbor_boxes, box_iterator_ := box.begin,
          box_idx_ := 0, is_end_ := false }
      if box.IsEmpty then it.ForwardToNonEmptyBox g else some it

/-- The member `NeighborIterator::operator++`. -/
def NeighborIterator.next (g : Grid) (it : NeighborIterator) : Option NeighborIterator :=
  match it.box_iterator_.next g.successors_ with
  | none => none
  | some bi =>
    let it1 : NeighborIterator := { it with box_iterator_ := bi }
    if bi.IsAtEnd then it1.ForwardToNonEmptyBox g else some it1

/-- The loop `while (!it.IsAtEnd()) { ... *it ...; ++it; }` of
`ForEachNeighbor`, run for at most the given number of iterations: the ids
read by `*it`, in order, and the iterator on leaving. -/
def NeighborIterator.run (g : Grid) : Nat → NeighborIterator → Option (List Nat × NeighborIterator)
  | 0, it => some ([], it)
  | k + 1, it =>
    if it.IsAtEnd then some ([], it)
    else
      match it.next g with
      | none => none
      | some it1 =>
        match NeighborIterator.run g k it1 with
        | none => none
        | some r => some (it.deref :: r.1, r.2)

/-- The chain traversal of a box: `Box::begin` followed by reading `*it` and
applying `operator++` until `IsAtEnd`; the first argument bounds the number of
steps. -/
def Box.Iterator.run (successors_ : List Nat) : Nat → Box.Iterator → Option (List Nat)
  | 0, _ => some []
  | k + 1, it =>
    if it.IsAtEnd then some []
    else
      match it.next successors_ with
      | none => none
      | some it1 =>
        match Box.Iterator.run successors_ k it1 with
        | none => none
        | some l => some (it.deref :: l)

/-- The indices at which `Box::Iterator::operator++` reads `successors_` during
the chain traversal of `Box.Iterator.run`, in order: each application reads
`successors_[current_value_]`, and the traversal is undefined when that index
is outside `successors_`. -/
def Box.Iterator.reads (successors_ : List Nat) : Nat → Box.Iterator → Option (List Nat)
  | 0, _ => some []
  | k + 1, it =>
    if it.IsAtEnd then some []
    else
      match it.next successors_ with
      | none => none
      | some it1 =>
        match Box.Iterator.reads successors_ k it1 with
        | none => none
        | some l => some (it.current_value_ :: l)

/-- The ids of the chain of a box, read through `Box::Iterator`: `length_`
steps from `start_`. -/
def Grid.chain (g : Grid) (b : Box) : Option (List Nat) :=
  Box.Iterator.run g.successors_ b.length_ b.begin

/-- The number of `operator++` calls that drain a `NeighborIterator` over the
given boxes: the sum of their `length_`. -/
def Grid.sumLengths (g : Grid) (neighbor_boxes : List Nat) : Nat :=
  (neighbor_boxes.map (fun ptr => match g.GetBox ptr with
    | none => 0
    | some b => b.length_)).sum

/-- The body of the loop of `Grid::ForEachNeighbor` for index `i`, up to the
accumulation: the ids read from the `NeighborIterator` over the Moore boxes of
the box of `positions_[i]`, and the iterator on leaving the loop. -/
def Grid.NeighborsOf (g : Grid) (i : Nat) : Option (List Nat × NeighborIterator) :=
  match g.positions_[i]? with
  | none => none
  | some position =>
    match g.GetBoxIndexPos position with
    | none => none
    | some idx =>
      let neighbor_boxes := g.GetMooreBoxes idx
      match NeighborIterator.ctor g neighbor_boxes with
      | none => none
      | some it => it.run g (g.sumLengths neighbor_boxes)

/-- The value `GetBoxIndex(positions_[i])`: the index of the box that the
constructor assigns entity `i` to. -/
def Grid.BoxIndexOfEntity (g : Grid) (i : Nat) : Option Nat :=
  match g.positions_[i]? with
  | none => none
  | some position => g.GetBoxIndexPos position

/-- The ids below `k` of the entities that the constructor assigns to box `b`,
largest id first. -/
def Grid.membersBelow (g : Grid) (b : Nat) : Nat → List Nat
  | 0 => []
  | k + 1 =>
    if g.BoxIndexOfEntity k = some b then k :: g.membersBelow b k else g.membersBelow b k

/-- The ids of all entities that the constructor assigns to box `b`, largest
id first. -/
def Grid.members (g : Grid) (b : Nat) : List Nat := g.membersBelow b g.positions_.length

/-- The number of entities that the constructor assigns to box `b`. -/
def Grid.population (g : Grid) (b : Nat) : Nat := (g.members b).length

/-- The concatenation, in list order, of the chain traversals of the listed
boxes. -/
def Grid.chainsOf (g : Grid) : List Nat → Option (List Nat)
  | [] => some []
  | ptr :: rest =>
    match g.GetBox ptr with
    | none => none
    | some b =>
      match g.chain b with
      | none => none
      | some l =>
        match g.chainsOf rest with
        | none => none
        | some r => some (l ++ r)

/-- The spec's linearisation `bz*nx*ny + by*nx + bx` of a box coordinate. -/
def ToLinearIndex (c : array3 Nat) (nx ny : Nat) : Nat := c.a2 * nx * ny + c.a1 * nx + c.a0

/-- The spec's Moore neighbourhood of the box with coordinate `center`: `b` is
the linear index of a box whose coordinate lies in the domain and differs from
`center` by an offset in `{-1, 0, 1}` on every axis. -/
def IsMooreBox (nx ny nz : Nat) (center : array3 Nat) (b : Nat) : Prop :=
  ∃ X, X < nx ∧ ∃ Y, Y < ny ∧ ∃ Z, Z < nz ∧
    (X ≤ center.a0 + 1 ∧ center.a0 ≤ X + 1) ∧ (Y ≤ center.a1 + 1 ∧ center.a1 ≤ Y + 1) ∧
    (Z ≤ center.a2 + 1 ∧ center.a2 ≤ Z + 1) ∧ b = ToLinearIndex { a0 := X, a1 := Y, a2 := Z } nx ny

instance (nx ny nz : Nat) (center : array3 Nat) (b : Nat) :
    Decidable (IsMooreBox nx ny nz center b) := by
  unfold IsMooreBox
  infer_instance

/-- Two box coordinates differ by at most 1 on every axis. -/
def ChebyshevLe1 (c d : array3 Nat) : Prop :=
  (c.a0 ≤ d.a0 + 1 ∧ d.a0 ≤ c.a0 + 1) ∧ (c.a1 ≤ d.a1 + 1 ∧ d.a1 ≤ c.a1 + 1) ∧
    (c.a2 ≤ d.a2 + 1 ∧ d.a2 ≤ c.a2 + 1)

instance (c d : array3 Nat) : Decidable (ChebyshevLe1 c d) := by
  unfold ChebyshevLe1
  infer_instance

/-- The box coordinate is not on the boundary of the domain on any axis. -/
def Grid.IsInterior (g : Grid) (c : array3 Nat) : Prop :=
  (1 ≤ c.a0 ∧ c.a0 + 2 ≤ g.num_boxes_axis_.a0) ∧ (1 ≤ c.a1 ∧ c.a1 + 2 ≤ g.num_boxes_axis_.a1) ∧
    (1 ≤ c.a2 ∧ c.a2 + 2 ≤ g.num_boxes_axis_.a2)

instance (g : Grid) (c : array3 Nat) : Decidable (g.IsInterior c) := by
  unfold Grid.IsInterior
  infer_instance

/-! ## Construction: the chains of a built grid -/

/-- The fields that `AddCell` never writes agree. -/
def Grid.SameFrame (g g1 : Grid) : Prop :=
  g1.positions_ = g.positions_ ∧ g1.box_lenght_ = g.box_lenght_ ∧
    g1.num_boxes_axis_ = g.num_boxes_axis_ ∧ g1.num_boxes_xy_ = g.num_boxes_xy_

/-- After `k` entities: every box counts its members modulo `2^16` and its
chain lists the most recent `length_` of them. -/
def Grid.ChainInv (g : Grid) (k : Nat) : Prop :=
  ∀ b box, g.boxes_[b]? = some box →
    box.length_ = (g.membersBelow b k).length % 2 ^ 16 ∧
      g.chain box = some ((g.membersBelow b k).take box.length_)

/-- The relations between the fields of a grid that the constructor
establishes. -/
structure Grid.WellFormed (g : Grid) : Prop where
  box_lenght_ne : g.box_lenght_ ≠ 0
  nx_lt : g.num_boxes_axis_.a0 < 2 ^ 32
  ny_lt : g.num_boxes_axis_.a1 < 2 ^ 32
  nz_lt : g.num_boxes_axis_.a2 < 2 ^ 32
  xy_eq : g.num_boxes_xy_ = (g.num_boxes_axis_.a0 * g.num_boxes_axis_.a1) % 2 ^ 32
  boxes_length : g.boxes_.length = (g.num_boxes_xy_ * g.num_boxes_axis_.a2) % 2 ^ 64
  successors_length : g.successors_.length = g.positions_.length
  assigned : ∀ i, i < g.positions_.length →
    ∃ idx, g.BoxIndexOfEntity i = some idx ∧ idx < g.boxes_.length
  chains : g.ChainInv g.positions_.length

/-- The constructor `Grid::Grid` up to the loop that assigns the entities: the
grid as it is before the first `AddCell`, when the two calls of `resize` have
returned.  `resize` throws `std::length_error` or `std::bad_alloc` when the
requested size cannot be allocated; that exception is not represented, so a
result `some g0` stands for "the allocations succeeded and the grid is `g0`". -/
def Grid.ctor_init (positions : List (array3 ℚ)) (box_length : Nat) (max_value : array3 ℚ) :
    Option Grid :=
  if box_length = 0 then none
  else
    match double_to_unsigned 64 max_value.a0, double_to_unsigned 64 max_value.a1,
          double_to_unsigned 64 max_value.a2 with
    | some m0, some m1, some m2 =>
      let nx := (m0 / box_length) % 2 ^ 32
      let ny := (m1 / box_length) % 2 ^ 32
      let nz := (m2 / box_length) % 2 ^ 32
      let num_boxes_xy := (nx * ny) % 2 ^ 32
      let total_num_boxes := (num_boxes_xy * nz) % 2 ^ 64
      some
        { boxes_ := List.replicate total_num_boxes { start_ := 0, length_ := 0 },
          positions_ := positions,
          box_lenght_ := box_length,
          num_boxes_axis_ := { a0 := nx, a1 := ny, a2 := nz },
          num_boxes_xy_ := num_boxes_xy,
          successors_ := List.replicate positions.length 0 }
    | _, _, _ => none

/-- The outcomes of building a grid: the two failures that the spec names for
`BuildGrid`, a grid, or undefined behaviour. -/
inductive BuildOutcome where
  | grid (g : Grid)
  | InvalidConfiguration
  | OutOfDomain
  | undefined
deriving DecidableEq

/-- The outcome of the constructor `Grid::Grid`.  The constructor has no error
path: it returns a grid or its behaviour is undefined. -/
def Grid.BuildGrid (positions : List (array3 ℚ)) (box_length : Nat) (max_value : array3 ℚ) :
    BuildOutcome :=
  match Grid.ctor positions box_length max_value with
  | some g => BuildOutcome.grid g
  | none => BuildOutcome.undefined

/-! ## The loop of `ForEachNeighbor` with its accumulator -/

/-- The state that `Grid::ForEachNeighbor` works on: the grid (`*this`) and the
local vector `sum`, whose entries are `size_t`. -/
structure ForEachNeighborState where
  grid : Grid
  sum : List Nat
deriving DecidableEq

/-- The loop `while (!it.IsAtEnd()) { sum[i] += *it; ++it; }` of
`ForEachNeighbor`; the first argument bounds the number of iterations, and a
loop that has not ended within the bound yields no result. -/
def Grid.ForEachNeighbor_while (i : Nat) :
    Nat → NeighborIterator → ForEachNeighborState → Option (ForEachNeighborState × NeighborIterator)
  | 0, it, s => if it.IsAtEnd then some (s, it) else none
  | k + 1, it, s =>
    if it.IsAtEnd then some (s, it)
    else
      match s.sum[i]? with
      | none => none
      | some v =>
        let s1 : ForEachNeighborState := { s with sum := s.sum.set i (size_t_add v it.deref) }
        match it.next s1.grid with
        | none => none
        | some it1 => Grid.ForEachNeighbor_while i k it1 s1

/-- The body of the `for` loop of `ForEachNeighbor` for the index `i`. -/
def Grid.ForEachNeighbor_body (s : ForEachNeighborState) (i : Nat) : Option ForEachNeighborState :=
  match s.grid.positions_[i]? with
  | none => none
  | some position =>
    match s.grid.GetBoxIndexPos position with
    | none => none
    | some idx =>
      let neighbor_boxes := s.grid.GetMooreBoxes idx
      match NeighborIterator.ctor s.grid neighbor_boxes with
      | none => none
      | some it =>
        match Grid.ForEachNeighbor_while i (s.grid.sumLengths neighbor_boxes) it s with
        | none => none
        | some r => some r.1

/-- The `for` loop of `ForEachNeighbor` with its iterations taken in the given
order of the indices (`#pragma omp parallel for` leaves the order open; the
sequential order is `0, 1, ..., positions_.size() - 1`). -/
def Grid.ForEachNeighbor_for : List Nat → ForEachNeighborState → Option ForEachNeighborState
  | [], s => some s
  | i :: rest, s =>
    match Grid.ForEachNeighbor_body s i with
    | none => none
    | some s1 => Grid.ForEachNeighbor_for rest s1

/-- The member `Grid::ForEachNeighbor` with the iterations in sequential order:
the state on leaving the loop and the value `sum[4]` that is printed. -/
def Grid.ForEachNeighbor (g : Grid) : Option (ForEachNeighborState × Nat) :=
  match Grid.ForEachNeighbor_for (List.range g.positions_.length)
      { grid := g, sum := List.replicate g.positions_.length 0 } with
  | none => none
  | some s =>
    match s.sum[4]? with
    | none => none
    | some v => some (s, v)

/-- The ids that the loop of `ForEachNeighbor` reads for the index `i`, when
the loop is defined and ends. -/
def Grid.NeighborIds (g : Grid) (i : Nat) : Option (List Nat) :=
  match g.NeighborsOf i with
  | none => none
  | some r => if r.2.IsAtEnd then some r.1 else none

/-- All 27 indices that `GetMooreBoxes` forms for the box of entity `i` are
indices of allocated boxes: every `GetBoxPointer` of the loop body for `i`
stays within `boxes_`. -/
def Grid.MooreBoxesValid (g : Grid) (i : Nat) : Prop :=
  match g.BoxIndexOfEntity i with
  | none => False
  | some idx => ∀ q ∈ g.GetMooreBoxes idx, q < g.boxes_.length

instance (g : Grid) (i : Nat) : Decidable (g.MooreBoxesValid i) := by
  unfold Grid.MooreBoxesValid
  cases g.BoxIndexOfEntity i <;> infer_instance

/-- The value of a `size_t` accumulator that starts at `v` after the ids have
been added to it one by one. -/
def size_t_sum (v : Nat) (ids : List Nat) : Nat := ids.foldl size_t_add v

/-- The state after the ids have been added, one by one, to slot `i` of `sum`;
the slot is not accessed when there is no id. -/
def ForEachNeighborState.add (s : ForEachNeighborState) (i : Nat) (ids : List Nat) :
    Option ForEachNeighborState :=
  match ids with
  | [] => some s
  | _ :: _ =>
    match s.sum[i]? with
    | none => none
    | some v => some { s with sum := s.sum.set i (size_t_sum v ids) }

/-- The operator `++` of a `NeighborIterator` applied the given number of
times. -/
def NeighborIterator.advance (g : Grid) : Nat → NeighborIterator → Option NeighborIterator
  | 0, it => some it
  | k + 1, it =>
    match it.next g with
    | none => none
    | some it1 => NeighborIterator.advance g k it1

/-! ## The operations of `core/operation/diffusion_op.h` -/

/-- What `operator()` reads from the active simulation: the simulated time of
the scheduler, `env->HasGrown()`, whether `param->bound_space` is `kOpen`, and
`param->calculate_gradients`. -/
structure SimulationView where
  current_time : ℚ
  has_grown : Bool
  bound_space_open : Bool
  calculate_gradients : Bool
deriving DecidableEq

/-- A call that `DiffusionOp::operator()` makes on a diffusion grid. -/
inductive DiffusionGridCall where
  | Update
  | Diffuse (dt : ℚ)
  | CalculateGradient
deriving DecidableEq

/-- The data members of `DiffusionOp`. -/
structure DiffusionOp where
  last_time_run_ : ℚ
  delta_t_ : ℚ
deriving DecidableEq

/-- The data members of `MFEMPDEOp`. -/
structure MFEMPDEOp where
  last_time_run_ : ℚ
  delta_t_ : ℚ
deriving DecidableEq

/-- The member `DiffusionOp::operator()`: the operation after the call and the
calls that the lambda passed to `ForEachDiffusionGrid` makes, in order, on each
diffusion grid (none when the operator returns early).  The difference of the
two doubles is rounded. -/
def DiffusionOp.call (op : DiffusionOp) (sim : SimulationView) :
    DiffusionOp × List DiffusionGridCall :=
  let delta_t := round_to_double (sim.current_time - op.last_time_run_)
  let op1 : DiffusionOp := { last_time_run_ := sim.current_time, delta_t_ := delta_t }
  if delta_t = 0 then (op1, [])
  else
    (op1,
      (if sim.has_grown && sim.bound_space_open then [DiffusionGridCall.Update] else []) ++
        DiffusionGridCall.Diffuse delta_t ::
          (if sim.calculate_gradients then [DiffusionGridCall.CalculateGradient] else []))

/-- The member `MFEMPDEOp::operator()`: the operation after the call and the
arguments of the calls of `Step` that the lambda passed to `ForEachMFEMGrid`
makes on each field (none when the operator returns early).  The difference
of the two doubles is rounded. -/
def MFEMPDEOp.call (op : MFEMPDEOp) (sim : SimulationView) : MFEMPDEOp × List ℚ :=
  let delta_t := round_to_double (sim.current_time - op.last_time_run_)
  let op1 : MFEMPDEOp := { last_time_run_ := sim.current_time, delta_t_ := delta_t }
  if delta_t = 0 then (op1, []) else (op1, [delta_t])

/-- A sequence of invocations of `DiffusionOp::operator()`: the operation at
the end and all calls made on each diffusion grid. -/
def DiffusionOp.calls : DiffusionOp → List SimulationView → DiffusionOp × List DiffusionGridCall
  | op, [] => (op, [])
  | op, sim :: rest =>
    let r := op.call sim
    let r1 := DiffusionOp.calls r.1 rest
    (r1.1, r.2 ++ r1.2)

/-- A sequence of invocations of `MFEMPDEOp::operator()`: the operation at the
end and the arguments of all calls of `Step` made on each field. -/
def MFEMPDEOp.calls : MFEMPDEOp → List SimulationView → MFEMPDEOp × List ℚ
  | op, [] => (op, [])
  | op, sim :: rest =>
    let r := op.call sim
    let r1 := MFEMPDEOp.calls r.1 rest
    (r1.1, r.2 ++ r1.2)

/-- The time step that a call on a diffusion grid advances the grid by. -/
def DiffusionGridCall.time_step : DiffusionGridCall → ℚ
  | DiffusionGridCall.Diffuse dt => dt
  | _ => 0

/-- Modelled from the spec: the simulated time of a field that starts at `t`
and adds the argument of every call of `Step` to its time.  The body of `Step`
is not part of the sources; the member `t_` of the field is a `double`, so
every sum is rounded. -/
def SimTimeAfter (t : ℚ) (steps : List ℚ) : ℚ :=
  steps.foldl (fun a dt => round_to_double (a + dt)) t

/-- The times of a sequence of invocations of `operator()` that follows an
invocation at time `t` are doubles, and the exact difference of every time and
the time before it is a double: no subtraction of `operator()` is rounded. -/
def ExactTimes : ℚ → List SimulationView → Prop
  | _, [] => True
  | t, sim :: rest =>
    round_to_double sim.current_time = sim.current_time ∧
      round_to_double (sim.current_time - t) = sim.current_time - t ∧
        ExactTimes sim.current_time rest

instance ExactTimes.decidable : (t : ℚ) → (sims : List SimulationView) →
    Decidable (ExactTimes t sims)
  | _, [] => isTrue trivial
  | _, sim :: rest =>
    @instDecidableAnd _ _ _ (@instDecidableAnd _ _ _ (ExactTimes.decidable sim.current_time rest))

/-! ## Example grids -/

/-- The grid with which the constructor reaches its loop for one position at
the origin, box length 2 and the domain bound (4,6,8). -/
def grid_2x3x4_init : Grid :=
  { boxes_ := List.replicate 24 { start_ := 0, length_ := 0 },
    positions_ := [{ a0 := 0, a1 := 0, a2 := 0 }],
    box_lenght_ := 2,
    num_boxes_axis_ := { a0 := 2, a1 := 3, a2 := 4 },
    num_boxes_xy_ := 6,
    successors_ := [0] }

/-- The grid that the constructor returns for the position (5,0,0), box length
1 and domain bound (2,2,2): the entity is chained in box 5. -/
def grid_2x2x2_outside : Grid :=
  { boxes_ := (List.replicate 8 { start_ := 0, length_ := 0 }).set 5
      { start_ := 0, length_ := 1 },
    positions_ := [{ a0 := 5, a1 := 0, a2 := 0 }],
    box_lenght_ := 1,
    num_boxes_axis_ := { a0 := 2, a1 := 2, a2 := 2 },
    num_boxes_xy_ := 4,
    successors_ := [0] }

/-- The grid that the constructor returns for the positions (0,0,0) and
(1,1,1), box length 1 and domain bound (2,2,2). -/
def grid_2x2x2 : Grid :=
  { boxes_ := ((List.replicate 8 { start_ := 0, length_ := 0 }).set 0
      { start_ := 0, length_ := 1 }).set 7 { start_ := 1, length_ := 1 },
    positions_ := [{ a0 := 0, a1 := 0, a2 := 0 }, { a0 := 1, a1 := 1, a2 := 1 }],
    box_lenght_ := 1,
    num_boxes_axis_ := { a0 := 2, a1 := 2, a2 := 2 },
    num_boxes_xy_ := 4,
    successors_ := [0, 0] }

/-- The grid that the constructor returns for two entities at (1,1,1), box
length 1 and domain bound (3,3,3). -/
def grid_3x3x3 : Grid :=
  { boxes_ := (List.replicate 27 { start_ := 0, length_ := 0 }).set 13
      { start_ := 1, length_ := 2 },
    positions_ := [{ a0 := 1, a1 := 1, a2 := 1 }, { a0 := 1, a1 := 1, a2 := 1 }],
    box_lenght_ := 1,
    num_boxes_axis_ := { a0 := 3, a1 := 3, a2 := 3 },
    num_boxes_xy_ := 9,
    successors_ := [0, 0] }

/-- The grid that the constructor returns for the positions (3,1,1) and
(0,2,1), box length 1 and domain bound (4,4,3). -/
def grid_4x4x3 : Grid :=
  { boxes_ := ((List.replicate 48 { start_ := 0, length_ := 0 }).set 23
      { start_ := 0, length_ := 1 }).set 24 { start_ := 1, length_ := 1 },
    positions_ := [{ a0 := 3, a1 := 1, a2 := 1 }, { a0 := 0, a1 := 2, a2 := 1 }],
    box_lenght_ := 1,
    num_boxes_axis_ := { a0 := 4, a1 := 4, a2 := 3 },
    num_boxes_xy_ := 16,
    successors_ := [0, 0] }

/-- The grid that the constructor returns for the positions (1,2,1), (2,1,2)
and (2,2,2), box length 1 and domain bound (4,4,4). -/
def grid_4x4x4 : Grid :=
  { boxes_ := (((List.replicate 64 { start_ := 0, length_ := 0 }).set 25
      { start_ := 0, length_ := 1 }).set 38 { start_ := 1, length_ := 1 }).set 42
      { start_ := 2, length_ := 1 },
    positions_ := [{ a0 := 1, a1 := 2, a2 := 1 }, { a0 := 2, a1 := 1, a2 := 2 },
      { a0 := 2, a1 := 2, a2 := 2 }],
    box_lenght_ := 1,
    num_boxes_axis_ := { a0 := 4, a1 := 4, a2 := 4 },
    num_boxes_xy_ := 16,
    successors_ := [0, 0, 0] }

/-- The grid that the constructor returns for the positions (1,1,1) and
(3,1,1), box length 1 and domain bound (5,5,3). -/
def grid_5x5x3 : Grid :=
  { boxes_ := ((List.replicate 75 { start_ := 0, length_ := 0 }).set 31
      { start_ := 0, length_ := 1 }).set 33 { start_ := 1, length_ := 1 },
    positions_ := [{ a0 := 1, a1 := 1, a2 := 1 }, { a0 := 3, a1 := 1, a2 := 1 }],
    box_lenght_ := 1,
    num_boxes_axis_ := { a0 := 5, a1 := 5, a2 := 3 },
    num_boxes_xy_ := 25,
    successors_ := [0, 0] }

/-- The grid that the constructor returns for the position (1,0,0), box length
1 and domain bound (6700417, 641, 2): `6700417 * 641 = 2^32 + 1`, so the
32-bit product stored in `num_boxes_xy_` is 1 and two boxes are allocated. -/
def grid_641 : Grid :=
  { boxes_ := [{ start_ := 0, length_ := 0 }, { start_ := 0, length_ := 1 }],
    positions_ := [{ a0 := 1, a1 := 0, a2 := 0 }],
    box_lenght_ := 1,
    num_boxes_axis_ := { a0 := 6700417, a1 := 641, a2 := 2 },
    num_boxes_xy_ := 1,
    successors_ := [0] }

/-- The grid that the constructor returns for no position, box length 1 and
domain bound (1282, 6700417, 1): `1282 * 6700417 = 2^33 + 2`, so the 32-bit
product stored in `num_boxes_xy_` is 2 and two boxes are allocated. -/
def grid_1282 : Grid :=
  { boxes_ := [{ start_ := 0, length_ := 0 }, { start_ := 0, length_ := 0 }],
    positions_ := [],
    box_lenght_ := 1,
    num_boxes_axis_ := { a0 := 1282, a1 := 6700417, a2 := 1 },
    num_boxes_xy_ := 2,
    successors_ := [] }

/-- The grid that the constructor returns for the positions (1,1,1) and
(2,2,2), box length 1 and domain bound (4,4,4). -/
def grid_4x4x4_diagonal : Grid :=
  { boxes_ := ((List.replicate 64 { start_ := 0, length_ := 0 }).set 21
      { start_ := 0, length_ := 1 }).set 42 { start_ := 1, length_ := 1 },
    positions_ := [{ a0 := 1, a1 := 1, a2 := 1 }, { a0 := 2, a1 := 2, a2 := 2 }],
    box_lenght_ := 1,
    num_boxes_axis_ := { a0 := 4, a1 := 4, a2 := 4 },
    num_boxes_xy_ := 16,
    successors_ := [0, 0] }

/-- The positions of eight entities: the entities 3 and 7 at (1/2, 1/2, 1/2),
the other six at (3/2, 1/2, 1/2). -/
def positions_3_and_7 : List (array3 ℚ) :=
  [{ a0 := mkRat 3 2, a1 := mkRat 1 2, a2 := mkRat 1 2 },
   { a0 := mkRat 3 2, a1 := mkRat 1 2, a2 := mkRat 1 2 },
   { a0 := mkRat 3 2, a1 := mkRat 1 2, a2 := mkRat 1 2 },
   { a0 := mkRat 1 2, a1 := mkRat 1 2, a2 := mkRat 1 2 },
   { a0 := mkRat 3 2, a1 := mkRat 1 2, a2 := mkRat 1 2 },
   { a0 := mkRat 3 2, a1 := mkRat 1 2, a2 := mkRat 1 2 },
   { a0 := mkRat 3 2, a1 := mkRat 1 2, a2 := mkRat 1 2 },
   { a0 := mkRat 1 2, a1 := mkRat 1 2, a2 := mkRat 1 2 }]

/-- The grid that the constructor returns for `positions_3_and_7`, box length
1 and domain bound (2,1,1). -/
def grid_3_and_7 : Grid :=
  { boxes_ := [{ start_ := 7, length_ := 2 }, { start_ := 6, length_ := 6 }],
    positions_ := positions_3_and_7,
    box_lenght_ := 1,
    num_boxes_axis_ := { a0 := 2, a1 := 1, a2 := 1 },
    num_boxes_xy_ := 2,
    successors_ := [0, 0, 1, 0, 2, 4, 5, 3] }

/-- The grid that the constructor returns for the positions
(1/10, 1/10, 1/10) and (19/10, 19/10, 19/10), box length 1 and domain bound
(2,2,2). -/
def grid_end_to_end : Grid :=
  { boxes_ := ((List.replicate 8 { start_ := 0, length_ := 0 }).set 0
      { start_ := 0, length_ := 1 }).set 7 { start_ := 1, length_ := 1 },
    positions_ := [{ a0 := mkRat 1 10, a1 := mkRat 1 10, a2 := mkRat 1 10 },
                   { a0 := mkRat 19 10, a1 := mkRat 19 10, a2 := mkRat 19 10 }],
    box_lenght_ := 1,
    num_boxes_axis_ := { a0 := 2, a1 := 2, a2 := 2 },
    num_boxes_xy_ := 4,
    successors_ := [0, 0] }

/-- The grid that the constructor returns for the positions
(11/10, 11/10, 11/10) and (39/10, 39/10, 39/10), box length 1 and domain bound
(5,5,5). -/
def grid_5x5x5_far : Grid :=
  { boxes_ := ((List.replicate 125 { start_ := 0, length_ := 0 }).set 31
      { start_ := 0, length_ := 1 }).set 93 { start_ := 1, length_ := 1 },
    positions_ := [{ a0 := mkRat 11 10, a1 := mkRat 11 10, a2 := mkRat 11 10 },
                   { a0 := mkRat 39 10, a1 := mkRat 39 10, a2 := mkRat 39 10 }],
    box_lenght_ := 1,
    num_boxes_axis_ := { a0 := 5, a1 := 5, a2 := 5 },
    num_boxes_xy_ := 25,
    successors_ := [0, 0] }

/-- The grid that the constructor returns for five entities at (1,1,1), box
length 1 and domain bound (3,3,3). -/
def grid_3x3x3_five : Grid :=
  { boxes_ := (List.replicate 27 { start_ := 0, length_ := 0 }).set 13
      { start_ := 4, length_ := 5 },
    positions_ := [{ a0 := 1, a1 := 1, a2 := 1 }, { a0 := 1, a1 := 1, a2 := 1 },
                   { a0 := 1, a1 := 1, a2 := 1 }, { a0 := 1, a1 := 1, a2 := 1 },
                   { a0 := 1, a1 := 1, a2 := 1 }],
    box_lenght_ := 1,
    num_boxes_axis_ := { a0 := 3, a1 := 3, a2 := 3 },
    num_boxes_xy_ := 9,
    successors_ := [0, 0, 1, 2, 3] }

/-- The grid that the constructor returns for no position, box length 1 and
domain bound (4,3,3). -/
def grid_4x3x3 : Grid :=
  { boxes_ := List.replicate 36 { start_ := 0, length_ := 0 },
    positions_ := [],
    box_lenght_ := 1,
    num_boxes_axis_ := { a0 := 4, a1 := 3, a2 := 3 },
    num_boxes_xy_ := 12,
    successors_ := [] }

end bdm

namespace bdm

theorem Grid.SameFrame.refl (g : Grid) : g.SameFrame g := ⟨rfl, rfl, rfl, rfl⟩

theorem Grid.SameFrame.trans {g g1 g2 : Grid} (h1 : g.SameFrame g1) (h2 : g1.SameFrame g2) :
    g.SameFrame g2 := by
  obtain ⟨a1, a2, a3, a4⟩ := h1
  obtain ⟨b1, b2, b3, b4⟩ := h2
  exact ⟨b1.trans a1, b2.trans a2, b3.trans a3, b4.trans a4⟩

theorem Grid.GetBoxIndexPos_congr {g g1 : Grid} (h : g.SameFrame g1) (p : array3 ℚ) :
    g1.GetBoxIndexPos p = g.GetBoxIndexPos p := by
  obtain ⟨_, h2, h3, h4⟩ := h
  have hf : g1.GetBoxIndex = g.GetBoxIndex := by
    funext c
    simp only [Grid.GetBoxIndex, h3, h4]
  simp only [Grid.GetBoxIndexPos, Grid.BoxCoordOf, hf, h2]

theorem Grid.BoxCoordOf_congr {g g1 : Grid} (h : g.SameFrame g1) (p : array3 ℚ) :
    g1.BoxCoordOf p = g.BoxCoordOf p := by
  obtain ⟨_, h2, h3, h4⟩ := h
  simp only [Grid.BoxCoordOf, h2]

theorem Grid.BoxIndexOfEntity_congr {g g1 : Grid} (h : g.SameFrame g1) (i : Nat) :
    g1.BoxIndexOfEntity i = g.BoxIndexOfEntity i := by
  have hp := h.1
  simp only [Grid.BoxIndexOfEntity, hp, Grid.GetBoxIndexPos_congr h]

theorem Grid.membersBelow_congr {g g1 : Grid} (h : g.SameFrame g1) (b k : Nat) :
    g1.membersBelow b k = g.membersBelow b k := by
  induction k with
  | zero => rfl
  | succ k ih => simp only [Grid.membersBelow, ih, Grid.BoxIndexOfEntity_congr h]

theorem Grid.membersBelow_lt (g : Grid) (b : Nat) :
    ∀ k i, i ∈ g.membersBelow b k → i < k ∧ g.BoxIndexOfEntity i = some b := by
  intro k
  induction k with
  | zero => intro i hi; simp [Grid.membersBelow] at hi
  | succ k ih =>
    intro i hi
    unfold Grid.membersBelow at hi
    split at hi
    · rcases List.mem_cons.1 hi with rfl | h
      · exact ⟨Nat.lt_succ_self _, by assumption⟩
      · exact ⟨Nat.lt_succ_of_lt (ih i h).1, (ih i h).2⟩
    · exact ⟨Nat.lt_succ_of_lt (ih i hi).1, (ih i hi).2⟩

theorem Grid.mem_membersBelow (g : Grid) (b : Nat) :
    ∀ k i, i < k → g.BoxIndexOfEntity i = some b → i ∈ g.membersBelow b k := by
  intro k
  induction k with
  | zero => intro i hi; omega
  | succ k ih =>
    intro i hi hb
    unfold Grid.membersBelow
    by_cases hik : i = k
    · subst hik; simp [hb]
    · have := ih i (by omega) hb
      split
      · exact List.mem_cons_of_mem _ this
      · exact this

theorem Grid.membersBelow_nodup (g : Grid) (b : Nat) : ∀ k, (g.membersBelow b k).Nodup := by
  intro k
  induction k with
  | zero => simp [Grid.membersBelow]
  | succ k ih =>
    unfold Grid.membersBelow
    split
    · refine List.nodup_cons.2 ⟨?_, ih⟩
      intro hmem
      exact Nat.lt_irrefl _ (g.membersBelow_lt b k k hmem).1
    · exact ih

/-- One unfolding of the chain traversal. -/
theorem Box.Iterator.run_succ (succ : List Nat) (n cur : Nat) :
    Box.Iterator.run succ (n + 1) { current_value_ := cur, countdown_ := ((n + 1 : Nat) : Int) } =
      match succ[cur]? with
      | none => none
      | some v =>
        match Box.Iterator.run succ n { current_value_ := v, countdown_ := (n : Int) } with
        | none => none
        | some l => some (cur :: l) := by
  have h1 : ¬ (((n + 1 : Nat) : Int) ≤ 0) := by omega
  have h2 : ((n + 1 : Nat) : Int) - 1 = (n : Int) := by omega
  simp only [Box.Iterator.run, Box.Iterator.IsAtEnd, Box.Iterator.next, Box.Iterator.deref, h1,
    decide_False, Bool.false_eq_true, if_false]
  cases succ[cur]? with
  | none => rfl
  | some v => simp only [h2]

/-- The chain traversal only reads the successor entries of the ids it visits. -/
theorem Box.Iterator.run_set (succ : List Nat) (k v : Nat) :
    ∀ n cur l, Box.Iterator.run succ n { current_value_ := cur, countdown_ := (n : Int) } = some l →
      (∀ i ∈ l, i ≠ k) →
      Box.Iterator.run (succ.set k v) n { current_value_ := cur, countdown_ := (n : Int) } = some l := by
  intro n
  induction n with
  | zero => intro cur l h _; simpa [Box.Iterator.run] using h
  | succ n ih =>
    intro cur l h hl
    rw [Box.Iterator.run_succ] at h ⊢
    cases hc : succ[cur]? with
    | none => simp [hc] at h
    | some w =>
      cases hr : Box.Iterator.run succ n { current_value_ := w, countdown_ := (n : Int) } with
      | none => simp [hc, hr] at h
      | some l1 =>
        simp only [hc, hr, Option.some.injEq] at h
        subst h
        have hcur : cur ≠ k := hl cur (List.mem_cons_self _ _)
        rw [List.getElem?_set_ne (Ne.symm hcur), hc]
        simp only
        rw [ih w l1 hr (fun i hi => hl i (List.mem_cons_of_mem _ hi))]

theorem Box.AddCell_eq (b : Box) (succ : List Nat) (k : Nat) (r : Box × List Nat)
    (h : b.AddCell succ k = some r) :
    r.1 = { start_ := k, length_ := (b.length_ + 1) % 2 ^ 16 } ∧
      r.2 = (if b.IsEmpty then succ else succ.set k b.start_) ∧
      r.2.length = succ.length := by
  unfold Box.AddCell at h
  by_cases he : b.IsEmpty
  · rw [if_pos he] at h
    cases h
    simp [he]
  · by_cases hk : k < succ.length
    · rw [if_neg he, if_pos hk] at h
      cases h
      simp [he]
    · rw [if_neg he, if_neg hk] at h
      cases h

/-- One `AddCell` of the constructor loop keeps the chain invariant. -/
theorem Grid.ChainInv_step (g : Grid) (k idx : Nat) (box : Box) (r : Box × List Nat)
    (hk : k < g.successors_.length)
    (hidx : g.BoxIndexOfEntity k = some idx) (hbox : g.boxes_[idx]? = some box)
    (hr : box.AddCell g.successors_ k = some r) (hinv : g.ChainInv k) :
    Grid.ChainInv { g with boxes_ := g.boxes_.set idx r.1, successors_ := r.2 } (k + 1) := by
  have hframe : g.SameFrame { g with boxes_ := g.boxes_.set idx r.1, successors_ := r.2 } :=
    ⟨rfl, rfl, rfl, rfl⟩
  have hidxlt : idx < g.boxes_.length := by
    rcases List.getElem?_eq_some_iff.1 hbox with ⟨h, _⟩
    exact h
  obtain ⟨hlen0, hch0⟩ := hinv idx box hbox
  obtain ⟨hr1, hr2, _⟩ := Box.AddCell_eq box g.successors_ k r hr
  have hkeep : ∀ (b : Box) (l : List Nat), g.chain b = some l → (∀ i ∈ l, i ≠ k) →
      Box.Iterator.run r.2 b.length_ b.begin = some l := by
    intro b l hl hne
    rw [hr2]
    split
    · exact hl
    · exact Box.Iterator.run_set _ _ _ _ _ _ hl hne
  intro b bx hb
  rw [Grid.membersBelow_congr hframe]
  show bx.length_ = _ ∧ Box.Iterator.run r.2 bx.length_ bx.begin = _
  simp only [Grid.membersBelow]
  by_cases hbi : b = idx
  · subst hbi
    have hbx : bx = r.1 := by
      have h2 := hb
      simp only [List.getElem?_set_self hidxlt] at h2
      exact (Option.some.inj h2).symm
    rw [if_pos hidx, hbx, hr1]
    have hn : box.length_ < 2 ^ 16 := by omega
    refine ⟨by simp only [List.length_cons]; omega, ?_⟩
    by_cases hwrap : box.length_ + 1 = 2 ^ 16
    · have h0 : (box.length_ + 1) % 2 ^ 16 = 0 := by omega
      rw [h0]
      rfl
    · have h1 : (box.length_ + 1) % 2 ^ 16 = box.length_ + 1 := by omega
      simp only [h1, Box.begin, List.take_succ_cons]
      rw [Box.Iterator.run_succ, hr2]
      by_cases he : box.IsEmpty
      · have hz : box.length_ = 0 := by simpa [Box.IsEmpty] using he
        simp only [he, if_true]
        rcases List.getElem?_eq_some_iff.2 ⟨hk, rfl⟩ with hv
        rw [hv]
        simp [hz, Box.Iterator.run]
      · simp only [he, Bool.false_eq_true, if_false]
        rw [List.getElem?_set_self hk]
        have hc := Box.Iterator.run_set g.successors_ k box.start_ box.length_ box.start_ _ hch0
          (fun i hi => by
            have := (g.membersBelow_lt b k i (List.mem_of_mem_take hi)).1
            omega)
        simp only [hc]
  · have hb1 : g.boxes_[b]? = some bx := by
      rwa [List.getElem?_set_ne (Ne.symm hbi)] at hb
    have hne : g.BoxIndexOfEntity k ≠ some b := by
      rw [hidx]
      intro h
      exact hbi (Option.some.inj h).symm
    rw [if_neg hne]
    obtain ⟨h1, h2⟩ := hinv b bx hb1
    refine ⟨h1, hkeep bx _ h2 ?_⟩
    intro i hi
    have := (g.membersBelow_lt b k i (List.mem_of_mem_take hi)).1
    omega

/-- The constructor loop keeps the frame and the sizes of both vectors. -/
theorem Grid.assign_frame : ∀ (rest : List (array3 ℚ)) (k : Nat) (g g1 : Grid),
    Grid.assign rest k g = some g1 →
      g.SameFrame g1 ∧ g1.boxes_.length = g.boxes_.length ∧
        g1.successors_.length = g.successors_.length := by
  intro rest
  induction rest with
  | nil =>
    intro k g g1 h
    simp only [Grid.assign, Option.some.injEq] at h
    subst h
    exact ⟨Grid.SameFrame.refl _, rfl, rfl⟩
  | cons p rest ih =>
    intro k g g1 h
    unfold Grid.assign at h
    cases hi : g.GetBoxIndexPos p with
    | none => simp [hi] at h
    | some idx =>
      cases hb : g.GetBox idx with
      | none => simp [hi, hb] at h
      | some box =>
        cases ha : box.AddCell g.successors_ k with
        | none => simp [hi, hb, ha] at h
        | some r =>
          simp only [hi, hb, ha] at h
          obtain ⟨hf, h1, h2⟩ := ih _ _ _ h
          obtain ⟨_, _, hl⟩ := Box.AddCell_eq box g.successors_ k r ha
          refine ⟨Grid.SameFrame.trans ⟨rfl, rfl, rfl, rfl⟩ hf, ?_, ?_⟩
          · rw [h1]; simp
          · rw [h2]; exact hl

/-- The constructor loop, started after `k` entities with the chain invariant,
ends with the chain invariant for all entities. -/
theorem Grid.assign_inv : ∀ (rest : List (array3 ℚ)) (k : Nat) (g g1 : Grid),
    rest = g.positions_.drop k → g.successors_.length = g.positions_.length →
    g.ChainInv k → Grid.assign rest k g = some g1 → g1.ChainInv g1.positions_.length := by
  intro rest
  induction rest with
  | nil =>
    intro k g g1 hrest _ hinv h
    simp only [Grid.assign, Option.some.injEq] at h
    subst h
    have hk : g.positions_.length ≤ k := by
      have := congrArg List.length hrest
      simp at this
      omega
    intro b bx hb
    obtain ⟨h1, h2⟩ := hinv b bx hb
    have hm : ∀ j, g.membersBelow b (g.positions_.length + j) = g.membersBelow b g.positions_.length := by
      intro j
      induction j with
      | zero => rfl
      | succ j ihj =>
        rw [← Nat.add_assoc]
        have hnone : g.BoxIndexOfEntity (g.positions_.length + j) = none := by
          unfold Grid.BoxIndexOfEntity
          rw [List.getElem?_eq_none (by omega)]
        simp only [Grid.membersBelow, hnone]
        rw [if_neg (by simp)]
        exact ihj
    have hkk : k = g.positions_.length + (k - g.positions_.length) := by omega
    rw [hkk, hm] at h1 h2
    exact ⟨h1, h2⟩
  | cons p rest ih =>
    intro k g g1 hrest hlen hinv h
    have hklt : k < g.positions_.length := by
      have := congrArg List.length hrest
      simp at this
      omega
    have hpk : g.positions_[k]? = some p := by
      have := congrArg (fun l => l[0]?) hrest
      simp only [List.getElem?_cons_zero, List.getElem?_drop, Nat.add_zero] at this
      exact this.symm
    have hrest1 : rest = g.positions_.drop (k + 1) := by
      have := congrArg List.tail hrest
      simpa using this
    unfold Grid.assign at h
    cases hi : g.GetBoxIndexPos p with
    | none => simp [hi] at h
    | some idx =>
      cases hb : g.GetBox idx with
      | none => simp [hi, hb] at h
      | some box =>
        cases ha : box.AddCell g.successors_ k with
        | none => simp [hi, hb, ha] at h
        | some r =>
          simp only [hi, hb, ha] at h
          have hidx : g.BoxIndexOfEntity k = some idx := by
            unfold Grid.BoxIndexOfEntity
            rw [hpk]
            exact hi
          obtain ⟨_, _, hl⟩ := Box.AddCell_eq box g.successors_ k r ha
          exact ih (k + 1) { g with boxes_ := g.boxes_.set idx r.1, successors_ := r.2 } g1
            hrest1 (hl.trans hlen)
            (Grid.ChainInv_step g k idx box r (by omega) hidx hb ha hinv) h

/-! ## The neighbor iterator -/

theorem Box.Iterator.run_length (succ : List Nat) :
    ∀ n cur l, Box.Iterator.run succ n { current_value_ := cur, countdown_ := (n : Int) } = some l →
      l.length = n := by
  intro n
  induction n with
  | zero => intro cur l h; simp [Box.Iterator.run] at h; simp [h]
  | succ n ih =>
    intro cur l h
    rw [Box.Iterator.run_succ] at h
    cases hc : succ[cur]? with
    | none => simp [hc] at h
    | some w =>
      cases hr : Box.Iterator.run succ n { current_value_ := w, countdown_ := (n : Int) } with
      | none => simp [hc, hr] at h
      | some l1 =>
        simp only [hc, hr, Option.some.injEq] at h
        subst h
        simp [ih w l1 hr]

theorem Grid.chain_length (g : Grid) (b : Box) (l : List Nat) (h : g.chain b = some l) :
    l.length = b.length_ :=
  Box.Iterator.run_length g.successors_ b.length_ b.start_ l h

theorem Grid.sumLengths_cons (g : Grid) (p : Nat) (ps : List Nat) (b : Box)
    (h : g.GetBox p = some b) : g.sumLengths (p :: ps) = b.length_ + g.sumLengths ps := by
  simp [Grid.sumLengths, h]

theorem Grid.chainsOf_length (g : Grid) :
    ∀ ps R, g.chainsOf ps = some R → R.length = g.sumLengths ps := by
  intro ps
  induction ps with
  | nil => intro R h; simp [Grid.chainsOf] at h; simp [h, Grid.sumLengths]
  | cons p ps ih =>
    intro R h
    unfold Grid.chainsOf at h
    cases hb : g.GetBox p with
    | none => simp [hb] at h
    | some b =>
      cases hc : g.chain b with
      | none => simp [hb, hc] at h
      | some l =>
        cases hr : g.chainsOf ps with
        | none => simp [hb, hc, hr] at h
        | some r =>
          simp only [hb, hc, hr, Option.some.injEq] at h
          subst h
          rw [Grid.sumLengths_cons g p ps b hb, List.length_append, ih r hr,
            Grid.chain_length g b l hc]

/-- Running the loop on an iterator that is at its end reads nothing. -/
theorem NeighborIterator.run_end (g : Grid) (fuel : Nat) (it : NeighborIterator)
    (h : it.is_end_ = true) : it.run g fuel = some ([], it) := by
  cases fuel with
  | zero => rfl
  | succ k => simp [NeighborIterator.run, NeighborIterator.IsAtEnd, h]

/-- Inside a non-empty box: the loop reads the rest of the chain of the box and
then what it reads after `ForwardToNonEmptyBox`. -/
theorem NeighborIterator.run_box (g : Grid) (nb : List Nat) (j F : Nat) (R : List Nat)
    (H : ∀ bi : Box.Iterator, ∃ it1,
      NeighborIterator.ForwardToNonEmptyBox g
        { neighbor_boxes_ := nb, box_iterator_ := bi, box_idx_ := j, is_end_ := false } = some it1 ∧
      ∀ fuel, F ≤ fuel → ∃ itEnd, it1.run g fuel = some (R, itEnd) ∧ itEnd.is_end_ = true) :
    ∀ c cur ids,
      Box.Iterator.run g.successors_ (c + 1)
        { current_value_ := cur, countdown_ := ((c + 1 : Nat) : Int) } = some ids →
      ∀ fuel, c + 1 + F ≤ fuel → ∃ itEnd,
        NeighborIterator.run g fuel
          { neighbor_boxes_ := nb,
            box_iterator_ := { current_value_ := cur, countdown_ := ((c + 1 : Nat) : Int) },
            box_idx_ := j, is_end_ := false } = some (ids ++ R, itEnd) ∧ itEnd.is_end_ = true := by
  intro c
  induction c with
  | zero =>
    intro cur ids hids fuel hfuel
    rw [Box.Iterator.run_succ] at hids
    cases hc : g.successors_[cur]? with
    | none => simp [hc] at hids
    | some v =>
      simp only [hc, Box.Iterator.run, Option.some.injEq] at hids
      subst hids
      obtain ⟨it1, hfw, hrun⟩ := H { current_value_ := v, countdown_ := 0 }
      obtain ⟨fuel1, rfl⟩ : ∃ f, fuel = f + 1 := ⟨fuel - 1, by omega⟩
      obtain ⟨itEnd, hE, hend⟩ := hrun fuel1 (by omega)
      refine ⟨itEnd, ?_, hend⟩
      simp only [NeighborIterator.run, NeighborIterator.IsAtEnd, NeighborIterator.next,
        Box.Iterator.next, hc, Box.Iterator.IsAtEnd, NeighborIterator.deref, Box.Iterator.deref]
      simp [hfw, hE]
  | succ c ih =>
    intro cur ids hids fuel hfuel
    rw [Box.Iterator.run_succ] at hids
    cases hc : g.successors_[cur]? with
    | none => simp [hc] at hids
    | some v =>
      cases hr : Box.Iterator.run g.successors_ (c + 1)
          { current_value_ := v, countdown_ := ((c + 1 : Nat) : Int) } with
      | none =>
        simp only [hc] at hids
        rw [hr] at hids
        cases hids
      | some l1 =>
        simp only [hc, hr, Option.some.injEq] at hids
        subst hids
        obtain ⟨fuel1, rfl⟩ : ∃ f, fuel = f + 1 := ⟨fuel - 1, by omega⟩
        obtain ⟨itEnd, hE, hend⟩ := ih v l1 hr fuel1 (by omega)
        refine ⟨itEnd, ?_, hend⟩
        have h2 : ((c + 1 + 1 : Nat) : Int) - 1 = ((c + 1 : Nat) : Int) := by omega
        have h3 : ¬ (((c + 1 : Nat) : Int) ≤ 0) := by omega
        simp only [NeighborIterator.run, NeighborIterator.IsAtEnd, NeighborIterator.next,
          Box.Iterator.next, hc, Box.Iterator.IsAtEnd, NeighborIterator.deref, Box.Iterator.deref,
          h2, h3, decide_False, Bool.false_eq_true, if_false]
        rw [hE]
        rfl

theorem Grid.chainsOf_cons (g : Grid) (p : Nat) (ps : List Nat) (R : List Nat)
    (h : g.chainsOf (p :: ps) = some R) :
    ∃ b l r, g.GetBox p = some b ∧ g.chain b = some l ∧ g.chainsOf ps = some r ∧ R = l ++ r := by
  unfold Grid.chainsOf at h
  cases hb : g.GetBox p with
  | none => simp [hb] at h
  | some b =>
    cases hc : g.chain b with
    | none => simp [hb, hc] at h
    | some l =>
      cases hr : g.chainsOf ps with
      | none => simp [hb, hc, hr] at h
      | some r =>
        simp only [hb, hc, hr, Option.some.injEq] at h
        exact ⟨b, l, r, rfl, hc, rfl, h.symm⟩

/-- `ForwardToNonEmptyBox` from the box at position `pre.length` of the list:
the loop then reads the chains of the boxes that follow. -/
theorem NeighborIterator.forward_run (g : Grid) :
    ∀ (suf pre : List Nat) (x : Nat) (R : List Nat), g.chainsOf suf = some R →
      (pre ++ x :: suf).length < 2 ^ 16 →
      ∀ bi : Box.Iterator, ∃ it1,
        NeighborIterator.ForwardLoop g (suf.length + 1)
          { neighbor_boxes_ := pre ++ x :: suf, box_iterator_ := bi, box_idx_ := pre.length,
            is_end_ := false } = some it1 ∧
        ∀ fuel, g.sumLengths suf ≤ fuel →
          ∃ itEnd, it1.run g fuel = some (R, itEnd) ∧ itEnd.is_end_ = true := by
  intro suf
  induction suf with
  | nil =>
    intro pre x R hR hsz bi
    simp only [Grid.chainsOf, Option.some.injEq] at hR
    subst hR
    have hmod : (pre.length + 1) % 2 ^ 16 = pre.length + 1 :=
      Nat.mod_eq_of_lt (by simpa using hsz)
    refine ⟨{ neighbor_boxes_ := pre ++ [x], box_iterator_ := bi, box_idx_ := pre.length + 1,
              is_end_ := true }, ?_, ?_⟩
    · simp only [NeighborIterator.ForwardLoop, hmod]
      simp
    · intro fuel _
      exact ⟨_, NeighborIterator.run_end g fuel _ rfl, rfl⟩
  | cons y suf ih =>
    intro pre x R hR hsz bi
    obtain ⟨box, l, r, hbox, hl, hr, rfl⟩ := Grid.chainsOf_cons g y suf R hR
    have hnb : pre ++ x :: y :: suf = (pre ++ [x]) ++ y :: suf := by simp
    have hmod : (pre.length + 1) % 2 ^ 16 = pre.length + 1 :=
      Nat.mod_eq_of_lt (by
        simp only [List.length_append, List.length_cons] at hsz
        omega)
    have hget : (pre ++ x :: y :: suf)[pre.length + 1]? = some y := by
      rw [hnb, List.getElem?_append_right (by simp)]
      simp
    have hlt : pre.length + 1 < (pre ++ x :: y :: suf).length := by simp
    have hIH := ih (pre ++ [x]) y r hr (by rw [← hnb]; exact hsz)
    have hll := Grid.chain_length g box l hl
    rw [Grid.sumLengths_cons g y suf box hbox]
    by_cases he : box.IsEmpty
    · have hz : box.length_ = 0 := by simpa [Box.IsEmpty] using he
      have hl0 : l = [] := List.length_eq_zero.1 (by omega)
      obtain ⟨it1, h1, h2⟩ := hIH bi
      refine ⟨it1, ?_, ?_⟩
      · rw [NeighborIterator.ForwardLoop]
        simp only [hmod, hlt, if_true, hget, hbox, he]
        rw [← hnb] at h1
        simpa using h1
      · intro fuel hf
        rw [hl0, List.nil_append]
        exact h2 fuel (by omega)
    · have hpos : box.length_ ≠ 0 := by simpa [Box.IsEmpty] using he
      obtain ⟨c, hc⟩ : ∃ c, box.length_ = c + 1 := ⟨box.length_ - 1, by omega⟩
      refine ⟨{ neighbor_boxes_ := pre ++ x :: y :: suf, box_iterator_ := box.begin,
                box_idx_ := pre.length + 1, is_end_ := false }, ?_, ?_⟩
      · rw [NeighborIterator.ForwardLoop]
        simp only [hmod, hlt, if_true, hget, hbox, he, Bool.false_eq_true, if_false]
      · intro fuel hf
        have hchain : Box.Iterator.run g.successors_ (c + 1)
            { current_value_ := box.start_, countdown_ := ((c + 1 : Nat) : Int) } = some l := by
          have := hl
          unfold Grid.chain Box.begin at this
          rw [hc] at this
          exact this
        have H : ∀ bi : Box.Iterator, ∃ it1,
            NeighborIterator.ForwardToNonEmptyBox g
              { neighbor_boxes_ := pre ++ x :: y :: suf, box_iterator_ := bi,
                box_idx_ := pre.length + 1, is_end_ := false } = some it1 ∧
            ∀ fuel, g.sumLengths suf ≤ fuel →
              ∃ itEnd, it1.run g fuel = some (r, itEnd) ∧ itEnd.is_end_ = true := by
          intro bi1
          obtain ⟨it1, h1, h2⟩ := hIH bi1
          refine ⟨it1, ?_, h2⟩
          unfold NeighborIterator.ForwardToNonEmptyBox
          have hfuel : (pre ++ x :: y :: suf).length - (pre.length + 1) = suf.length + 1 := by
            simp
            omega
          simp only [hfuel]
          rw [← hnb] at h1
          simpa using h1
        have := NeighborIterator.run_box g (pre ++ x :: y :: suf) (pre.length + 1)
          (g.sumLengths suf) r H c box.start_ l hchain fuel (by omega)
        simpa [Box.begin, hc] using this

/-- The ids read from a `NeighborIterator` over a non-empty list of boxes are
the concatenation of the chains of the listed boxes, and the loop ends with
the iterator at its end. -/
theorem NeighborIterator.ctor_run (g : Grid) (nb : List Nat) (R : List Nat) (hne : nb ≠ [])
    (hsz : nb.length < 2 ^ 16) (hR : g.chainsOf nb = some R) :
    ∃ it, NeighborIterator.ctor g nb = some it ∧
      ∀ fuel, g.sumLengths nb ≤ fuel →
        ∃ itEnd, it.run g fuel = some (R, itEnd) ∧ itEnd.is_end_ = true := by
  cases nb with
  | nil => exact absurd rfl hne
  | cons x suf =>
    obtain ⟨box, l, r, hbox, hl, hr, rfl⟩ := Grid.chainsOf_cons g x suf R hR
    have hF := NeighborIterator.forward_run g suf [] x r hr (by simpa using hsz)
    have hll := Grid.chain_length g box l hl
    rw [Grid.sumLengths_cons g x suf box hbox]
    by_cases he : box.IsEmpty
    · have hz : box.length_ = 0 := by simpa [Box.IsEmpty] using he
      have hl0 : l = [] := List.length_eq_zero.1 (by omega)
      obtain ⟨it1, h1, h2⟩ := hF box.begin
      refine ⟨it1, ?_, ?_⟩
      · simp only [NeighborIterator.ctor, List.getElem?_cons_zero, hbox, he, if_true,
          NeighborIterator.ForwardToNonEmptyBox]
        simpa using h1
      · intro fuel hf
        rw [hl0, List.nil_append]
        exact h2 fuel (by omega)
    · have hpos : box.length_ ≠ 0 := by simpa [Box.IsEmpty] using he
      obtain ⟨c, hc⟩ : ∃ c, box.length_ = c + 1 := ⟨box.length_ - 1, by omega⟩
      refine ⟨{ neighbor_boxes_ := x :: suf, box_iterator_ := box.begin, box_idx_ := 0,
                is_end_ := false }, ?_, ?_⟩
      · simp only [NeighborIterator.ctor, List.getElem?_cons_zero, hbox, he, Bool.false_eq_true,
          if_false]
      · intro fuel hf
        have hchain : Box.Iterator.run g.successors_ (c + 1)
            { current_value_ := box.start_, countdown_ := ((c + 1 : Nat) : Int) } = some l := by
          have := hl
          unfold Grid.chain Box.begin at this
          rw [hc] at this
          exact this
        have H : ∀ bi : Box.Iterator, ∃ it1,
            NeighborIterator.ForwardToNonEmptyBox g
              { neighbor_boxes_ := x :: suf, box_iterator_ := bi, box_idx_ := 0,
                is_end_ := false } = some it1 ∧
            ∀ fuel, g.sumLengths suf ≤ fuel →
              ∃ itEnd, it1.run g fuel = some (r, itEnd) ∧ itEnd.is_end_ = true := by
          intro bi1
          obtain ⟨it1, h1, h2⟩ := hF bi1
          refine ⟨it1, ?_, h2⟩
          unfold NeighborIterator.ForwardToNonEmptyBox
          simpa using h1
        have := NeighborIterator.run_box g (x :: suf) 0 (g.sumLengths suf) r H c box.start_ l
          hchain fuel (by omega)
        simpa [Box.begin, hc] using this

/-! ## The constructor -/

/-- Every entity that the loop has still to assign has a box of the grid. -/
theorem Grid.assign_assigned : ∀ (rest : List (array3 ℚ)) (k : Nat) (g g1 : Grid),
    rest = g.positions_.drop k → Grid.assign rest k g = some g1 →
    ∀ i, k ≤ i → i < g.positions_.length →
      ∃ idx, g.BoxIndexOfEntity i = some idx ∧ idx < g.boxes_.length := by
  intro rest
  induction rest with
  | nil =>
    intro k g g1 hrest _ i hki hi
    have := congrArg List.length hrest
    simp at this
    omega
  | cons p rest ih =>
    intro k g g1 hrest h i hki hi
    have hpk : g.positions_[k]? = some p := by
      have := congrArg (fun l => l[0]?) hrest
      simp only [List.getElem?_cons_zero, List.getElem?_drop, Nat.add_zero] at this
      exact this.symm
    have hrest1 : rest = g.positions_.drop (k + 1) := by
      have := congrArg List.tail hrest
      simpa using this
    unfold Grid.assign at h
    cases hi1 : g.GetBoxIndexPos p with
    | none => simp [hi1] at h
    | some idx =>
      cases hb : g.GetBox idx with
      | none => simp [hi1, hb] at h
      | some box =>
        cases ha : box.AddCell g.successors_ k with
        | none => simp [hi1, hb, ha] at h
        | some r =>
          simp only [hi1, hb, ha] at h
          by_cases hik : i = k
          · subst hik
            refine ⟨idx, ?_, ?_⟩
            · unfold Grid.BoxIndexOfEntity
              rw [hpk]
              exact hi1
            · rcases List.getElem?_eq_some_iff.1 hb with ⟨hlt, _⟩
              exact hlt
          · have hframe : g.SameFrame
                { g with boxes_ := g.boxes_.set idx r.1, successors_ := r.2 } := ⟨rfl, rfl, rfl, rfl⟩
            obtain ⟨j, hj1, hj2⟩ := ih (k + 1)
              { g with boxes_ := g.boxes_.set idx r.1, successors_ := r.2 } g1 hrest1 h i
              (by omega) hi
            rw [Grid.BoxIndexOfEntity_congr hframe] at hj1
            exact ⟨j, hj1, by simpa using hj2⟩

/-- The constructor loop succeeds when every position that is left maps to a
box of the grid and the successor table has a slot for every entity. -/
theorem Grid.assign_isSome : ∀ (rest : List (array3 ℚ)) (k : Nat) (g : Grid),
    (∀ p ∈ rest, ∃ idx, g.GetBoxIndexPos p = some idx ∧ idx < g.boxes_.length) →
    k + rest.length ≤ g.successors_.length → ∃ g1, Grid.assign rest k g = some g1 := by
  intro rest
  induction rest with
  | nil => intro k g _ _; exact ⟨g, rfl⟩
  | cons p rest ih =>
    intro k g hall hlen
    obtain ⟨idx, hidx, hlt⟩ := hall p (List.mem_cons_self _ _)
    have hbox : g.GetBox idx = some g.boxes_[idx] := List.getElem?_eq_getElem hlt
    simp only [List.length_cons] at hlen
    have hk : k < g.successors_.length := by omega
    have hadd : ∃ r, (g.boxes_[idx]).AddCell g.successors_ k = some r := by
      unfold Box.AddCell
      by_cases he : (g.boxes_[idx]).IsEmpty
      · exact ⟨_, if_pos he⟩
      · rw [if_neg he, if_pos hk]
        exact ⟨_, rfl⟩
    obtain ⟨r, hr⟩ := hadd
    obtain ⟨_, _, hrl⟩ := Box.AddCell_eq _ _ _ _ hr
    have hframe : g.SameFrame { g with boxes_ := g.boxes_.set idx r.1, successors_ := r.2 } :=
      ⟨rfl, rfl, rfl, rfl⟩
    obtain ⟨g1, hg1⟩ := ih (k + 1) { g with boxes_ := g.boxes_.set idx r.1, successors_ := r.2 }
      (by
        intro q hq
        obtain ⟨j, hj1, hj2⟩ := hall q (List.mem_cons_of_mem _ hq)
        refine ⟨j, ?_, by simpa using hj2⟩
        rw [Grid.GetBoxIndexPos_congr hframe]
        exact hj1)
      (by
        show k + 1 + rest.length ≤ r.2.length
        omega)
    refine ⟨g1, ?_⟩
    rw [Grid.assign]
    simp only [hidx, hbox, hr]
    exact hg1

/-- A grid returned by the constructor is well formed and keeps its inputs. -/
theorem Grid.ctor_wf (positions : List (array3 ℚ)) (box_length : Nat) (max_value : array3 ℚ)
    (g : Grid) (h : Grid.ctor positions box_length max_value = some g) :
    g.WellFormed ∧ g.positions_ = positions ∧ g.box_lenght_ = box_length := by
  unfold Grid.ctor at h
  by_cases hL : box_length = 0
  · simp [hL] at h
  · rw [if_neg hL] at h
    cases h0 : double_to_unsigned 64 max_value.a0 with
    | none => simp [h0] at h
    | some m0 =>
      cases h1 : double_to_unsigned 64 max_value.a1 with
      | none => simp [h0, h1] at h
      | some m1 =>
        cases h2 : double_to_unsigned 64 max_value.a2 with
        | none => simp [h0, h1, h2] at h
        | some m2 =>
          simp only [h0, h1, h2] at h
          obtain ⟨⟨hp, hbl, hax, hxy⟩, hboxes, hsucc⟩ := Grid.assign_frame _ _ _ _ h
          have hinv := Grid.assign_inv positions 0 _ g (by simp) (by simp)
            (by
              intro b box hb
              simp only [List.getElem?_replicate] at hb
              split at hb
              · cases hb
                exact ⟨rfl, rfl⟩
              · cases hb) h
          have hasg := Grid.assign_assigned positions 0 _ g (by simp) h
          simp only at hp hbl hax hxy hboxes hsucc hasg
          have hframe : Grid.SameFrame _ g := (Grid.assign_frame _ _ _ _ h).1
          refine ⟨⟨by rw [hbl]; exact hL, ?_, ?_, ?_, ?_, ?_, ?_, ?_, hinv⟩, hp, hbl⟩
          · rw [hax]; exact Nat.mod_lt _ (by norm_num)
          · rw [hax]; exact Nat.mod_lt _ (by norm_num)
          · rw [hax]; exact Nat.mod_lt _ (by norm_num)
          · rw [hxy, hax]
          · rw [hboxes, hxy, hax]; simp
          · rw [hsucc, hp]; simp
          · intro i hi
            rw [hp] at hi
            obtain ⟨idx, hi1, hi2⟩ := hasg i (Nat.zero_le _) hi
            refine ⟨idx, ?_, ?_⟩
            · rw [Grid.BoxIndexOfEntity_congr hframe]
              exact hi1
            · rw [hboxes]
              exact hi2

/-- The box counts along each axis of a grid returned by the constructor. -/
theorem Grid.ctor_axis (positions : List (array3 ℚ)) (box_length : Nat) (max_value : array3 ℚ)
    (g : Grid) (h : Grid.ctor positions box_length max_value = some g) :
    ∃ m0 m1 m2, double_to_unsigned 64 max_value.a0 = some m0 ∧
      double_to_unsigned 64 max_value.a1 = some m1 ∧
      double_to_unsigned 64 max_value.a2 = some m2 ∧
      g.num_boxes_axis_ =
        { a0 := (m0 / box_length) % 2 ^ 32, a1 := (m1 / box_length) % 2 ^ 32,
          a2 := (m2 / box_length) % 2 ^ 32 } := by
  unfold Grid.ctor at h
  by_cases hL : box_length = 0
  · simp [hL] at h
  · rw [if_neg hL] at h
    cases h0 : double_to_unsigned 64 max_value.a0 with
    | none => simp [h0] at h
    | some m0 =>
      cases h1 : double_to_unsigned 64 max_value.a1 with
      | none => simp [h0, h1] at h
      | some m1 =>
        cases h2 : double_to_unsigned 64 max_value.a2 with
        | none => simp [h0, h1, h2] at h
        | some m2 =>
          simp only [h0, h1, h2] at h
          obtain ⟨⟨_, _, hax, _⟩, _, _⟩ := Grid.assign_frame _ _ _ _ h
          exact ⟨m0, m1, m2, rfl, rfl, rfl, hax⟩

/-! ## Counting the members of the boxes -/

theorem sum_indicator (idx : Nat) :
    ∀ T, ((List.range T).map (fun b => if idx = b then 1 else 0)).sum = if idx < T then 1 else 0 := by
  intro T
  induction T with
  | zero => simp
  | succ T ih =>
    rw [List.range_succ, List.map_append, List.sum_append, ih]
    by_cases h1 : idx < T
    · have h2 : idx ≠ T := by omega
      have h3 : idx < T + 1 := by omega
      simp [h1, h2, h3]
    · by_cases h2 : idx = T
      · have h3 : idx < T + 1 := by omega
        simp [h1, h2]
      · have h3 : ¬ idx < T + 1 := by omega
        simp [h1, h2, h3]

/-- The boxes partition the entities: the member counts of the first `T` boxes
add up to the number of entities when every entity has a box below `T`. -/
theorem Grid.sum_membersBelow (g : Grid) (T : Nat) :
    ∀ k, (∀ i, i < k → ∃ idx, g.BoxIndexOfEntity i = some idx ∧ idx < T) →
      ((List.range T).map (fun b => (g.membersBelow b k).length)).sum = k := by
  intro k
  induction k with
  | zero => intro _; simp [Grid.membersBelow]
  | succ k ih =>
    intro h
    obtain ⟨idx, hidx, hlt⟩ := h k (Nat.lt_succ_self k)
    have hstep : ∀ b, (g.membersBelow b (k + 1)).length =
        (g.membersBelow b k).length + (if idx = b then 1 else 0) := by
      intro b
      simp only [Grid.membersBelow, hidx, Option.some.injEq]
      split <;> simp
    simp only [hstep]
    rw [List.sum_map_add, ih (fun i hi => h i (Nat.lt_succ_of_lt hi)), sum_indicator, if_pos hlt]

/-- In a well-formed grid the chain of a box lists the most recent `length_`
members of the box, largest id first. -/
theorem Grid.WellFormed.chain_eq {g : Grid} (wf : g.WellFormed) (b : Nat) (box : Box)
    (hb : g.boxes_[b]? = some box) :
    box.length_ = g.population b % 2 ^ 16 ∧ g.chain box = some ((g.members b).take box.length_) :=
  wf.chains b box hb

/-- When the box holds fewer than `2^16` entities its chain lists all of them. -/
theorem Grid.WellFormed.chain_eq_members {g : Grid} (wf : g.WellFormed) (b : Nat) (box : Box)
    (hb : g.boxes_[b]? = some box) (hpop : g.population b < 2 ^ 16) :
    box.length_ = g.population b ∧ g.chain box = some (g.members b) := by
  obtain ⟨h1, h2⟩ := wf.chain_eq b box hb
  have h3 : box.length_ = g.population b := by omega
  refine ⟨h3, ?_⟩
  rw [h2, h3]
  unfold Grid.population
  rw [List.take_length]

theorem Grid.mem_members (g : Grid) (b i : Nat) :
    i ∈ g.members b ↔ i < g.positions_.length ∧ g.BoxIndexOfEntity i = some b :=
  ⟨fun h => g.membersBelow_lt b _ i h, fun h => g.mem_membersBelow b _ i h.1 h.2⟩

/-! ## Rounding to a double -/

/-- An integer is rounded to itself. -/
theorem round_half_even_intCast (n : Int) : round_half_even (n : ℚ) = n := by
  unfold round_half_even
  simp

/-- Rounding moves a value by at most one half. -/
theorem round_half_even_abs (x : ℚ) : |((round_half_even x : Int) : ℚ) - x| ≤ 1 / 2 := by
  have hf := Int.self_sub_floor x
  have h0 := Int.fract_nonneg x
  have h1 := Int.fract_lt_one x
  unfold round_half_even
  split_ifs <;> push_cast <;> rw [abs_le] <;> constructor <;> linarith

/-- The integer nearer than one half is the rounded value. -/
theorem round_half_even_eq_of_lt (x : ℚ) (m : Int) (h : |x - (m : ℚ)| < 1 / 2) :
    round_half_even x = m := by
  have h1 := round_half_even_abs x
  rw [abs_le] at h1
  rw [abs_lt] at h
  have h2 : ((round_half_even x : Int) : ℚ) < (m : ℚ) + 1 := by linarith
  have h3 : (m : ℚ) - 1 < ((round_half_even x : Int) : ℚ) := by linarith
  have h4 : round_half_even x < m + 1 := by exact_mod_cast h2
  have h5 : m - 1 < round_half_even x := by exact_mod_cast h3
  omega

/-- A value half-way between two integers is rounded to the even one. -/
theorem round_half_even_tie (x : ℚ) (m : Int) (h : x = (m : ℚ) + 1 / 2) :
    round_half_even x = if m % 2 = 0 then m else m + 1 := by
  have hfl : ⌊x⌋ = m := by
    rw [Int.floor_eq_iff]
    constructor <;> linarith
  have hfr : Int.fract x = 1 / 2 := by
    rw [← Int.self_sub_floor, hfl, h]; ring
  unfold round_half_even
  rw [hfr, hfl]
  norm_num

theorem round_half_even_ge (x : ℚ) (n : Int) (h : (n : ℚ) ≤ x) : n ≤ round_half_even x := by
  have h1 : n ≤ ⌊x⌋ := Int.le_floor.mpr h
  unfold round_half_even
  split_ifs <;> omega

theorem round_half_even_le (x : ℚ) (n : Int) (h : x ≤ (n : ℚ)) : round_half_even x ≤ n := by
  have h1 : ⌊x⌋ ≤ n := by
    have := Int.floor_le x
    have h2 : ((⌊x⌋ : Int) : ℚ) ≤ (n : ℚ) := le_trans this h
    exact_mod_cast h2
  have hf := Int.self_sub_floor x
  unfold round_half_even
  split_ifs with c1 c2 c3
  · exact h1
  · have h3 : ((⌊x⌋ : Int) : ℚ) < (n : ℚ) := by linarith
    have h4 : ⌊x⌋ < n := by exact_mod_cast h3
    omega
  · exact h1
  · have h3 : ((⌊x⌋ : Int) : ℚ) < (n : ℚ) := by
      have : 0 < Int.fract x := by
        by_contra hc
        have h0 := Int.fract_nonneg x
        have : Int.fract x = 0 := le_antisymm (not_lt.mp hc) h0
        rw [this] at c1
        norm_num at c1
      linarith
    have h4 : ⌊x⌋ < n := by exact_mod_cast h3
    omega

theorem round_to_double_zero : round_to_double 0 = 0 := by
  simp [round_to_double]

theorem round_to_double_pos_eq (q : ℚ) (hq : 0 < q) :
    round_to_double q =
      ((round_half_even (q / (2 : ℚ) ^ (Int.log 2 q - 52)) : Int) : ℚ) *
        (2 : ℚ) ^ (Int.log 2 q - 52) := by
  unfold round_to_double
  simp [hq.ne', hq, abs_of_pos hq]

theorem round_to_double_neg (q : ℚ) : round_to_double (-q) = -round_to_double q := by
  unfold round_to_double
  by_cases h : q = 0
  · simp [h]
  · rcases lt_or_gt_of_ne h with hlt | hgt
    · have h1 : ¬ (0 < q) := not_lt.mpr hlt.le
      have h2 : (0 : ℚ) < -q := by linarith
      simp [h, h1, hlt]
    · have h1 : ¬ (q < 0) := not_lt.mpr hgt.le
      simp [h, h1, hgt]

theorem log_two_eq (q : ℚ) (e : Int) (h1 : (2 : ℚ) ^ e ≤ q) (h2 : q < (2 : ℚ) ^ (e + 1)) :
    Int.log 2 q = e := by
  have hq : 0 < q := lt_of_lt_of_le (by positivity) h1
  have a1 : e ≤ Int.log 2 q := by
    rw [← Int.zpow_le_iff_le_log (by norm_num) hq]
    exact_mod_cast h1
  have a2 : Int.log 2 q < e + 1 := by
    rw [← Int.lt_zpow_iff_log_lt (by norm_num) hq]
    exact_mod_cast h2
  omega

theorem log_two_bounds (q : ℚ) (hq : 0 < q) :
    (2 : ℚ) ^ (Int.log 2 q) ≤ q ∧ q < (2 : ℚ) ^ (Int.log 2 q + 1) := by
  have a1 := Int.zpow_log_le_self (b := 2) (r := q) (by norm_num) hq
  have a2 := Int.lt_zpow_succ_log_self (b := 2) (by norm_num) q
  exact ⟨by exact_mod_cast a1, by exact_mod_cast a2⟩

/-- The rounded value of `q` from its binade and the rounded significand. -/
theorem round_to_double_eval (q : ℚ) (e m : Int) (h1 : (2 : ℚ) ^ e ≤ q)
    (h2 : q < (2 : ℚ) ^ (e + 1)) (hm : round_half_even (q / (2 : ℚ) ^ (e - 52)) = m) :
    round_to_double q = (m : ℚ) * (2 : ℚ) ^ (e - 52) := by
  have hq : 0 < q := lt_of_lt_of_le (by positivity) h1
  rw [round_to_double_pos_eq q hq, log_two_eq q e h1 h2, hm]

/-- A rounded positive value stays in the closed binade of the exact one, and
the relative error is at most `2^-53`. -/
theorem round_to_double_bounds (q : ℚ) (hq : 0 < q) :
    (2 : ℚ) ^ (Int.log 2 q) ≤ round_to_double q ∧
      round_to_double q ≤ (2 : ℚ) ^ (Int.log 2 q + 1) ∧
      |round_to_double q - q| ≤ q / 2 ^ 53 := by
  obtain ⟨b1, b2⟩ := log_two_bounds q hq
  rw [round_to_double_pos_eq q hq]
  generalize Int.log 2 q = e at b1 b2 ⊢
  have hu : (0 : ℚ) < (2 : ℚ) ^ (e - 52) := by positivity
  have he : (2 : ℚ) ^ e = 2 ^ 52 * (2 : ℚ) ^ (e - 52) := by
    rw [zpow_sub₀ (by norm_num : (2 : ℚ) ≠ 0)]
    field_simp
    ring
  have he1 : (2 : ℚ) ^ (e + 1) = 2 ^ 53 * (2 : ℚ) ^ (e - 52) := by
    rw [zpow_add₀ (by norm_num : (2 : ℚ) ≠ 0), he]
    norm_num; ring
  generalize (2 : ℚ) ^ (e - 52) = u at hu he he1 ⊢
  rw [he] at b1 ⊢
  rw [he1] at b2 ⊢
  have x1 : ((2 ^ 52 : Int) : ℚ) ≤ q / u := by
    rw [le_div_iff₀ hu]; push_cast; exact b1
  have x2 : q / u ≤ ((2 ^ 53 : Int) : ℚ) := by
    rw [div_le_iff₀ hu]; push_cast; exact b2.le
  have r1 := round_half_even_ge _ _ x1
  have r2 := round_half_even_le _ _ x2
  have r3 := round_half_even_abs (q / u)
  generalize round_half_even (q / u) = r at r1 r2 r3
  have r1q : ((2 ^ 52 : Int) : ℚ) ≤ (r : ℚ) := by exact_mod_cast r1
  have r2q : (r : ℚ) ≤ ((2 ^ 53 : Int) : ℚ) := by exact_mod_cast r2
  push_cast at r1q r2q
  refine ⟨by nlinarith, by nlinarith, ?_⟩
  have e1 : (r : ℚ) * u - q = ((r : ℚ) - q / u) * u := by field_simp
  rw [e1, abs_mul, abs_of_pos hu]
  have : |(r : ℚ) - q / u| * u ≤ 1 / 2 * u := by
    apply mul_le_mul_of_nonneg_right r3 hu.le
  have : 1 / 2 * u ≤ q / 2 ^ 53 := by
    rw [le_div_iff₀ (by norm_num)]
    linarith
  linarith

theorem round_to_double_pos (q : ℚ) (hq : 0 < q) : 0 < round_to_double q :=
  lt_of_lt_of_le (by positivity) (round_to_double_bounds q hq).1

/-- Only zero is rounded to zero (the exponent range is not bounded). -/
theorem round_to_double_eq_zero_iff (q : ℚ) : round_to_double q = 0 ↔ q = 0 := by
  constructor
  · intro h
    by_contra hne
    rcases lt_or_gt_of_ne hne with hlt | hgt
    · have := round_to_double_pos (-q) (by linarith)
      rw [round_to_double_neg] at this
      linarith
    · have := round_to_double_pos q hgt
      linarith
  · rintro rfl; exact round_to_double_zero

theorem round_to_double_nonneg_iff (q : ℚ) : 0 ≤ round_to_double q ↔ 0 ≤ q := by
  constructor
  · intro h
    by_contra hne
    have := round_to_double_pos (-q) (by linarith)
    rw [round_to_double_neg] at this
    linarith
  · intro h
    rcases eq_or_lt_of_le h with h0 | h0
    · rw [← h0, round_to_double_zero]
    · exact (round_to_double_pos q h0).le

theorem round_to_double_of_quotient (q : ℚ) (hq : 0 < q) (n : Int)
    (hn : q / (2 : ℚ) ^ (Int.log 2 q - 52) = (n : ℚ)) : round_to_double q = q := by
  rw [round_to_double_pos_eq q hq, hn, round_half_even_intCast, ← hn]
  have hu : (2 : ℚ) ^ (Int.log 2 q - 52) ≠ 0 := by positivity
  field_simp

theorem round_to_double_dyadic_pos (m : Nat) (j : Int) (h0 : 0 < m) (hm : m < 2 ^ 53) :
    round_to_double ((m : ℚ) * (2 : ℚ) ^ j) = (m : ℚ) * (2 : ℚ) ^ j := by
  have hq : (0 : ℚ) < (m : ℚ) * (2 : ℚ) ^ j := by positivity
  have hlog : Int.log 2 ((m : ℚ) * (2 : ℚ) ^ j) < j + 53 := by
    rw [← Int.lt_zpow_iff_log_lt (by norm_num) hq]
    have h2 : ((2 : ℕ) : ℚ) ^ (j + 53) = 2 ^ 53 * (2 : ℚ) ^ j := by
      rw [zpow_add₀ (by norm_num)]
      norm_num; ring
    rw [h2]
    have hm1 : (m : ℚ) < 2 ^ 53 := by exact_mod_cast hm
    have hp : (0 : ℚ) < (2 : ℚ) ^ j := by positivity
    exact mul_lt_mul_of_pos_right hm1 hp
  generalize hE : Int.log 2 ((m : ℚ) * (2 : ℚ) ^ j) = e at hlog
  obtain ⟨n, hn⟩ : ∃ n : Nat, j - (e - 52) = (n : Int) := ⟨(j - (e - 52)).toNat, by omega⟩
  refine round_to_double_of_quotient _ hq ((m : Int) * 2 ^ n) ?_
  rw [hE, mul_div_assoc, ← zpow_sub₀ (by norm_num : (2 : ℚ) ≠ 0), hn]
  push_cast
  rw [zpow_natCast]

/-- A value `m * 2^j` with `|m| < 2^53` is a double: rounding returns it. -/
theorem round_to_double_dyadic (m j : Int) (hm : m.natAbs < 2 ^ 53) :
    round_to_double ((m : ℚ) * (2 : ℚ) ^ j) = (m : ℚ) * (2 : ℚ) ^ j := by
  rcases lt_trichotomy m 0 with h | h | h
  · obtain ⟨k, rfl⟩ : ∃ k : Nat, m = -(k : Int) := ⟨m.natAbs, by omega⟩
    have hk : 0 < k := by omega
    have hk2 : k < 2 ^ 53 := by simpa using hm
    have := round_to_double_dyadic_pos k j hk hk2
    push_cast
    rw [neg_mul, round_to_double_neg, this]
  · subst h; simp [round_to_double_zero]
  · obtain ⟨k, rfl⟩ : ∃ k : Nat, m = (k : Int) := ⟨m.natAbs, by omega⟩
    have hk : 0 < k := by omega
    have hk2 : k < 2 ^ 53 := by simpa using hm
    simpa using round_to_double_dyadic_pos k j hk hk2

/-- An integer of absolute value below `2^53` is a double. -/
theorem round_to_double_intCast (z : Int) (hz : z.natAbs < 2 ^ 53) :
    round_to_double (z : ℚ) = (z : ℚ) := by
  simpa using round_to_double_dyadic z 0 hz

/-- The rounded quotient of two natural numbers, the dividend below `2^53`, has
the floor of the exact quotient: the nearest double to a quotient that is not
an integer lies on the same side of every integer. -/
theorem floor_round_to_double_div (a b : Nat) (hb : 0 < b) (ha : a < 2 ^ 53) :
    ⌊round_to_double ((a : ℚ) / (b : ℚ))⌋ = ((a / b : Nat) : Int) := by
  have hbq : (0 : ℚ) < (b : ℚ) := by exact_mod_cast hb
  have hk : a / b < 2 ^ 53 := lt_of_le_of_lt (Nat.div_le_self a b) ha
  have hrb : a % b < b := Nat.mod_lt a hb
  have hdm0 : b * (a / b) + a % b = a := Nat.div_add_mod a b
  generalize a / b = k at hk hdm0 ⊢
  generalize a % b = r at hrb hdm0
  have hdm : (a : ℚ) = (b : ℚ) * (k : ℚ) + (r : ℚ) := by exact_mod_cast hdm0.symm
  have hquot : (a : ℚ) / (b : ℚ) = (k : ℚ) + (r : ℚ) / (b : ℚ) := by
    rw [hdm]; field_simp; ring
  rcases Nat.eq_zero_or_pos r with hr | hr
  · rw [hquot, hr]
    simp only [Nat.cast_zero, zero_div, add_zero]
    have := round_to_double_intCast (k : Int) (by simpa using hk)
    rw [Int.cast_natCast] at this
    rw [this]
    exact Int.floor_natCast _
  · have hapos : 0 < a := by
      rcases Nat.eq_zero_or_pos a with h0 | h0
      · subst h0
        have : b * k = 0 := by omega
        omega
      · exact h0
    have hq : (0 : ℚ) < (a : ℚ) / (b : ℚ) := by positivity
    have herr := (round_to_double_bounds _ hq).2.2
    rw [abs_le] at herr
    have hsmall : (a : ℚ) / (b : ℚ) / 2 ^ 53 < 1 / (b : ℚ) := by
      rw [div_div, div_lt_div_iff₀ (by positivity) hbq]
      have : (a : ℚ) < 2 ^ 53 := by exact_mod_cast ha
      nlinarith
    have hr1 : (1 : ℚ) ≤ (r : ℚ) := by exact_mod_cast hr
    have hr2 : (r : ℚ) + 1 ≤ (b : ℚ) := by exact_mod_cast hrb
    have hfrac1 : 1 / (b : ℚ) ≤ (r : ℚ) / (b : ℚ) :=
      div_le_div_of_nonneg_right hr1 hbq.le
    have hfrac2 : (r : ℚ) / (b : ℚ) + 1 / (b : ℚ) ≤ 1 := by
      rw [← add_div, div_le_one hbq]
      exact hr2
    rw [Int.floor_eq_iff, Int.cast_natCast]
    constructor <;> linarith

/-- For `|z| < 2^53` the rounded quotient `z / L`, truncated toward zero, is the
truncating integer quotient. -/
theorem trunc_round_to_double_div (z : Int) (L : Nat) (hL : 0 < L) (hz : z.natAbs < 2 ^ 53) :
    (if 0 ≤ round_to_double ((z : ℚ) / (L : ℚ)) then ⌊round_to_double ((z : ℚ) / (L : ℚ))⌋
      else ⌈round_to_double ((z : ℚ) / (L : ℚ))⌉) = Int.tdiv z (L : Int) := by
  have hLq : (0 : ℚ) < (L : ℚ) := by exact_mod_cast hL
  rcases le_or_lt 0 z with h | h
  · obtain ⟨a, rfl⟩ : ∃ a : Nat, z = (a : Int) := ⟨z.natAbs, by omega⟩
    have ha : a < 2 ^ 53 := by simpa using hz
    have hq : (0 : ℚ) ≤ ((a : Int) : ℚ) / (L : ℚ) := by positivity
    rw [if_pos ((round_to_double_nonneg_iff _).mpr hq)]
    push_cast
    rw [floor_round_to_double_div a L hL ha]
    rw [Int.tdiv_eq_ediv (by omega) (by omega)]
    rfl
  · obtain ⟨a, rfl⟩ : ∃ a : Nat, z = -(a : Int) := ⟨z.natAbs, by omega⟩
    have ha : a < 2 ^ 53 := by simpa using hz
    have ha0 : 0 < a := by omega
    have hq : ¬ (0 : ℚ) ≤ ((-(a : Int) : Int) : ℚ) / (L : ℚ) := by
      push_cast
      rw [not_le, neg_div]
      have : (0 : ℚ) < (a : ℚ) / (L : ℚ) := by positivity
      linarith
    rw [if_neg (fun hc => hq ((round_to_double_nonneg_iff _).mp hc))]
    push_cast
    rw [neg_div, round_to_double_neg, Int.ceil_neg, floor_round_to_double_div a L hL ha,
      Int.neg_tdiv, Int.tdiv_eq_ediv (by omega) (by omega)]
    rfl

/-- A value at most `-1` is rounded to a value at most `-1`. -/
theorem round_to_double_le_neg_one (q : ℚ) (h : q ≤ -1) : round_to_double q ≤ -1 := by
  have hq : (0 : ℚ) < -q := by linarith
  have h1 := (round_to_double_bounds (-q) hq).1
  have h2 : (0 : Int) ≤ Int.log 2 (-q) := by
    rw [← Int.zpow_le_iff_le_log (by norm_num) hq]
    simp only [zpow_zero]
    linarith
  have h3 : (1 : ℚ) ≤ (2 : ℚ) ^ Int.log 2 (-q) := one_le_zpow₀ (by norm_num) h2
  rw [round_to_double_neg] at h1
  linarith

/-! ## The box coordinate of a position -/

/-- The truncating integer quotient is the exact quotient truncated toward
zero. -/
theorem tdiv_eq_truncated_quotient (z : Int) (L : Nat) (hL : 0 < L) :
    Int.tdiv z (L : Int) =
      if 0 ≤ (z : ℚ) / (L : ℚ) then ⌊(z : ℚ) / (L : ℚ)⌋ else ⌈(z : ℚ) / (L : ℚ)⌉ := by
  have hLq : (0 : ℚ) < (L : ℚ) := by exact_mod_cast hL
  by_cases hz : 0 ≤ z
  · have hq : 0 ≤ (z : ℚ) / (L : ℚ) := div_nonneg (by exact_mod_cast hz) (le_of_lt hLq)
    rw [if_pos hq, Rat.floor_intCast_div_natCast, Int.tdiv_eq_ediv hz (Int.ofNat_nonneg _)]
  · have hz1 : z < 0 := lt_of_not_ge hz
    have hq : ¬ 0 ≤ (z : ℚ) / (L : ℚ) := by
      rw [not_le]
      exact div_neg_of_neg_of_pos (by exact_mod_cast hz1) hLq
    rw [if_neg hq]
    have h1 : (z : ℚ) / (L : ℚ) = -(((-z : Int) : ℚ) / (L : ℚ)) := by
      push_cast
      ring
    rw [h1, Int.ceil_neg, Rat.floor_intCast_div_natCast]
    have h2 : z = -(-z) := by omega
    rw [h2, Int.neg_tdiv, Int.tdiv_eq_ediv (by omega) (Int.ofNat_nonneg _)]
    simp

/-- The conversion to an unsigned integer of `w` bits of a non-negative double
below `2^w`. -/
theorem double_to_unsigned_of_nonneg (w : Nat) (q : ℚ) (h0 : 0 ≤ q) (h1 : ⌊q⌋₊ < 2 ^ w) :
    double_to_unsigned w q = some ⌊q⌋₊ := by
  unfold double_to_unsigned
  have hfl : 0 ≤ ⌊q⌋ := Int.floor_nonneg.2 h0
  have hcast : ((⌊q⌋₊ : Nat) : Int) = ⌊q⌋ := by
    rw [← Int.floor_toNat]
    exact Int.toNat_of_nonneg hfl
  simp only [if_pos h0]
  rw [if_pos ⟨hfl, by rw [← hcast]; exact_mod_cast h1⟩, Int.floor_toNat]

/-- The stored coordinate is the conversion to `uint32_t` of the rounded
quotient of the doubles `floor(p)` and `box_lenght_`: the two branches of
`floor_div_to_uint32` are this one expression. -/
theorem floor_div_to_uint32_eq (p : ℚ) (L : Nat) (hL : 0 < L) :
    floor_div_to_uint32 p L =
      double_to_unsigned 32 (round_to_double (((⌊p⌋ : Int) : ℚ) / (L : ℚ))) := by
  unfold floor_div_to_uint32 double_to_unsigned
  rw [if_neg (by omega)]
  by_cases h : ⌊p⌋.natAbs < 2 ^ 53
  · rw [if_pos h, ← trunc_round_to_double_div ⌊p⌋ L hL h]
  · rw [if_neg h]

/-- Below `2^53` the stored coordinate is also the conversion of the exact
quotient: the rounding of the division does not change the truncated value. -/
theorem floor_div_to_uint32_exact (p : ℚ) (L : Nat) (hL : 0 < L) (h53 : ⌊p⌋.natAbs < 2 ^ 53) :
    floor_div_to_uint32 p L = double_to_unsigned 32 (((⌊p⌋ : Int) : ℚ) / (L : ℚ)) := by
  unfold floor_div_to_uint32 double_to_unsigned
  rw [if_neg (by omega), if_pos h53, tdiv_eq_truncated_quotient ⌊p⌋ L hL]

/-- For a non-negative component below `2^32 * L` and below `2^53` the stored
coordinate is the integer quotient of the floor by `L`, and the range of that
box contains the component. -/
theorem floor_div_to_uint32_spec (p : ℚ) (L : Nat) (hL : 1 ≤ L) (hp : 0 ≤ p)
    (hfit : p < 2 ^ 32 * (L : ℚ)) (h53 : p < 2 ^ 53) :
    ∃ b, floor_div_to_uint32 p L = some b ∧ b = ⌊p⌋.toNat / L ∧
      (b : ℚ) * (L : ℚ) ≤ p ∧ p < ((b : ℚ) + 1) * (L : ℚ) := by
  have hfl : 0 ≤ ⌊p⌋ := Int.floor_nonneg.2 hp
  obtain ⟨m, hm⟩ : ∃ m : Nat, ⌊p⌋ = (m : Int) := ⟨⌊p⌋.toNat, (Int.toNat_of_nonneg hfl).symm⟩
  have hmle : (m : ℚ) ≤ p := by
    have := Int.floor_le p
    rw [hm] at this
    exact_mod_cast this
  have hmlt : p < (m : ℚ) + 1 := by
    have := Int.lt_floor_add_one p
    rw [hm] at this
    exact_mod_cast this
  have hLpos : 0 < L := hL
  have hmfit : m < 2 ^ 32 * L := by
    have h1 : (m : ℚ) < 2 ^ 32 * (L : ℚ) := lt_of_le_of_lt hmle hfit
    exact_mod_cast h1
  have hm53 : m < 2 ^ 53 := by
    have h1 : (m : ℚ) < 2 ^ 53 := lt_of_le_of_lt hmle h53
    exact_mod_cast h1
  have hnat : ⌊p⌋.natAbs < 2 ^ 53 := by
    rw [hm]
    simpa using hm53
  have hq : m / L < 2 ^ 32 := (Nat.div_lt_iff_lt_mul hLpos).2 hmfit
  have htdiv : Int.tdiv ⌊p⌋ (L : Int) = ((m / L : Nat) : Int) := by
    rw [hm, Int.tdiv_eq_ediv (Int.ofNat_nonneg _) (Int.ofNat_nonneg _)]
    exact (Int.ofNat_ediv m L).symm
  refine ⟨m / L, ?_, ?_, ?_, ?_⟩
  · unfold floor_div_to_uint32
    rw [if_neg (by omega)]
    simp only [if_pos hnat, htdiv]
    rw [if_pos ⟨Int.ofNat_nonneg _, by exact_mod_cast hq⟩, Int.toNat_ofNat]
  · rw [hm]
    simp
  · have h1 : m / L * L ≤ m := Nat.div_mul_le_self m L
    have h2 : ((m / L : Nat) : ℚ) * (L : ℚ) ≤ (m : ℚ) := by exact_mod_cast h1
    exact le_trans h2 hmle
  · have h1 : m < L * (m / L + 1) := Nat.lt_mul_div_succ m hLpos
    have h2 : m + 1 ≤ (m / L + 1) * L := by
      rw [Nat.mul_comm]
      exact h1
    have h3 : (m : ℚ) + 1 ≤ (((m / L : Nat) : ℚ) + 1) * (L : ℚ) := by exact_mod_cast h2
    exact lt_of_lt_of_le hmlt h3

/-! ## Index arithmetic -/

theorem size_t_sub_eq (a b : Nat) (h : b ≤ a) (ha : a < 2 ^ 64) : size_t_sub a b = a - b := by
  unfold size_t_sub
  omega

theorem size_t_add_eq (a b : Nat) (h : a + b < 2 ^ 64) : size_t_add a b = a + b := by
  unfold size_t_add
  omega

/-- Away from both ends of the index range none of the 27 index expressions of
`GetMooreBoxes` wraps. -/
theorem Grid.GetMooreBoxes_eq (g : Grid) (c : Nat)
    (hlo : g.num_boxes_xy_ + g.num_boxes_axis_.a1 + 1 ≤ c)
    (hhi : c + g.num_boxes_xy_ + g.num_boxes_axis_.a1 + 1 < 2 ^ 64) :
    g.GetMooreBoxes c =
      [ c, c - g.num_boxes_xy_, c + g.num_boxes_xy_, c - g.num_boxes_axis_.a1,
        c + g.num_boxes_axis_.a1, c - 1, c + 1,
        c - g.num_boxes_xy_ - g.num_boxes_axis_.a1, c - g.num_boxes_xy_ - 1,
        c - g.num_boxes_axis_.a1 - 1, c + g.num_boxes_xy_ - g.num_boxes_axis_.a1,
        c + g.num_boxes_xy_ - 1, c + g.num_boxes_axis_.a1 - 1,
        c - g.num_boxes_xy_ + g.num_boxes_axis_.a1, c - g.num_boxes_xy_ + 1,
        c - g.num_boxes_axis_.a1 + 1, c + g.num_boxes_xy_ + g.num_boxes_axis_.a1,
        c + g.num_boxes_xy_ + 1, c + g.num_boxes_axis_.a1 + 1,
        c - g.num_boxes_xy_ - g.num_boxes_axis_.a1 - 1,
        c - g.num_boxes_xy_ - g.num_boxes_axis_.a1 + 1,
        c - g.num_boxes_xy_ + g.num_boxes_axis_.a1 - 1,
        c - g.num_boxes_xy_ + g.num_boxes_axis_.a1 + 1,
        c + g.num_boxes_xy_ - g.num_boxes_axis_.a1 - 1,
        c + g.num_boxes_xy_ + g.num_boxes_axis_.a1 + 1,
        c + g.num_boxes_xy_ + g.num_boxes_axis_.a1 - 1,
        c + g.num_boxes_xy_ + g.num_boxes_axis_.a1 + 1 ] := by
  unfold Grid.GetMooreBoxes
  simp (disch := omega) only [size_t_sub_eq, size_t_add_eq]

theorem ToLinearIndex_eq (c : array3 Nat) (nx ny : Nat) :
    ToLinearIndex c nx ny = nx * ny * c.a2 + (nx * c.a1 + c.a0) := by
  unfold ToLinearIndex
  ring

/-- Without 32-bit overflow of `nx * ny` the constructor stores the exact
products. -/
theorem Grid.WellFormed.no_wrap {g : Grid} (wf : g.WellFormed)
    (h : g.num_boxes_axis_.a0 * g.num_boxes_axis_.a1 < 2 ^ 32) :
    g.num_boxes_xy_ = g.num_boxes_axis_.a0 * g.num_boxes_axis_.a1 ∧
      g.boxes_.length = g.num_boxes_xy_ * g.num_boxes_axis_.a2 ∧
      g.num_boxes_xy_ * g.num_boxes_axis_.a2 < 2 ^ 64 := by
  have hxy : g.num_boxes_xy_ = g.num_boxes_axis_.a0 * g.num_boxes_axis_.a1 := by
    rw [wf.xy_eq, Nat.mod_eq_of_lt h]
  have hnz := wf.nz_lt
  have hlt : g.num_boxes_xy_ * g.num_boxes_axis_.a2 < 2 ^ 64 := by
    have h1 : g.num_boxes_xy_ < 2 ^ 32 := by rw [hxy]; exact h
    have h2 : g.num_boxes_xy_ * g.num_boxes_axis_.a2 ≤ 2 ^ 32 * 2 ^ 32 :=
      Nat.mul_le_mul (Nat.le_of_lt h1) (Nat.le_of_lt hnz)
    have h3 : g.num_boxes_xy_ * g.num_boxes_axis_.a2 ≠ 2 ^ 32 * 2 ^ 32 := by
      intro heq
      rcases Nat.eq_zero_or_pos g.num_boxes_axis_.a2 with h0 | h0
      · rw [h0] at heq; norm_num at heq
      · have : g.num_boxes_xy_ * g.num_boxes_axis_.a2 < 2 ^ 32 * g.num_boxes_axis_.a2 :=
          Nat.mul_lt_mul_of_pos_right h1 h0
        have : 2 ^ 32 * g.num_boxes_axis_.a2 ≤ 2 ^ 32 * 2 ^ 32 :=
          Nat.mul_le_mul_left _ (Nat.le_of_lt hnz)
        omega
    have h4 : (2 : Nat) ^ 32 * 2 ^ 32 = 2 ^ 64 := by norm_num
    omega
  exact ⟨hxy, by rw [wf.boxes_length, Nat.mod_eq_of_lt hlt], hlt⟩

/-- The coordinate returned by `GetBoxCoordinates` for a valid index, when the
stored plane size is the exact product. -/
theorem Grid.GetBoxCoordinates_spec (g : Grid) (c : Nat) (coord : array3 Nat)
    (hxy : g.num_boxes_xy_ = g.num_boxes_axis_.a0 * g.num_boxes_axis_.a1)
    (hny : g.num_boxes_axis_.a1 < 2 ^ 32) (hnz : g.num_boxes_axis_.a2 < 2 ^ 32)
    (hc : c < g.num_boxes_xy_ * g.num_boxes_axis_.a2)
    (h : g.GetBoxCoordinates c = some coord) :
    c = g.num_boxes_xy_ * coord.a2 + (g.num_boxes_axis_.a0 * coord.a1 + coord.a0) ∧
      coord.a0 < g.num_boxes_axis_.a0 ∧ coord.a1 < g.num_boxes_axis_.a1 ∧
      coord.a2 < g.num_boxes_axis_.a2 := by
  unfold Grid.GetBoxCoordinates at h
  by_cases h0 : g.num_boxes_xy_ = 0 ∨ g.num_boxes_axis_.a0 = 0
  · rw [if_pos h0] at h
    cases h
  · rw [if_neg h0] at h
    have hxypos : 0 < g.num_boxes_xy_ := by omega
    have hnxpos : 0 < g.num_boxes_axis_.a0 := by omega
    have hz : c / g.num_boxes_xy_ < g.num_boxes_axis_.a2 :=
      (Nat.div_lt_iff_lt_mul hxypos).2 (by rw [Nat.mul_comm]; exact hc)
    have hr : c % g.num_boxes_xy_ < g.num_boxes_xy_ := Nat.mod_lt _ hxypos
    have hy : c % g.num_boxes_xy_ / g.num_boxes_axis_.a0 < g.num_boxes_axis_.a1 :=
      (Nat.div_lt_iff_lt_mul hnxpos).2 (by rw [Nat.mul_comm, ← hxy]; exact hr)
    have hx : c % g.num_boxes_xy_ % g.num_boxes_axis_.a0 < g.num_boxes_axis_.a0 :=
      Nat.mod_lt _ hnxpos
    have e1 := Nat.div_add_mod c g.num_boxes_xy_
    have e2 := Nat.div_add_mod (c % g.num_boxes_xy_) g.num_boxes_axis_.a0
    simp only [Option.some.injEq] at h
    subst h
    simp only
    rw [Nat.mod_eq_of_lt (by omega : c / g.num_boxes_xy_ < 2 ^ 32),
      Nat.mod_eq_of_lt (by omega : c % g.num_boxes_xy_ / g.num_boxes_axis_.a0 < 2 ^ 32)]
    exact ⟨by omega, hx, hy, hz⟩

/-- For an in-range coordinate and without overflow `GetBoxIndex` is the
spec's linearisation. -/
theorem Grid.GetBoxIndex_eq (g : Grid) (coord : array3 Nat)
    (hxy : g.num_boxes_xy_ = g.num_boxes_axis_.a0 * g.num_boxes_axis_.a1)
    (hxy32 : g.num_boxes_axis_.a0 * g.num_boxes_axis_.a1 < 2 ^ 32)
    (hlt : g.num_boxes_xy_ * g.num_boxes_axis_.a2 < 2 ^ 64)
    (h0 : coord.a0 < g.num_boxes_axis_.a0) (h1 : coord.a1 < g.num_boxes_axis_.a1)
    (h2 : coord.a2 < g.num_boxes_axis_.a2) :
    g.GetBoxIndex coord = ToLinearIndex coord g.num_boxes_axis_.a0 g.num_boxes_axis_.a1 ∧
      g.GetBoxIndex coord < g.num_boxes_xy_ * g.num_boxes_axis_.a2 := by
  have hY : coord.a1 * g.num_boxes_axis_.a0 + g.num_boxes_axis_.a0 ≤
      g.num_boxes_axis_.a0 * g.num_boxes_axis_.a1 := by
    have : (coord.a1 + 1) * g.num_boxes_axis_.a0 ≤ g.num_boxes_axis_.a1 * g.num_boxes_axis_.a0 :=
      Nat.mul_le_mul_right _ h1
    rw [Nat.add_mul, Nat.one_mul, Nat.mul_comm g.num_boxes_axis_.a1] at this
    exact this
  have hZ : coord.a2 * g.num_boxes_xy_ + g.num_boxes_xy_ ≤
      g.num_boxes_xy_ * g.num_boxes_axis_.a2 := by
    have : (coord.a2 + 1) * g.num_boxes_xy_ ≤ g.num_boxes_axis_.a2 * g.num_boxes_xy_ :=
      Nat.mul_le_mul_right _ h2
    rw [Nat.add_mul, Nat.one_mul, Nat.mul_comm g.num_boxes_axis_.a2] at this
    exact this
  have e : ToLinearIndex coord g.num_boxes_axis_.a0 g.num_boxes_axis_.a1 =
      coord.a2 * g.num_boxes_xy_ + coord.a1 * g.num_boxes_axis_.a0 + coord.a0 := by
    rw [hxy]
    unfold ToLinearIndex
    ring
  rw [e]
  unfold Grid.GetBoxIndex size_t_add
  rw [← hxy] at hY hxy32
  constructor <;> omega

/-- The spec's linearisation determines an in-range coordinate. -/
theorem ToLinearIndex_inj (nx ny : Nat) (c d : array3 Nat)
    (hc0 : c.a0 < nx) (hc1 : c.a1 < ny) (hd0 : d.a0 < nx) (hd1 : d.a1 < ny)
    (h : ToLinearIndex c nx ny = ToLinearIndex d nx ny) : c = d := by
  rw [ToLinearIndex_eq, ToLinearIndex_eq] at h
  have hnx : 0 < nx := by omega
  have hxy : 0 < nx * ny := Nat.mul_pos hnx (by omega)
  have rc : nx * c.a1 + c.a0 < nx * ny := by
    have : nx * (c.a1 + 1) ≤ nx * ny := Nat.mul_le_mul_left _ hc1
    rw [Nat.mul_add, Nat.mul_one] at this
    omega
  have rd : nx * d.a1 + d.a0 < nx * ny := by
    have : nx * (d.a1 + 1) ≤ nx * ny := Nat.mul_le_mul_left _ hd1
    rw [Nat.mul_add, Nat.mul_one] at this
    omega
  have hz : c.a2 = d.a2 := by
    have h1 := congrArg (fun v => v / (nx * ny)) h
    simp only at h1
    rw [Nat.mul_add_div hxy, Nat.mul_add_div hxy, Nat.div_eq_of_lt rc, Nat.div_eq_of_lt rd] at h1
    simpa using h1
  have hr : nx * c.a1 + c.a0 = nx * d.a1 + d.a0 := by
    rw [hz] at h
    omega
  have hy : c.a1 = d.a1 := by
    have h1 := congrArg (fun v => v / nx) hr
    simp only at h1
    rw [Nat.mul_add_div hnx, Nat.mul_add_div hnx, Nat.div_eq_of_lt hc0, Nat.div_eq_of_lt hd0] at h1
    simpa using h1
  have hx : c.a0 = d.a0 := by
    rw [hy] at hr
    omega
  cases c
  cases d
  simp only at hx hy hz
  subst hx hy hz
  rfl

/-- Linear facts about the index of an interior box. -/
theorem Grid.interior_facts (g : Grid) (coord : array3 Nat)
    (hxy : g.num_boxes_xy_ = g.num_boxes_axis_.a0 * g.num_boxes_axis_.a1)
    (hint : g.IsInterior coord) :
    g.num_boxes_xy_ ≤ g.num_boxes_xy_ * coord.a2 ∧
      g.num_boxes_xy_ * coord.a2 + 2 * g.num_boxes_xy_ ≤
        g.num_boxes_xy_ * g.num_boxes_axis_.a2 ∧
      g.num_boxes_axis_.a0 ≤ g.num_boxes_axis_.a0 * coord.a1 ∧
      g.num_boxes_axis_.a0 * coord.a1 + 2 * g.num_boxes_axis_.a0 ≤ g.num_boxes_xy_ := by
  obtain ⟨⟨hx1, hx2⟩, ⟨hy1, hy2⟩, ⟨hz1, hz2⟩⟩ := hint
  refine ⟨Nat.le_mul_of_pos_right _ hz1, ?_, Nat.le_mul_of_pos_right _ hy1, ?_⟩
  · have : g.num_boxes_xy_ * (coord.a2 + 2) ≤ g.num_boxes_xy_ * g.num_boxes_axis_.a2 :=
      Nat.mul_le_mul_left _ hz2
    rw [Nat.mul_add] at this
    omega
  · have : g.num_boxes_axis_.a0 * (coord.a1 + 2) ≤ g.num_boxes_axis_.a0 * g.num_boxes_axis_.a1 :=
      Nat.mul_le_mul_left _ hy2
    rw [Nat.mul_add, ← hxy] at this
    omega

/-- Around an interior box, with `ny ≤ nx`, every index formed by
`GetMooreBoxes` is the index of a box of the grid. -/
theorem Grid.GetMooreBoxes_interior_lt (g : Grid) (c : Nat) (coord : array3 Nat)
    (hxy : g.num_boxes_xy_ = g.num_boxes_axis_.a0 * g.num_boxes_axis_.a1)
    (hlt : g.num_boxes_xy_ * g.num_boxes_axis_.a2 < 2 ^ 64)
    (hyx : g.num_boxes_axis_.a1 ≤ g.num_boxes_axis_.a0)
    (hc : c = g.num_boxes_xy_ * coord.a2 + (g.num_boxes_axis_.a0 * coord.a1 + coord.a0))
    (hint : g.IsInterior coord) :
    ∀ b ∈ g.GetMooreBoxes c, b < g.num_boxes_xy_ * g.num_boxes_axis_.a2 := by
  obtain ⟨f1, f2, f3, f4⟩ := g.interior_facts coord hxy hint
  obtain ⟨⟨hx1, hx2⟩, ⟨hy1, hy2⟩, ⟨hz1, hz2⟩⟩ := hint
  rw [g.GetMooreBoxes_eq c (by omega) (by omega)]
  intro b hb
  simp only [List.mem_cons, List.mem_singleton, List.not_mem_nil, or_false] at hb
  rcases hb with rfl | rfl | rfl | rfl | rfl | rfl | rfl | rfl | rfl | rfl | rfl | rfl | rfl | rfl | rfl | rfl | rfl | rfl | rfl | rfl | rfl | rfl | rfl | rfl | rfl | rfl | rfl
  all_goals omega

/-- Around an interior box of a grid with `nx = ny`, every index formed by
`GetMooreBoxes` is the index of a box of the spec's Moore neighbourhood. -/
theorem Grid.GetMooreBoxes_interior_sound (g : Grid) (c : Nat) (coord : array3 Nat)
    (hxy : g.num_boxes_xy_ = g.num_boxes_axis_.a0 * g.num_boxes_axis_.a1)
    (hlt : g.num_boxes_xy_ * g.num_boxes_axis_.a2 < 2 ^ 64)
    (hyx : g.num_boxes_axis_.a1 = g.num_boxes_axis_.a0)
    (hc : c = g.num_boxes_xy_ * coord.a2 + (g.num_boxes_axis_.a0 * coord.a1 + coord.a0))
    (hint : g.IsInterior coord) :
    ∀ b ∈ g.GetMooreBoxes c,
      IsMooreBox g.num_boxes_axis_.a0 g.num_boxes_axis_.a1 g.num_boxes_axis_.a2 coord b := by
  obtain ⟨f1, f2, f3, f4⟩ := g.interior_facts coord hxy hint
  obtain ⟨⟨hx1, hx2⟩, ⟨hy1, hy2⟩, ⟨hz1, hz2⟩⟩ := hint
  have hw : ∀ dx dy dz : Nat, dx ≤ 2 → dy ≤ 2 → dz ≤ 2 → ∀ b,
      b + g.num_boxes_xy_ + g.num_boxes_axis_.a0 + 1 =
        c + g.num_boxes_xy_ * dz + g.num_boxes_axis_.a0 * dy + dx →
      IsMooreBox g.num_boxes_axis_.a0 g.num_boxes_axis_.a1 g.num_boxes_axis_.a2 coord b := by
    intro dx dy dz hdx hdy hdz b hb
    obtain ⟨x1, hx⟩ : ∃ x1, coord.a0 = x1 + 1 := ⟨coord.a0 - 1, by omega⟩
    obtain ⟨y1, hy⟩ : ∃ y1, coord.a1 = y1 + 1 := ⟨coord.a1 - 1, by omega⟩
    obtain ⟨z1, hz⟩ : ∃ z1, coord.a2 = z1 + 1 := ⟨coord.a2 - 1, by omega⟩
    refine ⟨x1 + dx, by omega, y1 + dy, by omega, z1 + dz, by omega, by omega, by omega,
      by omega, ?_⟩
    rw [ToLinearIndex_eq]
    simp only [← hxy]
    rw [hx, hy, hz] at hc
    simp only [Nat.mul_add, Nat.mul_one] at hc ⊢
    omega
  rw [g.GetMooreBoxes_eq c (by omega) (by omega)]
  intro b hb
  simp only [List.mem_cons, List.mem_singleton, List.not_mem_nil, or_false] at hb
  rcases hb with rfl | rfl | rfl | rfl | rfl | rfl | rfl | rfl | rfl | rfl | rfl | rfl | rfl | rfl | rfl | rfl | rfl | rfl | rfl | rfl | rfl | rfl | rfl | rfl | rfl | rfl | rfl
  · exact hw 1 1 1 (by omega) (by omega) (by omega) _ (by omega)
  · exact hw 1 1 0 (by omega) (by omega) (by omega) _ (by omega)
  · exact hw 1 1 2 (by omega) (by omega) (by omega) _ (by omega)
  · exact hw 1 0 1 (by omega) (by omega) (by omega) _ (by omega)
  · exact hw 1 2 1 (by omega) (by omega) (by omega) _ (by omega)
  · exact hw 0 1 1 (by omega) (by omega) (by omega) _ (by omega)
  · exact hw 2 1 1 (by omega) (by omega) (by omega) _ (by omega)
  · exact hw 1 0 0 (by omega) (by omega) (by omega) _ (by omega)
  · exact hw 0 1 0 (by omega) (by omega) (by omega) _ (by omega)
  · exact hw 0 0 1 (by omega) (by omega) (by omega) _ (by omega)
  · exact hw 1 0 2 (by omega) (by omega) (by omega) _ (by omega)
  · exact hw 0 1 2 (by omega) (by omega) (by omega) _ (by omega)
  · exact hw 0 2 1 (by omega) (by omega) (by omega) _ (by omega)
  · exact hw 1 2 0 (by omega) (by omega) (by omega) _ (by omega)
  · exact hw 2 1 0 (by omega) (by omega) (by omega) _ (by omega)
  · exact hw 2 0 1 (by omega) (by omega) (by omega) _ (by omega)
  · exact hw 1 2 2 (by omega) (by omega) (by omega) _ (by omega)
  · exact hw 2 1 2 (by omega) (by omega) (by omega) _ (by omega)
  · exact hw 2 2 1 (by omega) (by omega) (by omega) _ (by omega)
  · exact hw 0 0 0 (by omega) (by omega) (by omega) _ (by omega)
  · exact hw 2 0 0 (by omega) (by omega) (by omega) _ (by omega)
  · exact hw 0 2 0 (by omega) (by omega) (by omega) _ (by omega)
  · exact hw 2 2 0 (by omega) (by omega) (by omega) _ (by omega)
  · exact hw 0 0 2 (by omega) (by omega) (by omega) _ (by omega)
  · exact hw 2 2 2 (by omega) (by omega) (by omega) _ (by omega)
  · exact hw 0 2 2 (by omega) (by omega) (by omega) _ (by omega)
  · exact hw 2 2 2 (by omega) (by omega) (by omega) _ (by omega)

/-- Around an interior box of a grid with `nx = ny`, `GetMooreBoxes` lists the
box at every offset in `{-1, 0, 1}` on the three axes other than the offset
`(+1, -1, +1)`. -/
theorem Grid.GetMooreBoxes_interior_complete (g : Grid) (c : Nat) (coord : array3 Nat)
    (hxy : g.num_boxes_xy_ = g.num_boxes_axis_.a0 * g.num_boxes_axis_.a1)
    (hlt : g.num_boxes_xy_ * g.num_boxes_axis_.a2 < 2 ^ 64)
    (hyx : g.num_boxes_axis_.a1 = g.num_boxes_axis_.a0)
    (hc : c = g.num_boxes_xy_ * coord.a2 + (g.num_boxes_axis_.a0 * coord.a1 + coord.a0))
    (hint : g.IsInterior coord) (d : array3 Nat) (hd : ChebyshevLe1 d coord)
    (hne : ¬ (d.a0 = coord.a0 + 1 ∧ d.a1 + 1 = coord.a1 ∧ d.a2 = coord.a2 + 1)) :
    ToLinearIndex d g.num_boxes_axis_.a0 g.num_boxes_axis_.a1 ∈ g.GetMooreBoxes c := by
  obtain ⟨f1, f2, f3, f4⟩ := g.interior_facts coord hxy hint
  obtain ⟨⟨hx1, hx2⟩, ⟨hy1, hy2⟩, ⟨hz1, hz2⟩⟩ := hint
  obtain ⟨⟨hX, hX2⟩, ⟨hY, hY2⟩, ⟨hZ, hZ2⟩⟩ := hd
  rw [g.GetMooreBoxes_eq c (by omega) (by omega), ToLinearIndex_eq]
  simp only [← hxy]
  obtain ⟨X, Y, Z⟩ := d
  obtain ⟨x, y, z⟩ := coord
  simp only at hX hX2 hY hY2 hZ hZ2 hne hx1 hx2 hy1 hy2 hz1 hz2 f1 f2 f3 f4 hc ⊢
  obtain ⟨x1, rfl⟩ : ∃ x1, x = x1 + 1 := ⟨x - 1, by omega⟩
  obtain ⟨y1, rfl⟩ : ∃ y1, y = y1 + 1 := ⟨y - 1, by omega⟩
  obtain ⟨z1, rfl⟩ : ∃ z1, z = z1 + 1 := ⟨z - 1, by omega⟩
  simp only [Nat.mul_add, Nat.mul_one] at hc f1 f2 f3 f4
  have hX1 : X = x1 ∨ X = x1 + 1 ∨ X = x1 + 2 := by omega
  have hY1 : Y = y1 ∨ Y = y1 + 1 ∨ Y = y1 + 2 := by omega
  have hZ1 : Z = z1 ∨ Z = z1 + 1 ∨ Z = z1 + 2 := by omega
  rcases hX1 with rfl | rfl | rfl
  · rcases hY1 with rfl | rfl | rfl
    · rcases hZ1 with rfl | rfl | rfl
      · refine List.getElem?_mem (n := 19) ?_
        simp only [List.getElem?_cons_succ, List.getElem?_cons_zero, Option.some.injEq,
          Nat.mul_add, Nat.mul_one]
        omega
      · refine List.getElem?_mem (n := 9) ?_
        simp only [List.getElem?_cons_succ, List.getElem?_cons_zero, Option.some.injEq,
          Nat.mul_add, Nat.mul_one]
        omega
      · refine List.getElem?_mem (n := 23) ?_
        simp only [List.getElem?_cons_succ, List.getElem?_cons_zero, Option.some.injEq,
          Nat.mul_add, Nat.mul_one]
        omega
    · rcases hZ1 with rfl | rfl | rfl
      · refine List.getElem?_mem (n := 8) ?_
        simp only [List.getElem?_cons_succ, List.getElem?_cons_zero, Option.some.injEq,
          Nat.mul_add, Nat.mul_one]
        omega
      · refine List.getElem?_mem (n := 5) ?_
        simp only [List.getElem?_cons_succ, List.getElem?_cons_zero, Option.some.injEq,
          Nat.mul_add, Nat.mul_one]
        omega
      · refine List.getElem?_mem (n := 11) ?_
        simp only [List.getElem?_cons_succ, List.getElem?_cons_zero, Option.some.injEq,
          Nat.mul_add, Nat.mul_one]
        omega
    · rcases hZ1 with rfl | rfl | rfl
      · refine List.getElem?_mem (n := 21) ?_
        simp only [List.getElem?_cons_succ, List.getElem?_cons_zero, Option.some.injEq,
          Nat.mul_add, Nat.mul_one]
        omega
      · refine List.getElem?_mem (n := 12) ?_
        simp only [List.getElem?_cons_succ, List.getElem?_cons_zero, Option.some.injEq,
          Nat.mul_add, Nat.mul_one]
        omega
      · refine List.getElem?_mem (n := 25) ?_
        simp only [List.getElem?_cons_succ, List.getElem?_cons_zero, Option.some.injEq,
          Nat.mul_add, Nat.mul_one]
        omega
  · rcases hY1 with rfl | rfl | rfl
    · rcases hZ1 with rfl | rfl | rfl
      · refine List.getElem?_mem (n := 7) ?_
        simp only [List.getElem?_cons_succ, List.getElem?_cons_zero, Option.some.injEq,
          Nat.mul_add, Nat.mul_one]
        omega
      · refine List.getElem?_mem (n := 3) ?_
        simp only [List.getElem?_cons_succ, List.getElem?_cons_zero, Option.some.injEq,
          Nat.mul_add, Nat.mul_one]
        omega
      · refine List.getElem?_mem (n := 10) ?_
        simp only [List.getElem?_cons_succ, List.getElem?_cons_zero, Option.some.injEq,
          Nat.mul_add, Nat.mul_one]
        omega
    · rcases hZ1 with rfl | rfl | rfl
      · refine List.getElem?_mem (n := 1) ?_
        simp only [List.getElem?_cons_succ, List.getElem?_cons_zero, Option.some.injEq,
          Nat.mul_add, Nat.mul_one]
        omega
      · refine List.getElem?_mem (n := 0) ?_
        simp only [List.getElem?_cons_succ, List.getElem?_cons_zero, Option.some.injEq,
          Nat.mul_add, Nat.mul_one]
        omega
      · refine List.getElem?_mem (n := 2) ?_
        simp only [List.getElem?_cons_succ, List.getElem?_cons_zero, Option.some.injEq,
          Nat.mul_add, Nat.mul_one]
        omega
    · rcases hZ1 with rfl | rfl | rfl
      · refine List.getElem?_mem (n := 13) ?_
        simp only [List.getElem?_cons_succ, List.getElem?_cons_zero, Option.some.injEq,
          Nat.mul_add, Nat.mul_one]
        omega
      · refine List.getElem?_mem (n := 4) ?_
        simp only [List.getElem?_cons_succ, List.getElem?_cons_zero, Option.some.injEq,
          Nat.mul_add, Nat.mul_one]
        omega
      · refine List.getElem?_mem (n := 16) ?_
        simp only [List.getElem?_cons_succ, List.getElem?_cons_zero, Option.some.injEq,
          Nat.mul_add, Nat.mul_one]
        omega
  · rcases hY1 with rfl | rfl | rfl
    · rcases hZ1 with rfl | rfl | rfl
      · refine List.getElem?_mem (n := 20) ?_
        simp only [List.getElem?_cons_succ, List.getElem?_cons_zero, Option.some.injEq,
          Nat.mul_add, Nat.mul_one]
        omega
      · refine List.getElem?_mem (n := 15) ?_
        simp only [List.getElem?_cons_succ, List.getElem?_cons_zero, Option.some.injEq,
          Nat.mul_add, Nat.mul_one]
        omega
      · exact absurd ⟨by omega, by omega, by omega⟩ hne
    · rcases hZ1 with rfl | rfl | rfl
      · refine List.getElem?_mem (n := 14) ?_
        simp only [List.getElem?_cons_succ, List.getElem?_cons_zero, Option.some.injEq,
          Nat.mul_add, Nat.mul_one]
        omega
      · refine List.getElem?_mem (n := 6) ?_
        simp only [List.getElem?_cons_succ, List.getElem?_cons_zero, Option.some.injEq,
          Nat.mul_add, Nat.mul_one]
        omega
      · refine List.getElem?_mem (n := 17) ?_
        simp only [List.getElem?_cons_succ, List.getElem?_cons_zero, Option.some.injEq,
          Nat.mul_add, Nat.mul_one]
        omega
    · rcases hZ1 with rfl | rfl | rfl
      · refine List.getElem?_mem (n := 22) ?_
        simp only [List.getElem?_cons_succ, List.getElem?_cons_zero, Option.some.injEq,
          Nat.mul_add, Nat.mul_one]
        omega
      · refine List.getElem?_mem (n := 18) ?_
        simp only [List.getElem?_cons_succ, List.getElem?_cons_zero, Option.some.injEq,
          Nat.mul_add, Nat.mul_one]
        omega
      · refine List.getElem?_mem (n := 24) ?_
        simp only [List.getElem?_cons_succ, List.getElem?_cons_zero, Option.some.injEq,
          Nat.mul_add, Nat.mul_one]
        omega

/-! ## The neighbor sequence of an entity -/

theorem Grid.mem_chainsOf (g : Grid) :
    ∀ nb R, g.chainsOf nb = some R →
      ∀ j, j ∈ R ↔ ∃ p ∈ nb, ∃ b l, g.GetBox p = some b ∧ g.chain b = some l ∧ j ∈ l := by
  intro nb
  induction nb with
  | nil =>
    intro R h j
    simp only [Grid.chainsOf, Option.some.injEq] at h
    subst h
    simp
  | cons p ps ih =>
    intro R h j
    obtain ⟨b, l, r, hb, hl, hr, rfl⟩ := Grid.chainsOf_cons g p ps R h
    rw [List.mem_append, ih r hr j]
    constructor
    · rintro (hj | ⟨q, hq, b1, l1, h1, h2, h3⟩)
      · exact ⟨p, List.mem_cons_self _ _, b, l, hb, hl, hj⟩
      · exact ⟨q, List.mem_cons_of_mem _ hq, b1, l1, h1, h2, h3⟩
    · rintro ⟨q, hq, b1, l1, h1, h2, h3⟩
      rcases List.mem_cons.1 hq with rfl | hq
      · left
        rw [hb] at h1
        cases h1
        rw [hl] at h2
        cases h2
        exact h3
      · exact Or.inr ⟨q, hq, b1, l1, h1, h2, h3⟩

/-- In a well-formed grid the chains of valid boxes are all defined. -/
theorem Grid.WellFormed.chainsOf_isSome {g : Grid} (wf : g.WellFormed) :
    ∀ nb : List Nat, (∀ p ∈ nb, p < g.boxes_.length) → ∃ R, g.chainsOf nb = some R := by
  intro nb
  induction nb with
  | nil => intro _; exact ⟨[], rfl⟩
  | cons p ps ih =>
    intro h
    obtain ⟨r, hr⟩ := ih (fun q hq => h q (List.mem_cons_of_mem _ hq))
    have hp := h p (List.mem_cons_self _ _)
    have hb : g.GetBox p = some g.boxes_[p] := List.getElem?_eq_getElem hp
    obtain ⟨_, hc⟩ := wf.chain_eq p _ hb
    exact ⟨List.take g.boxes_[p].length_ (g.members p) ++ r,
      by simp only [Grid.chainsOf, hb, hc, hr]⟩

theorem Grid.GetMooreBoxes_ne_nil (g : Grid) (c : Nat) : g.GetMooreBoxes c ≠ [] := by
  simp [Grid.GetMooreBoxes]

/-- In a well-formed grid, when all Moore indices of the box of entity `i` are
valid, the loop of `ForEachNeighbor` for `i` ends and reads the concatenation of
the chains of the listed boxes. -/
theorem Grid.WellFormed.NeighborsOf_spec {g : Grid} (wf : g.WellFormed) (i idx : Nat)
    (hidx : g.BoxIndexOfEntity i = some idx)
    (hvalid : ∀ p ∈ g.GetMooreBoxes idx, p < g.boxes_.length) :
    ∃ ids itEnd, g.NeighborsOf i = some (ids, itEnd) ∧ itEnd.IsAtEnd = true ∧
      g.chainsOf (g.GetMooreBoxes idx) = some ids := by
  obtain ⟨R, hR⟩ := wf.chainsOf_isSome _ hvalid
  obtain ⟨it, hit, hrun⟩ := NeighborIterator.ctor_run g _ R (g.GetMooreBoxes_ne_nil idx)
    (by rw [show (g.GetMooreBoxes idx).length = 27 from rfl]; norm_num) hR
  obtain ⟨itEnd, hE, hend⟩ := hrun _ (Nat.le_refl _)
  refine ⟨R, itEnd, ?_, hend, hR⟩
  unfold Grid.BoxIndexOfEntity at hidx
  unfold Grid.NeighborsOf
  cases hp : g.positions_[i]? with
  | none => simp [hp] at hidx
  | some position =>
    simp only [hp] at hidx
    simp only [hidx, hit]
    exact hE

/-- The ids read for entity `i` belong to entities whose box is one of the
listed Moore boxes. -/
theorem Grid.WellFormed.mem_ids_box {g : Grid} (wf : g.WellFormed) (nb ids : List Nat)
    (h : g.chainsOf nb = some ids) (j : Nat) (hj : j ∈ ids) :
    ∃ p ∈ nb, g.BoxIndexOfEntity j = some p := by
  obtain ⟨p, hp, b, l, hb, hl, hjl⟩ := (g.mem_chainsOf nb ids h j).1 hj
  obtain ⟨_, hc⟩ := wf.chain_eq p b hb
  rw [hl] at hc
  cases hc
  exact ⟨p, hp, ((g.mem_members p j).1 (List.mem_of_mem_take hjl)).2⟩

/-- An entity whose box is listed and holds fewer than `2^16` entities is read. -/
theorem Grid.WellFormed.mem_ids_of_box {g : Grid} (wf : g.WellFormed) (nb ids : List Nat)
    (h : g.chainsOf nb = some ids) (j p : Nat) (hp : p ∈ nb) (hj : j < g.positions_.length)
    (hjp : g.BoxIndexOfEntity j = some p) (hpop : g.population p < 2 ^ 16) : j ∈ ids := by
  obtain ⟨q, hq1, hq2⟩ := wf.assigned j hj
  rw [hjp] at hq1
  cases hq1
  have hb : g.GetBox p = some g.boxes_[p] := List.getElem?_eq_getElem hq2
  obtain ⟨_, hc⟩ := wf.chain_eq_members p _ hb hpop
  exact (g.mem_chainsOf nb ids h j).2 ⟨p, hp, _, _, hb, hc, (g.mem_members p j).2 ⟨hj, hjp⟩⟩

/-- The index of the box of an entity whose coordinate is interior, in a grid
without 32-bit overflow of `nx * ny`. -/
theorem Grid.WellFormed.index_of_interior {g : Grid} (wf : g.WellFormed)
    (h32 : g.num_boxes_axis_.a0 * g.num_boxes_axis_.a1 < 2 ^ 32)
    (i : Nat) (p : array3 ℚ) (ci : array3 Nat) (hi : g.positions_[i]? = some p)
    (hci : g.BoxCoordOf p = some ci) (hint : g.IsInterior ci) :
    g.BoxIndexOfEntity i = some (ToLinearIndex ci g.num_boxes_axis_.a0 g.num_boxes_axis_.a1) ∧
      ToLinearIndex ci g.num_boxes_axis_.a0 g.num_boxes_axis_.a1 =
        g.num_boxes_xy_ * ci.a2 + (g.num_boxes_axis_.a0 * ci.a1 + ci.a0) := by
  obtain ⟨hxy, hlen, hlt⟩ := wf.no_wrap h32
  obtain ⟨⟨hx1, hx2⟩, ⟨hy1, hy2⟩, ⟨hz1, hz2⟩⟩ := hint
  obtain ⟨e1, _⟩ := g.GetBoxIndex_eq ci hxy h32 hlt (by omega) (by omega) (by omega)
  refine ⟨?_, ?_⟩
  · unfold Grid.BoxIndexOfEntity Grid.GetBoxIndexPos
    simp only [hi, hci, Option.map_some', e1]
  · rw [ToLinearIndex_eq, hxy]

/-- In a grid with one box along x/y-plane and unit boxes the origin maps to box 0. -/
theorem Grid.GetBoxIndexPos_origin (g : Grid) (hL : g.box_lenght_ = 1) (h1 : g.num_boxes_xy_ = 1)
    (h2 : g.num_boxes_axis_.a0 = 1) :
    g.GetBoxIndexPos { a0 := 0, a1 := 0, a2 := 0 } = some 0 := by
  have hfd : floor_div_to_uint32 (0 : ℚ) 1 = some 0 := by decide
  simp only [Grid.GetBoxIndexPos, Grid.BoxCoordOf, hfd, Option.map_some', Grid.GetBoxIndex,
    size_t_add, hL, h1, h2]
  norm_num

/-- Every entity at the origin of a one-box grid: the constructor succeeds for
every number of entities and the only box counts them modulo `2^16`. -/
theorem Grid.ctor_one_box (n : Nat) :
    ∃ g, Grid.ctor (List.replicate n { a0 := 0, a1 := 0, a2 := 0 }) 1 { a0 := 1, a1 := 1, a2 := 1 } = some g ∧
      g.boxes_.length = 1 ∧ g.population 0 = n ∧
      g.boxes_.map Box.length_ = [n % 2 ^ 16] := by
  have hconv : double_to_unsigned 64 (1 : ℚ) = some 1 := by decide
  have hex : ∃ g, Grid.ctor (List.replicate n { a0 := 0, a1 := 0, a2 := 0 }) 1
      { a0 := 1, a1 := 1, a2 := 1 } = some g := by
    unfold Grid.ctor
    rw [if_neg (by decide)]
    simp only [hconv]
    apply Grid.assign_isSome
    · intro p hp
      rw [List.eq_of_mem_replicate hp]
      refine ⟨0, Grid.GetBoxIndexPos_origin _ rfl (by norm_num) (by norm_num), ?_⟩
      simp only [List.length_replicate]
      norm_num
    · simp
  obtain ⟨g, hg⟩ := hex
  obtain ⟨wf, hpos, hL⟩ := Grid.ctor_wf _ _ _ g hg
  obtain ⟨m0, m1, m2, h0, h1, h2, hax⟩ := Grid.ctor_axis _ _ _ g hg
  simp only [hconv, Option.some.injEq] at h0 h1 h2
  subst h0 h1 h2
  have hax0 : g.num_boxes_axis_.a0 = 1 := by rw [hax]; norm_num
  have hax1 : g.num_boxes_axis_.a1 = 1 := by rw [hax]; norm_num
  have hax2 : g.num_boxes_axis_.a2 = 1 := by rw [hax]; norm_num
  have hxy : g.num_boxes_xy_ = 1 := by rw [wf.xy_eq, hax0, hax1]; norm_num
  have hlen : g.boxes_.length = 1 := by rw [wf.boxes_length, hxy, hax2]; norm_num
  have hn : g.positions_.length = n := by rw [hpos]; simp
  have hsum := g.sum_membersBelow 1 g.positions_.length (fun i hi => by
    obtain ⟨idx, h1, h2⟩ := wf.assigned i hi
    exact ⟨idx, h1, by omega⟩)
  simp only [List.range_succ, List.range_zero, List.nil_append, List.map_cons, List.map_nil,
    List.sum_cons, List.sum_nil, Nat.add_zero] at hsum
  have hpop : g.population 0 = n := by
    unfold Grid.population Grid.members
    omega
  refine ⟨g, hg, hlen, hpop, ?_⟩
  obtain ⟨box, hbox⟩ : ∃ box, g.boxes_ = [box] := by
    match hb : g.boxes_, hlen with
    | [box], _ => exact ⟨box, rfl⟩
  have h0 : g.boxes_[0]? = some box := by rw [hbox]; rfl
  obtain ⟨hl, _⟩ := wf.chain_eq 0 box h0
  rw [hbox]
  simp only [List.map_cons, List.map_nil, hl, hpop]

/-- The facts about a built grid without overflow of `nx * ny` and an interior
box coordinate returned by `GetBoxCoordinates`. -/
theorem Grid.built_interior (positions : List (array3 ℚ)) (box_length : Nat)
    (max_value : array3 ℚ) (g : Grid) (h : Grid.ctor positions box_length max_value = some g)
    (h32 : g.num_boxes_axis_.a0 * g.num_boxes_axis_.a1 < 2 ^ 32)
    (c : Nat) (coord : array3 Nat) (hc : c < g.boxes_.length)
    (hcoord : g.GetBoxCoordinates c = some coord) :
    g.num_boxes_xy_ = g.num_boxes_axis_.a0 * g.num_boxes_axis_.a1 ∧
      g.boxes_.length = g.num_boxes_xy_ * g.num_boxes_axis_.a2 ∧
      g.num_boxes_xy_ * g.num_boxes_axis_.a2 < 2 ^ 64 ∧
      c = g.num_boxes_xy_ * coord.a2 + (g.num_boxes_axis_.a0 * coord.a1 + coord.a0) := by
  obtain ⟨wf, _, _⟩ := Grid.ctor_wf _ _ _ g h
  obtain ⟨hxy, hlen, hlt⟩ := wf.no_wrap h32
  obtain ⟨e, _, _, _⟩ := g.GetBoxCoordinates_spec c coord hxy wf.ny_lt wf.nz_lt
    (by rw [← hlen]; exact hc) hcoord
  exact ⟨hxy, hlen, hlt, e⟩

theorem ChebyshevLe1.symm {c d : array3 Nat} (h : ChebyshevLe1 c d) : ChebyshevLe1 d c := by
  obtain ⟨⟨a, b⟩, ⟨a1, b1⟩, ⟨a2, b2⟩⟩ := h
  exact ⟨⟨b, a⟩, ⟨b1, a1⟩, ⟨b2, a2⟩⟩

/-- The neighbor sequence of an entity in an interior box of a built grid with
`nx = ny` and without overflow of `nx * ny`: the loop ends, every id it reads
belongs to an entity within offset 1 on every axis, and it reads every such
entity whose box is not at offset `(+1, -1, +1)` and holds fewer than `2^16`
entities. -/
theorem Grid.interior_sequence (positions : List (array3 ℚ)) (box_length : Nat)
    (max_value : array3 ℚ) (g : Grid) (h : Grid.ctor positions box_length max_value = some g)
    (hsq : g.num_boxes_axis_.a1 = g.num_boxes_axis_.a0)
    (h32 : g.num_boxes_axis_.a0 * g.num_boxes_axis_.a1 < 2 ^ 32)
    (i : Nat) (p : array3 ℚ) (ci : array3 Nat) (hi : g.positions_[i]? = some p)
    (hci : g.BoxCoordOf p = some ci) (hint : g.IsInterior ci) :
    ∃ ids itEnd, g.NeighborsOf i = some (ids, itEnd) ∧ itEnd.IsAtEnd = true ∧
      ∀ (j : Nat) (pj : array3 ℚ) (cj : array3 Nat), g.positions_[j]? = some pj →
        g.BoxCoordOf pj = some cj →
        cj.a0 < g.num_boxes_axis_.a0 → cj.a1 < g.num_boxes_axis_.a1 →
        cj.a2 < g.num_boxes_axis_.a2 →
        (j ∈ ids → ChebyshevLe1 cj ci) ∧
        (ChebyshevLe1 cj ci →
          ¬ (cj.a0 = ci.a0 + 1 ∧ cj.a1 + 1 = ci.a1 ∧ cj.a2 = ci.a2 + 1) →
          g.population (g.GetBoxIndex cj) < 2 ^ 16 → j ∈ ids) := by
  obtain ⟨wf, _, _⟩ := Grid.ctor_wf _ _ _ g h
  obtain ⟨hxy, hlen, hlt⟩ := wf.no_wrap h32
  obtain ⟨hidx, e⟩ := wf.index_of_interior h32 i p ci hi hci hint
  have hvalid : ∀ q ∈ g.GetMooreBoxes (ToLinearIndex ci g.num_boxes_axis_.a0 g.num_boxes_axis_.a1),
      q < g.boxes_.length := by
    rw [hlen]
    exact g.GetMooreBoxes_interior_lt _ ci hxy hlt (Nat.le_of_eq hsq) e hint
  obtain ⟨ids, itEnd, hN, hend, hch⟩ := wf.NeighborsOf_spec i _ hidx hvalid
  refine ⟨ids, itEnd, hN, hend, ?_⟩
  intro j pj cj hj hcj r0 r1 r2
  obtain ⟨ej, _⟩ := g.GetBoxIndex_eq cj hxy h32 hlt r0 r1 r2
  have hjidx : g.BoxIndexOfEntity j =
      some (ToLinearIndex cj g.num_boxes_axis_.a0 g.num_boxes_axis_.a1) := by
    unfold Grid.BoxIndexOfEntity Grid.GetBoxIndexPos
    simp only [hj, hcj, Option.map_some', ej]
  constructor
  · intro hmem
    obtain ⟨q, hq, hjq⟩ := wf.mem_ids_box _ ids hch j hmem
    rw [hjidx] at hjq
    have hq2 : q = ToLinearIndex cj g.num_boxes_axis_.a0 g.num_boxes_axis_.a1 :=
      (Option.some.inj hjq).symm
    obtain ⟨X, hXr, Y, hYr, Z, _, hX, hY, hZ, hlin⟩ :=
      g.GetMooreBoxes_interior_sound _ ci hxy hlt hsq e hint q hq
    have hcjeq : cj = { a0 := X, a1 := Y, a2 := Z } :=
      ToLinearIndex_inj _ _ cj _ r0 r1 hXr hYr (by rw [← hq2, hlin])
    rw [hcjeq]
    exact ⟨hX, hY, hZ⟩
  · intro hnear hoff hpop
    have hin := g.GetMooreBoxes_interior_complete _ ci hxy hlt hsq e hint cj hnear hoff
    have hjlt : j < g.positions_.length := by
      rcases List.getElem?_eq_some_iff.1 hj with ⟨hlt1, _⟩
      exact hlt1
    rw [ej] at hpop
    exact wf.mem_ids_of_box _ ids hch j _ hin hjlt hjidx hpop

/-! ## The claims -/

/-- C1 (amended): for every built grid with `nx = ny` and `nx * ny < 2^32` and
every interior center box index `c` with coordinate `(x, y, z)`, every box that
`GetMooreBoxes` puts in the neighbor list has a coordinate `(x+dx, y+dy, z+dz)`
with `dx, dy, dz` in `{-1, 0, 1}`, and every such box other than the one at
offset `(+1, -1, +1)` is in the list. -/
theorem GetMooreBoxes_interior_neighbourhood (positions : List (array3 ℚ)) (box_length : Nat)
    (max_value : array3 ℚ) (g : Grid) (h : Grid.ctor positions box_length max_value = some g)
    (hsq : g.num_boxes_axis_.a1 = g.num_boxes_axis_.a0)
    (h32 : g.num_boxes_axis_.a0 * g.num_boxes_axis_.a1 < 2 ^ 32)
    (c : Nat) (coord : array3 Nat) (hc : c < g.boxes_.length)
    (hcoord : g.GetBoxCoordinates c = some coord) (hint : g.IsInterior coord) :
    (∀ b ∈ g.GetMooreBoxes c,
      IsMooreBox g.num_boxes_axis_.a0 g.num_boxes_axis_.a1 g.num_boxes_axis_.a2 coord b) ∧
    (∀ b, IsMooreBox g.num_boxes_axis_.a0 g.num_boxes_axis_.a1 g.num_boxes_axis_.a2 coord b →
      b ≠ ToLinearIndex { a0 := coord.a0 + 1, a1 := coord.a1 - 1, a2 := coord.a2 + 1 }
        g.num_boxes_axis_.a0 g.num_boxes_axis_.a1 →
      b ∈ g.GetMooreBoxes c) := by
  obtain ⟨hxy, hlen, hlt, e⟩ := Grid.built_interior _ _ _ g h h32 c coord hc hcoord
  refine ⟨g.GetMooreBoxes_interior_sound c coord hxy hlt hsq e hint, ?_⟩
  rintro b ⟨X, _, Y, _, Z, _, hX, hY, hZ, rfl⟩ hne
  apply g.GetMooreBoxes_interior_complete c coord hxy hlt hsq e hint
    { a0 := X, a1 := Y, a2 := Z } ⟨hX, hY, hZ⟩
  rintro ⟨h1, h2, h3⟩
  simp only at h1 h2 h3
  apply hne
  have h2' : Y = coord.a1 - 1 := by omega
  rw [h1, h2', h3]

/-- C1, witness: the interior box 13, of coordinate (1,1,1), of the grid built
for the domain bound (3,3,3). -/
theorem GetMooreBoxes_interior_neighbourhood_witness :
    Grid.ctor [{ a0 := 1, a1 := 1, a2 := 1 }, { a0 := 1, a1 := 1, a2 := 1 }] 1 { a0 := 3, a1 := 3, a2 := 3 } = some grid_3x3x3 ∧
    grid_3x3x3.GetBoxCoordinates 13 = some { a0 := 1, a1 := 1, a2 := 1 } ∧
    grid_3x3x3.IsInterior { a0 := 1, a1 := 1, a2 := 1 } ∧
    ((∀ b ∈ grid_3x3x3.GetMooreBoxes 13, IsMooreBox 3 3 3 { a0 := 1, a1 := 1, a2 := 1 } b) ∧
      (∀ b, IsMooreBox 3 3 3 { a0 := 1, a1 := 1, a2 := 1 } b →
        b ≠ ToLinearIndex { a0 := 2, a1 := 0, a2 := 2 } 3 3 → b ∈ grid_3x3x3.GetMooreBoxes 13)) :=
  ⟨by decide, by decide, by decide,
    GetMooreBoxes_interior_neighbourhood
      [{ a0 := 1, a1 := 1, a2 := 1 }, { a0 := 1, a1 := 1, a2 := 1 }] 1
      { a0 := 3, a1 := 3, a2 := 3 } grid_3x3x3 (by decide) (by decide) (by decide) 13
      { a0 := 1, a1 := 1, a2 := 1 } (by decide) (by decide) (by decide)⟩

/-- C1, counterexample: in the grid built for the domain bound (3,3,3), box 2
is a valid center with coordinate (2,0,0); `GetMooreBoxes` lists box 3, of
coordinate (0,1,0), which is not within offset 1 of the center (the index
`2 + 1` is not omitted and runs into the next row), and it lists the index
`2 - 9` wrapped to `2^64 - 7`, which is no box at all. -/
theorem GetMooreBoxes_not_moore_at_boundary :
    Grid.ctor [{ a0 := 1, a1 := 1, a2 := 1 }, { a0 := 1, a1 := 1, a2 := 1 }] 1 { a0 := 3, a1 := 3, a2 := 3 } = some grid_3x3x3 ∧
    2 < grid_3x3x3.boxes_.length ∧
    grid_3x3x3.GetBoxCoordinates 2 = some { a0 := 2, a1 := 0, a2 := 0 } ∧
    grid_3x3x3.GetBoxCoordinates 3 = some { a0 := 0, a1 := 1, a2 := 0 } ∧
    3 ∈ grid_3x3x3.GetMooreBoxes 2 ∧ ¬ IsMooreBox 3 3 3 { a0 := 2, a1 := 0, a2 := 0 } 3 ∧
    18446744073709551609 ∈ grid_3x3x3.GetMooreBoxes 2 ∧
    ¬ IsMooreBox 3 3 3 { a0 := 2, a1 := 0, a2 := 0 } 18446744073709551609 := by
  decide

/-- C2 (amended): for every built grid with `nx = ny` and `nx * ny < 2^32` and
every two entities `i` and `j` whose boxes are interior boxes that hold fewer
than `2^16` entities each and whose box coordinates differ by at most 1 on
every axis, but not by the offset `(+1, -1, +1)` in either direction, the loop
over the `NeighborIterator` for `i` ends and reads `j`, and the loop for `j`
ends and reads `i`. -/
theorem neighbors_complete_interior (positions : List (array3 ℚ)) (box_length : Nat)
    (max_value : array3 ℚ) (g : Grid) (h : Grid.ctor positions box_length max_value = some g)
    (hsq : g.num_boxes_axis_.a1 = g.num_boxes_axis_.a0)
    (h32 : g.num_boxes_axis_.a0 * g.num_boxes_axis_.a1 < 2 ^ 32)
    (i j : Nat) (pi pj : array3 ℚ) (ci cj : array3 Nat)
    (hi : g.positions_[i]? = some pi) (hj : g.positions_[j]? = some pj)
    (hci : g.BoxCoordOf pi = some ci) (hcj : g.BoxCoordOf pj = some cj)
    (hinti : g.IsInterior ci) (hintj : g.IsInterior cj)
    (hpopi : g.population (g.GetBoxIndex ci) < 2 ^ 16)
    (hpopj : g.population (g.GetBoxIndex cj) < 2 ^ 16)
    (hnear : ChebyshevLe1 ci cj)
    (hoff1 : ¬ (cj.a0 = ci.a0 + 1 ∧ cj.a1 + 1 = ci.a1 ∧ cj.a2 = ci.a2 + 1))
    (hoff2 : ¬ (ci.a0 = cj.a0 + 1 ∧ ci.a1 + 1 = cj.a1 ∧ ci.a2 = cj.a2 + 1)) :
    (∃ ids itEnd, g.NeighborsOf i = some (ids, itEnd) ∧ itEnd.IsAtEnd = true ∧ j ∈ ids) ∧
    (∃ ids itEnd, g.NeighborsOf j = some (ids, itEnd) ∧ itEnd.IsAtEnd = true ∧ i ∈ ids) := by
  have hri := hinti
  have hrj := hintj
  obtain ⟨⟨_, hi0⟩, ⟨_, hi1⟩, ⟨_, hi2⟩⟩ := hri
  obtain ⟨⟨_, hj0⟩, ⟨_, hj1⟩, ⟨_, hj2⟩⟩ := hrj
  constructor
  · obtain ⟨ids, itEnd, hN, hend, hall⟩ :=
      Grid.interior_sequence _ _ _ g h hsq h32 i pi ci hi hci hinti
    exact ⟨ids, itEnd, hN, hend,
      (hall j pj cj hj hcj (by omega) (by omega) (by omega)).2 hnear.symm hoff1 hpopj⟩
  · obtain ⟨ids, itEnd, hN, hend, hall⟩ :=
      Grid.interior_sequence _ _ _ g h hsq h32 j pj cj hj hcj hintj
    exact ⟨ids, itEnd, hN, hend,
      (hall i pi ci hi hci (by omega) (by omega) (by omega)).2 hnear hoff2 hpopi⟩

/-- C2, witness: entities 0 and 2 of the grid built for the domain bound
(4,4,4), in the interior boxes of coordinates (1,2,1) and (2,2,2). -/
theorem neighbors_complete_interior_witness :
    Grid.ctor [{ a0 := 1, a1 := 2, a2 := 1 }, { a0 := 2, a1 := 1, a2 := 2 }, { a0 := 2, a1 := 2, a2 := 2 }] 1 { a0 := 4, a1 := 4, a2 := 4 } = some grid_4x4x4 ∧
    ((∃ ids itEnd, grid_4x4x4.NeighborsOf 0 = some (ids, itEnd) ∧ itEnd.IsAtEnd = true ∧
        2 ∈ ids) ∧
      (∃ ids itEnd, grid_4x4x4.NeighborsOf 2 = some (ids, itEnd) ∧ itEnd.IsAtEnd = true ∧
        0 ∈ ids)) :=
  ⟨by decide,
    neighbors_complete_interior
      [{ a0 := 1, a1 := 2, a2 := 1 }, { a0 := 2, a1 := 1, a2 := 2 }, { a0 := 2, a1 := 2, a2 := 2 }] 1
      { a0 := 4, a1 := 4, a2 := 4 } grid_4x4x4 (by decide) (by decide) (by decide) 0 2
      { a0 := 1, a1 := 2, a2 := 1 } { a0 := 2, a1 := 2, a2 := 2 } { a0 := 1, a1 := 2, a2 := 1 } { a0 := 2, a1 := 2, a2 := 2 } (by decide) (by decide) (by decide)
      (by decide) (by decide) (by decide) (by decide) (by decide) (by decide) (by decide)
      (by decide)⟩

/-- C2, counterexample.  In the grid built for the domain bound (2,2,2) the
entities 0 and 1 are in the boxes of coordinates (0,0,0) and (1,1,1), which
differ by 1 on every axis, and the loop for entity 0 is undefined: the second
box pointer that `GetMooreBoxes` forms is `&boxes_[0 - 4]`, outside `boxes_`.
In the grid built for the domain bound (4,4,4) the entities 0 and 1 are in the
interior boxes of coordinates (1,2,1) and (2,1,2), which differ by 1 on every
axis, and the loop for entity 0 reads the ids 0 and 2 only. -/
theorem neighbors_incomplete :
    (Grid.ctor [{ a0 := 0, a1 := 0, a2 := 0 }, { a0 := 1, a1 := 1, a2 := 1 }] 1 { a0 := 2, a1 := 2, a2 := 2 } = some grid_2x2x2 ∧
      grid_2x2x2.BoxCoordOf { a0 := 0, a1 := 0, a2 := 0 } = some { a0 := 0, a1 := 0, a2 := 0 } ∧
      grid_2x2x2.BoxCoordOf { a0 := 1, a1 := 1, a2 := 1 } = some { a0 := 1, a1 := 1, a2 := 1 } ∧
      ChebyshevLe1 { a0 := 0, a1 := 0, a2 := 0 } { a0 := 1, a1 := 1, a2 := 1 } ∧
      grid_2x2x2.NeighborsOf 0 = none) ∧
    (Grid.ctor [{ a0 := 1, a1 := 2, a2 := 1 }, { a0 := 2, a1 := 1, a2 := 2 }, { a0 := 2, a1 := 2, a2 := 2 }] 1 { a0 := 4, a1 := 4, a2 := 4 } = some grid_4x4x4 ∧
      grid_4x4x4.BoxCoordOf { a0 := 1, a1 := 2, a2 := 1 } = some { a0 := 1, a1 := 2, a2 := 1 } ∧
      grid_4x4x4.BoxCoordOf { a0 := 2, a1 := 1, a2 := 2 } = some { a0 := 2, a1 := 1, a2 := 2 } ∧
      ChebyshevLe1 { a0 := 1, a1 := 2, a2 := 1 } { a0 := 2, a1 := 1, a2 := 2 } ∧
      (grid_4x4x4.NeighborsOf 0).map Prod.fst = some [0, 2] ∧ 1 ∉ [0, 2]) := by
  decide

/-- C3 (amended): for every built grid with `nx = ny` and `nx * ny < 2^32` and
every two entities `i` and `j` whose boxes are interior boxes and whose box
coordinates differ by 2 or more on some axis, the loop over the
`NeighborIterator` for `i` ends without reading `j`, and the loop for `j` ends
without reading `i`. -/
theorem neighbors_sound_interior (positions : List (array3 ℚ)) (box_length : Nat)
    (max_value : array3 ℚ) (g : Grid) (h : Grid.ctor positions box_length max_value = some g)
    (hsq : g.num_boxes_axis_.a1 = g.num_boxes_axis_.a0)
    (h32 : g.num_boxes_axis_.a0 * g.num_boxes_axis_.a1 < 2 ^ 32)
    (i j : Nat) (pi pj : array3 ℚ) (ci cj : array3 Nat)
    (hi : g.positions_[i]? = some pi) (hj : g.positions_[j]? = some pj)
    (hci : g.BoxCoordOf pi = some ci) (hcj : g.BoxCoordOf pj = some cj)
    (hinti : g.IsInterior ci) (hintj : g.IsInterior cj)
    (hfar : ¬ ChebyshevLe1 ci cj) :
    (∃ ids itEnd, g.NeighborsOf i = some (ids, itEnd) ∧ itEnd.IsAtEnd = true ∧ j ∉ ids) ∧
    (∃ ids itEnd, g.NeighborsOf j = some (ids, itEnd) ∧ itEnd.IsAtEnd = true ∧ i ∉ ids) := by
  have hri := hinti
  have hrj := hintj
  obtain ⟨⟨_, hi0⟩, ⟨_, hi1⟩, ⟨_, hi2⟩⟩ := hri
  obtain ⟨⟨_, hj0⟩, ⟨_, hj1⟩, ⟨_, hj2⟩⟩ := hrj
  constructor
  · obtain ⟨ids, itEnd, hN, hend, hall⟩ :=
      Grid.interior_sequence _ _ _ g h hsq h32 i pi ci hi hci hinti
    exact ⟨ids, itEnd, hN, hend, fun hmem =>
      hfar ((hall j pj cj hj hcj (by omega) (by omega) (by omega)).1 hmem).symm⟩
  · obtain ⟨ids, itEnd, hN, hend, hall⟩ :=
      Grid.interior_sequence _ _ _ g h hsq h32 j pj cj hj hcj hintj
    exact ⟨ids, itEnd, hN, hend, fun hmem =>
      hfar ((hall i pi ci hi hci (by omega) (by omega) (by omega)).1 hmem)⟩

/-- C3, witness: entities 0 and 1 of the grid built for the domain bound
(5,5,3), in the interior boxes of coordinates (1,1,1) and (3,1,1). -/
theorem neighbors_sound_interior_witness :
    Grid.ctor [{ a0 := 1, a1 := 1, a2 := 1 }, { a0 := 3, a1 := 1, a2 := 1 }] 1 { a0 := 5, a1 := 5, a2 := 3 } = some grid_5x5x3 ∧
    ¬ ChebyshevLe1 { a0 := 1, a1 := 1, a2 := 1 } { a0 := 3, a1 := 1, a2 := 1 } ∧
    ((∃ ids itEnd, grid_5x5x3.NeighborsOf 0 = some (ids, itEnd) ∧ itEnd.IsAtEnd = true ∧
        1 ∉ ids) ∧
      (∃ ids itEnd, grid_5x5x3.NeighborsOf 1 = some (ids, itEnd) ∧ itEnd.IsAtEnd = true ∧
        0 ∉ ids)) :=
  ⟨by decide, by decide,
    neighbors_sound_interior
      [{ a0 := 1, a1 := 1, a2 := 1 }, { a0 := 3, a1 := 1, a2 := 1 }] 1
      { a0 := 5, a1 := 5, a2 := 3 } grid_5x5x3 (by decide) (by decide) (by decide) 0 1
      { a0 := 1, a1 := 1, a2 := 1 } { a0 := 3, a1 := 1, a2 := 1 } { a0 := 1, a1 := 1, a2 := 1 } { a0 := 3, a1 := 1, a2 := 1 } (by decide) (by decide) (by decide)
      (by decide) (by decide) (by decide) (by decide)⟩

/-- C3, counterexample: in the grid built for the domain bound (4,4,3) the
entities 0 and 1 are in the boxes of coordinates (3,1,1) and (0,2,1), which
differ by 3 on the x axis; every box pointer formed for either entity is
valid, the loop for entity 0 reads the ids 0 and 1 and the loop for entity 1
reads the ids 1 and 0. -/
theorem neighbors_alias_across_rows :
    Grid.ctor [{ a0 := 3, a1 := 1, a2 := 1 }, { a0 := 0, a1 := 2, a2 := 1 }] 1 { a0 := 4, a1 := 4, a2 := 3 } = some grid_4x4x3 ∧
    grid_4x4x3.BoxCoordOf { a0 := 3, a1 := 1, a2 := 1 } = some { a0 := 3, a1 := 1, a2 := 1 } ∧
    grid_4x4x3.BoxCoordOf { a0 := 0, a1 := 2, a2 := 1 } = some { a0 := 0, a1 := 2, a2 := 1 } ∧
    ¬ ChebyshevLe1 { a0 := 3, a1 := 1, a2 := 1 } { a0 := 0, a1 := 2, a2 := 1 } ∧
    (grid_4x4x3.NeighborsOf 0).map Prod.fst = some [0, 1] ∧
    (grid_4x4x3.NeighborsOf 1).map Prod.fst = some [1, 0] := by
  decide

/-- C4 (amended): for every built grid with `ny ≤ nx` and `nx * ny < 2^32` and
every interior center box index, every index that `GetMooreBoxes` passes to
`GetBoxPointer` lies in `[0, nx*ny*nz)`. -/
theorem GetMooreBoxes_interior_in_range (positions : List (array3 ℚ)) (box_length : Nat)
    (max_value : array3 ℚ) (g : Grid) (h : Grid.ctor positions box_length max_value = some g)
    (hyx : g.num_boxes_axis_.a1 ≤ g.num_boxes_axis_.a0)
    (h32 : g.num_boxes_axis_.a0 * g.num_boxes_axis_.a1 < 2 ^ 32)
    (c : Nat) (coord : array3 Nat) (hc : c < g.boxes_.length)
    (hcoord : g.GetBoxCoordinates c = some coord) (hint : g.IsInterior coord) :
    ∀ b ∈ g.GetMooreBoxes c, b < g.boxes_.length := by
  obtain ⟨hxy, hlen, hlt, e⟩ := Grid.built_interior _ _ _ g h h32 c coord hc hcoord
  rw [hlen]
  exact g.GetMooreBoxes_interior_lt c coord hxy hlt hyx e hint

/-- C4, witness: the interior box 13 of the grid built for the domain bound
(3,3,3). -/
theorem GetMooreBoxes_interior_in_range_witness :
    Grid.ctor [{ a0 := 1, a1 := 1, a2 := 1 }, { a0 := 1, a1 := 1, a2 := 1 }] 1 { a0 := 3, a1 := 3, a2 := 3 } = some grid_3x3x3 ∧
    grid_3x3x3.GetBoxCoordinates 13 = some { a0 := 1, a1 := 1, a2 := 1 } ∧
    grid_3x3x3.IsInterior { a0 := 1, a1 := 1, a2 := 1 } ∧
    ∀ b ∈ grid_3x3x3.GetMooreBoxes 13, b < grid_3x3x3.boxes_.length :=
  ⟨by decide, by decide, by decide,
    GetMooreBoxes_interior_in_range
      [{ a0 := 1, a1 := 1, a2 := 1 }, { a0 := 1, a1 := 1, a2 := 1 }] 1
      { a0 := 3, a1 := 3, a2 := 3 } grid_3x3x3 (by decide) (by decide) (by decide) 13
      { a0 := 1, a1 := 1, a2 := 1 } (by decide) (by decide) (by decide)⟩

/-- C4, counterexample: in the grid built for the domain bound (3,3,3), with
27 boxes, `GetMooreBoxes` for the corner box 0 passes `0 - 9`, wrapped to
`2^64 - 9`, to `GetBoxPointer`, and for the corner box 26 it passes
`26 + 9 = 35`. -/
theorem GetMooreBoxes_out_of_range_at_corner :
    Grid.ctor [{ a0 := 1, a1 := 1, a2 := 1 }, { a0 := 1, a1 := 1, a2 := 1 }] 1 { a0 := 3, a1 := 3, a2 := 3 } = some grid_3x3x3 ∧
    grid_3x3x3.boxes_.length = 27 ∧
    grid_3x3x3.GetBoxCoordinates 0 = some { a0 := 0, a1 := 0, a2 := 0 } ∧
    grid_3x3x3.GetBoxCoordinates 26 = some { a0 := 2, a1 := 2, a2 := 2 } ∧
    18446744073709551607 ∈ grid_3x3x3.GetMooreBoxes 0 ∧
    35 ∈ grid_3x3x3.GetMooreBoxes 26 := by
  decide

/-- C5 (amended): for every grid and every center box index, a corner box
included, the neighbor list produced by `GetMooreBoxes` has exactly 27 entries. -/
theorem GetMooreBoxes_length (g : Grid) (c : Nat) : (g.GetMooreBoxes c).length = 27 := rfl

/-- C5, counterexample: in the grid built for the domain bound (3,3,3) the
neighbor lists of the corner boxes 0 and 26 do not have fewer than 27 entries. -/
theorem GetMooreBoxes_corner_not_fewer :
    Grid.ctor [{ a0 := 1, a1 := 1, a2 := 1 }, { a0 := 1, a1 := 1, a2 := 1 }] 1 { a0 := 3, a1 := 3, a2 := 3 } = some grid_3x3x3 ∧
    grid_3x3x3.GetBoxCoordinates 0 = some { a0 := 0, a1 := 0, a2 := 0 } ∧
    grid_3x3x3.GetBoxCoordinates 26 = some { a0 := 2, a1 := 2, a2 := 2 } ∧
    ¬ (grid_3x3x3.GetMooreBoxes 0).length < 27 ∧
    ¬ (grid_3x3x3.GetMooreBoxes 26).length < 27 := by
  decide

/-- C6 (amended): for every grid built by the constructor in which no box is
assigned `2^16` or more entities, the sum of `length_` over all boxes equals the
number of positions. -/
theorem lengths_sum_eq_size (positions : List (array3 ℚ)) (box_length : Nat)
    (max_value : array3 ℚ) (g : Grid) (h : Grid.ctor positions box_length max_value = some g)
    (hpop : ∀ b, b < g.boxes_.length → g.population b < 2 ^ 16) :
    (g.boxes_.map Box.length_).sum = positions.length := by
  obtain ⟨wf, hpos, _⟩ := Grid.ctor_wf _ _ _ g h
  have hsum := g.sum_membersBelow g.boxes_.length g.positions_.length wf.assigned
  have hmap : g.boxes_.map Box.length_ =
      (List.range g.boxes_.length).map (fun b => (g.membersBelow b g.positions_.length).length) := by
    apply List.ext_getElem
    · simp
    · intro b h1 h2
      have hb : b < g.boxes_.length := by simpa using h1
      obtain ⟨hl, _⟩ := wf.chain_eq_members b g.boxes_[b] (List.getElem?_eq_getElem hb) (hpop b hb)
      simp only [List.getElem_map, List.getElem_range]
      exact hl
  rw [hmap, hsum, hpos]

/-- C6, witness: the grid built for two entities and the domain bound (2,2,2). -/
theorem lengths_sum_eq_size_witness :
    Grid.ctor [{ a0 := 0, a1 := 0, a2 := 0 }, { a0 := 1, a1 := 1, a2 := 1 }] 1 { a0 := 2, a1 := 2, a2 := 2 } = some grid_2x2x2 ∧
    (∀ b, b < grid_2x2x2.boxes_.length → grid_2x2x2.population b < 2 ^ 16) ∧
    (grid_2x2x2.boxes_.map Box.length_).sum = 2 :=
  ⟨by decide, by decide, lengths_sum_eq_size
      [{ a0 := 0, a1 := 0, a2 := 0 }, { a0 := 1, a1 := 1, a2 := 1 }] 1
      { a0 := 2, a1 := 2, a2 := 2 } grid_2x2x2 (by decide) (by decide)⟩

/-- C6, counterexample: 65536 entities at the origin of the one-box grid; the
constructor returns a grid whose box lengths add up to 0, not to 65536. -/
theorem lengths_sum_wraps :
    ∃ g, Grid.ctor (List.replicate 65536 { a0 := 0, a1 := 0, a2 := 0 }) 1
        { a0 := 1, a1 := 1, a2 := 1 } = some g ∧
      (g.boxes_.map Box.length_).sum = 0 ∧
      (List.replicate 65536 ({ a0 := 0, a1 := 0, a2 := 0 } : array3 ℚ)).length = 65536 := by
  obtain ⟨g, hg, _, _, hl⟩ := Grid.ctor_one_box 65536
  refine ⟨g, hg, ?_, List.length_replicate _ _⟩
  rw [hl]
  norm_num

/-- C7 (amended): for every grid built by the constructor in which no box is
assigned `2^16` or more entities, every entity id below the number of positions
occurs in the chain traversal of exactly one box, and occurs there once. -/
theorem id_in_exactly_one_chain (positions : List (array3 ℚ)) (box_length : Nat)
    (max_value : array3 ℚ) (g : Grid) (h : Grid.ctor positions box_length max_value = some g)
    (hpop : ∀ b, b < g.boxes_.length → g.population b < 2 ^ 16)
    (i : Nat) (hi : i < positions.length) :
    ∃ (b : Nat) (box : Box) (ids : List Nat),
      g.boxes_[b]? = some box ∧ g.chain box = some ids ∧ ids.count i = 1 ∧
      ∀ (b1 : Nat) (box1 : Box) (ids1 : List Nat),
        g.boxes_[b1]? = some box1 → g.chain box1 = some ids1 → i ∈ ids1 → b1 = b := by
  obtain ⟨wf, hpos, _⟩ := Grid.ctor_wf _ _ _ g h
  rw [← hpos] at hi
  obtain ⟨b, hib, hb⟩ := wf.assigned i hi
  have hbox : g.boxes_[b]? = some g.boxes_[b] := List.getElem?_eq_getElem hb
  obtain ⟨_, hc⟩ := wf.chain_eq_members b _ hbox (hpop b hb)
  refine ⟨b, g.boxes_[b], g.members b, hbox, hc, ?_, ?_⟩
  · exact List.count_eq_one_of_mem (g.membersBelow_nodup b _) ((g.mem_members b i).2 ⟨hi, hib⟩)
  · intro b1 box1 ids1 h1 h2 h3
    obtain ⟨_, hc1⟩ := wf.chain_eq b1 box1 h1
    rw [h2] at hc1
    cases hc1
    have := ((g.mem_members b1 i).1 (List.mem_of_mem_take h3)).2
    rw [hib] at this
    exact (Option.some.inj this).symm

/-- C7, witness: entity 1 of the grid built for two entities and the domain
bound (2,2,2). -/
theorem id_in_exactly_one_chain_witness :
    Grid.ctor [{ a0 := 0, a1 := 0, a2 := 0 }, { a0 := 1, a1 := 1, a2 := 1 }] 1 { a0 := 2, a1 := 2, a2 := 2 } = some grid_2x2x2 ∧
    ∃ (b : Nat) (box : Box) (ids : List Nat),
      grid_2x2x2.boxes_[b]? = some box ∧ grid_2x2x2.chain box = some ids ∧ ids.count 1 = 1 ∧
      ∀ (b1 : Nat) (box1 : Box) (ids1 : List Nat),
        grid_2x2x2.boxes_[b1]? = some box1 → grid_2x2x2.chain box1 = some ids1 → 1 ∈ ids1 →
          b1 = b :=
  ⟨by decide, id_in_exactly_one_chain
      [{ a0 := 0, a1 := 0, a2 := 0 }, { a0 := 1, a1 := 1, a2 := 1 }] 1
      { a0 := 2, a1 := 2, a2 := 2 } grid_2x2x2 (by decide) (by decide) 1 (by decide)⟩

/-- C7, counterexample: 65536 entities at the origin of the one-box grid; the
constructor returns a grid in which entity 0 occurs in the chain traversal of
no box. -/
theorem id_lost_after_wrap :
    ∃ g, Grid.ctor (List.replicate 65536 { a0 := 0, a1 := 0, a2 := 0 }) 1
        { a0 := 1, a1 := 1, a2 := 1 } = some g ∧
      ∀ (b : Nat) (box : Box) (ids : List Nat),
        g.boxes_[b]? = some box → g.chain box = some ids → 0 ∉ ids := by
  obtain ⟨g, hg, hlen, _, hl⟩ := Grid.ctor_one_box 65536
  refine ⟨g, hg, ?_⟩
  intro b box ids hb hc hmem
  have hmapb : (g.boxes_.map Box.length_)[b]? = some box.length_ := by
    rw [List.getElem?_map, hb]
    rfl
  rw [hl] at hmapb
  have hb0 : b = 0 := by
    rcases List.getElem?_eq_some_iff.1 hb with ⟨hlt, _⟩
    omega
  subst hb0
  have hz : box.length_ = 0 := by
    have h1 : some (65536 % 2 ^ 16) = some box.length_ := hmapb
    have h2 := Option.some.inj h1
    omega
  have := Grid.chain_length g box ids hc
  rw [hz] at this
  rw [List.length_eq_zero.1 this] at hmem
  cases hmem

/-- C8: for every grid built by the constructor and every box of it, the chain
traversal (`length_` steps along `successors_` from `start_`) is defined and
visits exactly `length_` pairwise distinct entity ids, each smaller than the
number of entities. -/
theorem chain_visits_distinct_ids (positions : List (array3 ℚ)) (box_length : Nat)
    (max_value : array3 ℚ) (g : Grid) (h : Grid.ctor positions box_length max_value = some g)
    (b : Nat) (box : Box) (hb : g.boxes_[b]? = some box) :
    ∃ ids, g.chain box = some ids ∧ ids.length = box.length_ ∧ ids.Nodup ∧
      ∀ id ∈ ids, id < positions.length := by
  obtain ⟨wf, hpos, _⟩ := Grid.ctor_wf _ _ _ g h
  obtain ⟨hl, hc⟩ := wf.chain_eq b box hb
  refine ⟨_, hc, Grid.chain_length g box _ hc, ?_, ?_⟩
  · exact List.Nodup.sublist (List.take_sublist _ _) (g.membersBelow_nodup b _)
  · intro id hid
    rw [← hpos]
    exact ((g.mem_members b id).1 (List.mem_of_mem_take hid)).1

/-- C8, witness: box 7 of the grid built for two entities and the domain bound
(2,2,2). -/
theorem chain_visits_distinct_ids_witness :
    Grid.ctor [{ a0 := 0, a1 := 0, a2 := 0 }, { a0 := 1, a1 := 1, a2 := 1 }] 1 { a0 := 2, a1 := 2, a2 := 2 } = some grid_2x2x2 ∧
    grid_2x2x2.boxes_[7]? = some { start_ := 1, length_ := 1 } ∧
    ∃ ids, grid_2x2x2.chain { start_ := 1, length_ := 1 } = some ids ∧ ids.length = 1 ∧
      ids.Nodup ∧ ∀ id ∈ ids, id < 2 :=
  ⟨by decide, by decide,
    chain_visits_distinct_ids
      [{ a0 := 0, a1 := 0, a2 := 0 }, { a0 := 1, a1 := 1, a2 := 1 }] 1
      { a0 := 2, a1 := 2, a2 := 2 } grid_2x2x2 (by decide) 7 { start_ := 1, length_ := 1 }
      (by decide)⟩

/-- C9, the code at the failing input: for the domain bound (6700417, 641, 2)
and box length 1 the constructor stores `num_boxes_xy_ = 1` (the 32-bit product
of 6700417 and 641) and allocates two boxes; the in-domain position (1,0,0)
has box coordinate (1,0,0), entity 0 is put in the chain of box 1, and
`GetBoxCoordinates(1)` is (0,0,1). -/
theorem containment_fails_on_32bit_overflow :
    Grid.ctor [{ a0 := 1, a1 := 0, a2 := 0 }] 1 { a0 := 6700417, a1 := 641, a2 := 2 } = some grid_641 ∧
    grid_641.num_boxes_axis_ = { a0 := 6700417, a1 := 641, a2 := 2 } ∧
    grid_641.BoxCoordOf { a0 := 1, a1 := 0, a2 := 0 } = some { a0 := 1, a1 := 0, a2 := 0 } ∧
    grid_641.boxes_[1]? = some { start_ := 0, length_ := 1 } ∧
    grid_641.chain { start_ := 0, length_ := 1 } = some [0] ∧
    grid_641.GetBoxCoordinates 1 = some { a0 := 0, a1 := 0, a2 := 1 } := by
  decide

/-- The box coordinate of a position from the three stored quotients. -/
theorem Grid.BoxCoordOf_eq (g : Grid) (p : array3 ℚ) (L : Nat) (x y z : ℚ) (c0 c1 c2 : Nat)
    (hL : g.box_lenght_ = L) (hx : p.a0 = x) (hy : p.a1 = y) (hz : p.a2 = z)
    (h0 : floor_div_to_uint32 x L = some c0)
    (h1 : floor_div_to_uint32 y L = some c1)
    (h2 : floor_div_to_uint32 z L = some c2) :
    g.BoxCoordOf p = some { a0 := c0, a1 := c1, a2 := c2 } := by
  unfold Grid.BoxCoordOf
  rw [hL, hx, hy, hz, h0, h1, h2]

/-- C10 (amended): for every position with non-negative components below
`2^32 * L` and below `2^53`, and every box side length `L ≥ 1`, the box
coordinate `b` computed by `GetBoxIndex(position)` is defined and satisfies
`b[k] * L ≤ position[k] < (b[k] + 1) * L` on every axis. -/
theorem box_range_contains_position (g : Grid) (p : array3 ℚ) (hL : 1 ≤ g.box_lenght_)
    (h0 : 0 ≤ p.a0 ∧ p.a0 < 2 ^ 32 * (g.box_lenght_ : ℚ) ∧ p.a0 < 2 ^ 53)
    (h1 : 0 ≤ p.a1 ∧ p.a1 < 2 ^ 32 * (g.box_lenght_ : ℚ) ∧ p.a1 < 2 ^ 53)
    (h2 : 0 ≤ p.a2 ∧ p.a2 < 2 ^ 32 * (g.box_lenght_ : ℚ) ∧ p.a2 < 2 ^ 53) :
    ∃ b, g.BoxCoordOf p = some b ∧
      ((b.a0 : ℚ) * g.box_lenght_ ≤ p.a0 ∧ p.a0 < ((b.a0 : ℚ) + 1) * g.box_lenght_) ∧
      ((b.a1 : ℚ) * g.box_lenght_ ≤ p.a1 ∧ p.a1 < ((b.a1 : ℚ) + 1) * g.box_lenght_) ∧
      ((b.a2 : ℚ) * g.box_lenght_ ≤ p.a2 ∧ p.a2 < ((b.a2 : ℚ) + 1) * g.box_lenght_) := by
  obtain ⟨b0, e0, _, l0, u0⟩ :=
    floor_div_to_uint32_spec p.a0 g.box_lenght_ hL h0.1 h0.2.1 h0.2.2
  obtain ⟨b1, e1, _, l1, u1⟩ :=
    floor_div_to_uint32_spec p.a1 g.box_lenght_ hL h1.1 h1.2.1 h1.2.2
  obtain ⟨b2, e2, _, l2, u2⟩ :=
    floor_div_to_uint32_spec p.a2 g.box_lenght_ hL h2.1 h2.2.1 h2.2.2
  refine ⟨{ a0 := b0, a1 := b1, a2 := b2 }, ?_, ⟨l0, u0⟩, ⟨l1, u1⟩, ⟨l2, u2⟩⟩
  simp only [Grid.BoxCoordOf, e0, e1, e2]

/-- C10, witness: the position (1/2, 3/2, 7/4) and box length 1. -/
theorem box_range_contains_position_witness :
    ∃ b, grid_2x2x2.BoxCoordOf { a0 := 1 / 2, a1 := 3 / 2, a2 := 7 / 4 } = some b ∧
      ((b.a0 : ℚ) * grid_2x2x2.box_lenght_ ≤ 1 / 2 ∧
        (1 / 2 : ℚ) < ((b.a0 : ℚ) + 1) * grid_2x2x2.box_lenght_) ∧
      ((b.a1 : ℚ) * grid_2x2x2.box_lenght_ ≤ 3 / 2 ∧
        (3 / 2 : ℚ) < ((b.a1 : ℚ) + 1) * grid_2x2x2.box_lenght_) ∧
      ((b.a2 : ℚ) * grid_2x2x2.box_lenght_ ≤ 7 / 4 ∧
        (7 / 4 : ℚ) < ((b.a2 : ℚ) + 1) * grid_2x2x2.box_lenght_) :=
  box_range_contains_position grid_2x2x2 { a0 := 1 / 2, a1 := 3 / 2, a2 := 7 / 4 } (by decide)
    (by norm_num [grid_2x2x2]) (by norm_num [grid_2x2x2]) (by norm_num [grid_2x2x2])

/-- C10, counterexample.  For the position (4294967296, 0, 0), with
non-negative components, and box length 1 the quotient
`floor(position[0]) / 1 = 2^32` does not fit the `uint32_t` coordinate: no box
coordinate is computed.  For the position (9007199456067584, 0, 0), whose first
component is a double above `2^53`, and box length `134217729 = 2^27 + 1` the
exact quotient `67108865 - 1/134217729` is rounded to the double 67108865, so
the stored coordinate is 67108865 and `67108865 * L = position[0] + 1` exceeds
the position: the range of the box does not contain it. -/
theorem box_coordinate_outside_range :
    (grid_2x2x2.box_lenght_ = 1 ∧
      grid_2x2x2.BoxCoordOf { a0 := 4294967296, a1 := 0, a2 := 0 } = none) ∧
    (Grid.BoxCoordOf { grid_2x2x2 with box_lenght_ := 134217729 }
        { a0 := 9007199456067584, a1 := 0, a2 := 0 } =
        some { a0 := 67108865, a1 := 0, a2 := 0 } ∧
      (9007199456067584 : ℚ) < 2 ^ 32 * ((134217729 : Nat) : ℚ) ∧
      ¬ ((67108865 : Nat) : ℚ) * ((134217729 : Nat) : ℚ) ≤ 9007199456067584) := by
  refine ⟨by decide, ?_, by norm_num, by norm_num⟩
  have hq : round_to_double ((9007199456067584 : ℚ) / (134217729 : ℚ)) = 67108865 := by
    rw [round_to_double_eval _ 26 4503599694479360 (by norm_num) (by norm_num)
      (round_half_even_eq_of_lt _ _ (by rw [abs_lt]; constructor <;> norm_num))]
    norm_num
  have h0 : floor_div_to_uint32 (9007199456067584 : ℚ) 134217729 = some 67108865 := by
    rw [floor_div_to_uint32_eq _ _ (by norm_num)]
    have hfl : ⌊(9007199456067584 : ℚ)⌋ = 9007199456067584 := by
      rw [Int.floor_eq_iff]
      constructor <;> norm_num
    rw [hfl]
    have hc : (((9007199456067584 : Int) : ℚ)) / (((134217729 : Nat)) : ℚ) =
        (9007199456067584 : ℚ) / (134217729 : ℚ) := by norm_num
    rw [hc, hq]
    have h := double_to_unsigned_of_nonneg 32 (67108865 : ℚ) (by norm_num)
      (by
        rw [show (67108865 : ℚ) = ((67108865 : Nat) : ℚ) by norm_num, Nat.floor_natCast]
        norm_num)
    rw [h, show (67108865 : ℚ) = ((67108865 : Nat) : ℚ) by norm_num, Nat.floor_natCast]
  have h1 : floor_div_to_uint32 (0 : ℚ) 134217729 = some 0 := by
    obtain ⟨b, hb, hb2, _, _⟩ := floor_div_to_uint32_spec 0 134217729 (by norm_num) (le_refl _)
      (by norm_num) (by norm_num)
    rw [hb, hb2]
    simp
  exact Grid.BoxCoordOf_eq _ _ 134217729 9007199456067584 0 0 _ _ _ rfl rfl rfl rfl h0 h1 h1

/-! ## The constructor, `AddCell` and the iterators: auxiliary facts -/

/-- The constructor is its initial part followed by the assignment loop. -/
theorem Grid.ctor_eq_init (positions : List (array3 ℚ)) (box_length : Nat)
    (max_value : array3 ℚ) :
    Grid.ctor positions box_length max_value =
      (Grid.ctor_init positions box_length max_value).bind (Grid.assign positions 0) := by
  unfold Grid.ctor Grid.ctor_init
  by_cases hL : box_length = 0
  · simp [hL]
  · rw [if_neg hL, if_neg hL]
    cases double_to_unsigned 64 max_value.a0 <;> cases double_to_unsigned 64 max_value.a1 <;>
      cases double_to_unsigned 64 max_value.a2 <;> rfl

/-- In a well-formed grid `GetBoxIndex` inverts `GetBoxCoordinates` on the
indices of the allocated boxes. -/
theorem Grid.WellFormed.roundtrip {g : Grid} (wf : g.WellFormed) (idx : Nat)
    (h : idx < g.boxes_.length) :
    ∃ c, g.GetBoxCoordinates idx = some c ∧ g.GetBoxIndex c = idx := by
  have hxy32 : g.num_boxes_xy_ < 2 ^ 32 := by
    rw [wf.xy_eq]
    exact Nat.mod_lt _ (by norm_num)
  have hnz := wf.nz_lt
  have hlt : g.num_boxes_xy_ * g.num_boxes_axis_.a2 < 2 ^ 64 := by
    have h2 : g.num_boxes_xy_ * g.num_boxes_axis_.a2 ≤ (2 ^ 32 - 1) * (2 ^ 32 - 1) :=
      Nat.mul_le_mul (by omega) (by omega)
    have h3 : (2 ^ 32 - 1) * (2 ^ 32 - 1) < 2 ^ 64 := by norm_num
    omega
  have hlen : g.boxes_.length = g.num_boxes_xy_ * g.num_boxes_axis_.a2 := by
    rw [wf.boxes_length, Nat.mod_eq_of_lt hlt]
  rw [hlen] at h
  have hxypos : 0 < g.num_boxes_xy_ := by
    rcases Nat.eq_zero_or_pos g.num_boxes_xy_ with h0 | h0
    · rw [h0] at h; simp at h
    · exact h0
  have hnxpos : 0 < g.num_boxes_axis_.a0 := by
    rcases Nat.eq_zero_or_pos g.num_boxes_axis_.a0 with h0 | h0
    · have := wf.xy_eq
      rw [h0] at this
      simp at this
      omega
    · exact h0
  have hz : idx / g.num_boxes_xy_ < g.num_boxes_axis_.a2 :=
    (Nat.div_lt_iff_lt_mul hxypos).2 (by rw [Nat.mul_comm]; exact h)
  have hr : idx % g.num_boxes_xy_ < g.num_boxes_xy_ := Nat.mod_lt _ hxypos
  have hy : idx % g.num_boxes_xy_ / g.num_boxes_axis_.a0 ≤ idx % g.num_boxes_xy_ :=
    Nat.div_le_self _ _
  have e1 := Nat.div_add_mod idx g.num_boxes_xy_
  have e2 := Nat.div_add_mod (idx % g.num_boxes_xy_) g.num_boxes_axis_.a0
  refine ⟨{ a0 := idx % g.num_boxes_xy_ % g.num_boxes_axis_.a0,
            a1 := (idx % g.num_boxes_xy_ / g.num_boxes_axis_.a0) % 2 ^ 32,
            a2 := (idx / g.num_boxes_xy_) % 2 ^ 32 }, ?_, ?_⟩
  · unfold Grid.GetBoxCoordinates
    rw [if_neg (by omega)]
  · rw [Nat.mod_eq_of_lt (by omega : idx / g.num_boxes_xy_ < 2 ^ 32),
      Nat.mod_eq_of_lt (by omega : idx % g.num_boxes_xy_ / g.num_boxes_axis_.a0 < 2 ^ 32)]
    unfold Grid.GetBoxIndex size_t_add
    simp only
    rw [Nat.mul_comm (idx / g.num_boxes_xy_),
      Nat.mul_comm (idx % g.num_boxes_xy_ / g.num_boxes_axis_.a0)]
    have b1 : g.num_boxes_axis_.a0 * (idx % g.num_boxes_xy_ / g.num_boxes_axis_.a0) < 2 ^ 32 := by
      omega
    have b2 : g.num_boxes_xy_ * (idx / g.num_boxes_xy_) < 2 ^ 64 := by omega
    omega

/-- The method `AddCell` on a non-empty box and a valid id. -/
theorem Box.AddCell_nonempty (b : Box) (succ : List Nat) (id : Nat) (hne : b.length_ ≠ 0)
    (hlt : id < succ.length) :
    b.AddCell succ id =
      some ({ start_ := id, length_ := (b.length_ + 1) % 2 ^ 16 }, succ.set id b.start_) := by
  unfold Box.AddCell
  have he : ¬ b.IsEmpty = true := by simpa [Box.IsEmpty] using hne
  rw [if_neg he, if_pos hlt]

/-- The chain from `k` along the table `0, 0, 1, 2, ...` is `k, k-1, ..., 0`. -/
theorem Box.Iterator.run_range (n : Nat) :
    ∀ k, k < n + 1 →
      Box.Iterator.run (0 :: List.range n) (k + 1)
        { current_value_ := k, countdown_ := ((k + 1 : Nat) : Int) } =
        some (List.range (k + 1)).reverse := by
  intro k
  induction k with
  | zero =>
    intro _
    rw [Box.Iterator.run_succ]
    simp [Box.Iterator.run]
    rfl
  | succ m ih =>
    intro hm
    rw [Box.Iterator.run_succ]
    have hget : (0 :: List.range n)[m + 1]? = some m := by
      rw [List.getElem?_cons_succ, List.getElem?_range (by omega)]
    simp only [hget, ih (by omega)]
    rw [List.range_succ (m + 1), List.reverse_append]
    rfl

/-- The members of a box are listed in strictly decreasing id order. -/
theorem Grid.membersBelow_sorted (g : Grid) (b : Nat) :
    ∀ k, (g.membersBelow b k).Pairwise (fun i j => j < i) := by
  intro k
  induction k with
  | zero => simp [Grid.membersBelow]
  | succ k ih =>
    unfold Grid.membersBelow
    split
    · exact List.pairwise_cons.2 ⟨fun j hj => (g.membersBelow_lt b k j hj).1, ih⟩
    · exact ih

/-- The centre box is the first entry that `GetMooreBoxes` pushes. -/
theorem Grid.mem_GetMooreBoxes_self (g : Grid) (c : Nat) : c ∈ g.GetMooreBoxes c :=
  List.mem_cons_self _ _

/-- In a grid with one box in the x/y-plane and unit boxes the position (0,0,3)
maps to box 3. -/
theorem Grid.GetBoxIndexPos_column (g : Grid) (hL : g.box_lenght_ = 1) (h1 : g.num_boxes_xy_ = 1)
    (h2 : g.num_boxes_axis_.a0 = 1) :
    g.GetBoxIndexPos { a0 := 0, a1 := 0, a2 := 3 } = some 3 := by
  have hfd : floor_div_to_uint32 (0 : ℚ) 1 = some 0 := by decide
  have hfd3 : floor_div_to_uint32 (3 : ℚ) 1 = some 3 := by decide
  simp only [Grid.GetBoxIndexPos, Grid.BoxCoordOf, hfd, hfd3, Option.map_some', Grid.GetBoxIndex,
    size_t_add, hL, h1, h2]
  norm_num

/-- When all entities below `k` are assigned to box `b`, they are all members. -/
theorem Grid.membersBelow_all (g : Grid) (b : Nat) :
    ∀ k, (∀ i, i < k → g.BoxIndexOfEntity i = some b) → (g.membersBelow b k).length = k := by
  intro k
  induction k with
  | zero => intro _; rfl
  | succ k ih =>
    intro h
    unfold Grid.membersBelow
    rw [if_pos (h k (Nat.lt_succ_self k)), List.length_cons,
      ih (fun i hi => h i (Nat.lt_succ_of_lt hi))]

/-- Every entity at (0,0,3) in the grid of 1 x 1 x 7 unit boxes: when the number
of entities is a positive multiple of `2^16`, the constructor returns a grid in
which every box pointer formed for box 3 is valid and the loop of
`ForEachNeighbor` for entity 0 ends without reading the id 0. -/
theorem Grid.ctor_column (n : Nat) (hn0 : 0 < n) (hn : n % 2 ^ 16 = 0) :
    ∃ g, Grid.ctor (List.replicate n { a0 := 0, a1 := 0, a2 := 3 }) 1
        { a0 := 1, a1 := 1, a2 := 7 } = some g ∧
      g.boxes_.length = 7 ∧ g.BoxIndexOfEntity 0 = some 3 ∧ g.population 3 = n ∧
      (∀ p ∈ g.GetMooreBoxes 3, p < g.boxes_.length) ∧
      ∃ ids itEnd, g.NeighborsOf 0 = some (ids, itEnd) ∧ itEnd.IsAtEnd = true ∧ 0 ∉ ids := by
  have hconv : double_to_unsigned 64 (1 : ℚ) = some 1 := by decide
  have hconv7 : double_to_unsigned 64 (7 : ℚ) = some 7 := by decide
  have hex : ∃ g, Grid.ctor (List.replicate n { a0 := 0, a1 := 0, a2 := 3 }) 1
      { a0 := 1, a1 := 1, a2 := 7 } = some g := by
    unfold Grid.ctor
    rw [if_neg (by decide)]
    simp only [hconv, hconv7]
    apply Grid.assign_isSome
    · intro p hp
      rw [List.eq_of_mem_replicate hp]
      refine ⟨3, Grid.GetBoxIndexPos_column _ rfl (by norm_num) (by norm_num), ?_⟩
      simp only [List.length_replicate]
      norm_num
    · simp
  obtain ⟨g, hg⟩ := hex
  obtain ⟨wf, hpos, hL⟩ := Grid.ctor_wf _ _ _ g hg
  obtain ⟨m0, m1, m2, h0, h1, h2, hax⟩ := Grid.ctor_axis _ _ _ g hg
  simp only [hconv, hconv7, Option.some.injEq] at h0 h1 h2
  subst h0 h1 h2
  have hax0 : g.num_boxes_axis_.a0 = 1 := by rw [hax]; norm_num
  have hax1 : g.num_boxes_axis_.a1 = 1 := by rw [hax]; norm_num
  have hax2 : g.num_boxes_axis_.a2 = 7 := by rw [hax]; norm_num
  have hxy : g.num_boxes_xy_ = 1 := by rw [wf.xy_eq, hax0, hax1]; norm_num
  have hlen : g.boxes_.length = 7 := by rw [wf.boxes_length, hxy, hax2]; norm_num
  have hlenp : g.positions_.length = n := by rw [hpos]; simp
  have hall : ∀ i, i < n → g.BoxIndexOfEntity i = some 3 := by
    intro i hi
    have hget : g.positions_[i]? = some { a0 := 0, a1 := 0, a2 := 3 } := by
      rw [hpos, List.getElem?_replicate, if_pos hi]
    unfold Grid.BoxIndexOfEntity
    rw [hget]
    exact Grid.GetBoxIndexPos_column g hL hxy hax0
  have hpop : g.population 3 = n := by
    unfold Grid.population Grid.members
    rw [hlenp]
    exact g.membersBelow_all 3 n hall
  have hmoore : g.GetMooreBoxes 3 =
      [3, 2, 4, 2, 4, 2, 4, 1, 1, 1, 3, 3, 3, 3, 3, 3, 5, 5, 5, 0, 2, 2, 4, 2, 6, 4, 6] := by
    unfold Grid.GetMooreBoxes
    rw [hxy, hax1]
    decide
  have hvalid : ∀ p ∈ g.GetMooreBoxes 3, p < g.boxes_.length := by
    rw [hmoore, hlen]
    decide
  refine ⟨g, hg, hlen, hall 0 hn0, hpop, hvalid, ?_⟩
  obtain ⟨ids, itEnd, hN, hend, hch⟩ := wf.NeighborsOf_spec 0 3 (hall 0 hn0) hvalid
  refine ⟨ids, itEnd, hN, hend, ?_⟩
  intro hmem
  obtain ⟨p, _, b, l, hb, hl, hjl⟩ := (g.mem_chainsOf _ ids hch 0).1 hmem
  obtain ⟨hlen1, hc⟩ := wf.chain_eq p b hb
  rw [hl] at hc
  cases hc
  have hp3 := ((g.mem_members p 0).1 (List.mem_of_mem_take hjl)).2
  rw [hall 0 hn0] at hp3
  cases hp3
  rw [hpop, hn] at hlen1
  rw [hlen1] at hjl
  simp at hjl

/-! ## Index round trip, construction, chains and the neighbor cursor -/

/-- C11, the code at the failing input: for the domain bound (6700417, 641, 2)
the constructor stores `num_boxes_xy_ = 1`; the index `2^32` is below
`nx*ny*nz = 2 * (2^32 + 1)`, `GetBoxCoordinates(2^32)` is (0,0,0) and
`GetBoxIndex((0,0,0))` is 0. -/
theorem roundtrip_fails_on_32bit_overflow :
    Grid.ctor [{ a0 := 1, a1 := 0, a2 := 0 }] 1 { a0 := 6700417, a1 := 641, a2 := 2 } =
      some grid_641 ∧
    grid_641.num_boxes_axis_ = { a0 := 6700417, a1 := 641, a2 := 2 } ∧
    4294967296 < 6700417 * 641 * 2 ∧
    grid_641.GetBoxCoordinates 4294967296 = some { a0 := 0, a1 := 0, a2 := 0 } ∧
    grid_641.GetBoxIndex { a0 := 0, a1 := 0, a2 := 0 } = 0 := by
  decide

/-- C12, the code at the failing input: for the domain bound
(1282, 6700417, 1) the constructor stores `num_boxes_xy_ = 2`, not
`1282 * 6700417`, and for the in-range coordinate (0, 6700416, 0) `GetBoxIndex`
returns 4294966016, not `6700416 * 1282 = 8589933312`. -/
theorem GetBoxIndex_wraps_in_32_bits :
    Grid.ctor [] 1 { a0 := 1282, a1 := 6700417, a2 := 1 } = some grid_1282 ∧
    grid_1282.num_boxes_axis_ = { a0 := 1282, a1 := 6700417, a2 := 1 } ∧
    grid_1282.num_boxes_xy_ = 2 ∧ 1282 * 6700417 = 8589934594 ∧
    grid_1282.GetBoxIndex { a0 := 0, a1 := 6700416, a2 := 0 } = 4294966016 ∧
    ToLinearIndex { a0 := 0, a1 := 6700416, a2 := 0 } 1282 6700417 = 8589933312 ∧
    0 * grid_1282.num_boxes_xy_ + 6700416 * 1282 + 0 = 8589933312 := by
  decide

/-- C13 (amended): for every domain bound with non-negative components, every
box side length `0 < L < 2^32` and every list of positions, when
`floor(domain_max[k] / L) < 2^32` on each axis and the product of the counts
along x and y is below `2^32`, and when the two allocations of the constructor
succeed, so that it reaches its loop with a grid `g0`: the constructor
continues with the assignment loop on `g0`, and before the first `AddCell` it
has set `num_boxes_axis_[k] = floor(domain_max[k] / L)`, allocated exactly
`nx*ny*nz` boxes, all empty, and a successor table with one slot per position. -/
theorem ctor_init_spec (positions : List (array3 ℚ)) (box_length : Nat) (max_value : array3 ℚ)
    (hL : 0 < box_length) (hL32 : box_length < 2 ^ 32)
    (h0 : 0 ≤ max_value.a0) (h1 : 0 ≤ max_value.a1) (h2 : 0 ≤ max_value.a2)
    (f0 : ⌊max_value.a0 / (box_length : ℚ)⌋₊ < 2 ^ 32)
    (f1 : ⌊max_value.a1 / (box_length : ℚ)⌋₊ < 2 ^ 32)
    (f2 : ⌊max_value.a2 / (box_length : ℚ)⌋₊ < 2 ^ 32)
    (fxy : ⌊max_value.a0 / (box_length : ℚ)⌋₊ * ⌊max_value.a1 / (box_length : ℚ)⌋₊ < 2 ^ 32)
    (g0 : Grid) (hg0 : Grid.ctor_init positions box_length max_value = some g0) :
    Grid.ctor positions box_length max_value = Grid.assign positions 0 g0 ∧
      g0.num_boxes_axis_ =
        { a0 := ⌊max_value.a0 / (box_length : ℚ)⌋₊, a1 := ⌊max_value.a1 / (box_length : ℚ)⌋₊,
          a2 := ⌊max_value.a2 / (box_length : ℚ)⌋₊ } ∧
      g0.boxes_.length = g0.num_boxes_axis_.a0 * g0.num_boxes_axis_.a1 * g0.num_boxes_axis_.a2 ∧
      (∀ b ∈ g0.boxes_, b.IsEmpty = true) ∧
      g0.successors_.length = positions.length := by
  rw [Nat.floor_div_nat] at f0 f1 f2 fxy
  rw [Nat.floor_div_nat] at fxy
  have hb : ∀ m : Nat, m / box_length < 2 ^ 32 → m < 2 ^ 64 := by
    intro m hm
    have h3 : m < 2 ^ 32 * box_length := (Nat.div_lt_iff_lt_mul hL).1 hm
    have h4 : 2 ^ 32 * box_length ≤ 2 ^ 32 * 2 ^ 32 := Nat.mul_le_mul_left _ (Nat.le_of_lt hL32)
    have h5 : (2 : Nat) ^ 32 * 2 ^ 32 = 2 ^ 64 := by norm_num
    omega
  have c0 := double_to_unsigned_of_nonneg 64 max_value.a0 h0 (hb _ f0)
  have c1 := double_to_unsigned_of_nonneg 64 max_value.a1 h1 (hb _ f1)
  have c2 := double_to_unsigned_of_nonneg 64 max_value.a2 h2 (hb _ f2)
  have m0 := Nat.mod_eq_of_lt f0
  have m1 := Nat.mod_eq_of_lt f1
  have m2 := Nat.mod_eq_of_lt f2
  have mxy := Nat.mod_eq_of_lt fxy
  have htot : ⌊max_value.a0⌋₊ / box_length * (⌊max_value.a1⌋₊ / box_length) *
      (⌊max_value.a2⌋₊ / box_length) < 2 ^ 64 := by
    have h3 : ⌊max_value.a0⌋₊ / box_length * (⌊max_value.a1⌋₊ / box_length) *
        (⌊max_value.a2⌋₊ / box_length) ≤ (2 ^ 32 - 1) * (2 ^ 32 - 1) :=
      Nat.mul_le_mul (by omega) (by omega)
    have h4 : (2 ^ 32 - 1) * (2 ^ 32 - 1) < 2 ^ 64 := by norm_num
    omega
  have mtot := Nat.mod_eq_of_lt htot
  have hinit : Grid.ctor_init positions box_length max_value = some
      { boxes_ := List.replicate (⌊max_value.a0⌋₊ / box_length * (⌊max_value.a1⌋₊ / box_length) *
          (⌊max_value.a2⌋₊ / box_length)) { start_ := 0, length_ := 0 },
        positions_ := positions,
        box_lenght_ := box_length,
        num_boxes_axis_ := { a0 := ⌊max_value.a0⌋₊ / box_length,
                             a1 := ⌊max_value.a1⌋₊ / box_length,
                             a2 := ⌊max_value.a2⌋₊ / box_length },
        num_boxes_xy_ := ⌊max_value.a0⌋₊ / box_length * (⌊max_value.a1⌋₊ / box_length),
        successors_ := List.replicate positions.length 0 } := by
    unfold Grid.ctor_init
    rw [if_neg (by omega)]
    simp only [c0, c1, c2, m0, m1, m2, mxy, mtot]
  rw [hinit] at hg0
  obtain rfl := Option.some.inj hg0
  refine ⟨?_, ?_, ?_, ?_, ?_⟩
  · rw [Grid.ctor_eq_init, hinit]
    rfl
  · simp only [Nat.floor_div_nat]
  · simp only [List.length_replicate]
  · intro b hb
    rw [List.eq_of_mem_replicate hb]
    rfl
  · simp only [List.length_replicate]

/-- C13, witness: one position, box length 2 and the domain bound (4,6,8); the
constructor reaches its loop with 24 empty boxes and one successor slot. -/
theorem ctor_init_spec_witness :
    Grid.ctor_init [{ a0 := 0, a1 := 0, a2 := 0 }] 2 { a0 := 4, a1 := 6, a2 := 8 } =
      some grid_2x3x4_init ∧
    (Grid.ctor [{ a0 := 0, a1 := 0, a2 := 0 }] 2 { a0 := 4, a1 := 6, a2 := 8 } =
        Grid.assign [{ a0 := 0, a1 := 0, a2 := 0 }] 0 grid_2x3x4_init ∧
      grid_2x3x4_init.num_boxes_axis_ =
        { a0 := ⌊({ a0 := 4, a1 := 6, a2 := 8 } : array3 ℚ).a0 / ((2 : Nat) : ℚ)⌋₊,
          a1 := ⌊({ a0 := 4, a1 := 6, a2 := 8 } : array3 ℚ).a1 / ((2 : Nat) : ℚ)⌋₊,
          a2 := ⌊({ a0 := 4, a1 := 6, a2 := 8 } : array3 ℚ).a2 / ((2 : Nat) : ℚ)⌋₊ } ∧
      grid_2x3x4_init.boxes_.length =
        grid_2x3x4_init.num_boxes_axis_.a0 * grid_2x3x4_init.num_boxes_axis_.a1 *
          grid_2x3x4_init.num_boxes_axis_.a2 ∧
      (∀ b ∈ grid_2x3x4_init.boxes_, b.IsEmpty = true) ∧
      grid_2x3x4_init.successors_.length =
        [({ a0 := 0, a1 := 0, a2 := 0 } : array3 ℚ)].length) :=
  ⟨by decide,
   ctor_init_spec [{ a0 := 0, a1 := 0, a2 := 0 }] 2 { a0 := 4, a1 := 6, a2 := 8 }
    (by decide) (by decide) (by decide) (by decide) (by decide)
    (by rw [Nat.floor_div_nat]; norm_num) (by rw [Nat.floor_div_nat]; norm_num)
    (by rw [Nat.floor_div_nat]; norm_num)
    (by rw [Nat.floor_div_nat, Nat.floor_div_nat]; norm_num)
    grid_2x3x4_init (by decide)⟩

/-- C13, counterexample: for box length 1 and the domain bound (4294967296,1,1)
the constructor returns a grid with `num_boxes_axis_[0] = 0` and no boxes,
while `floor(4294967296 / 1)` is 4294967296. -/
theorem axis_count_truncated_to_32_bits :
    Grid.ctor [] 1 { a0 := 4294967296, a1 := 1, a2 := 1 } =
      some { boxes_ := [], positions_ := [], box_lenght_ := 1,
             num_boxes_axis_ := { a0 := 0, a1 := 1, a2 := 1 }, num_boxes_xy_ := 0,
             successors_ := [] } ∧
    (0 : ℚ) ≤ 4294967296 ∧
    ⌊(4294967296 : ℚ) / ((1 : Nat) : ℚ)⌋₊ = 4294967296 := by
  refine ⟨by decide, by decide, ?_⟩
  rw [Nat.floor_div_nat]
  norm_num

/-- C14 (amended): for every box with `length_ < 65535` and every entity id
that is a valid index of `successors_` and is not in the chain of the box,
`AddCell(id)` sets `start_` to `id`, increases `length_` by exactly 1, writes
the previous `start_` to `successors_[id]` when the box was non-empty, and the
chain traversal of the box after the call is `id` followed by the chain
traversal before the call. -/
theorem AddCell_prepends (g : Grid) (b : Box) (id : Nat) (l : List Nat)
    (hl : g.chain b = some l) (hid : id ∉ l) (hlt : id < g.successors_.length)
    (hlen : b.length_ + 1 < 2 ^ 16) :
    ∃ r, b.AddCell g.successors_ id = some r ∧ r.1.start_ = id ∧
      r.1.length_ = b.length_ + 1 ∧
      (b.IsEmpty = false → r.2[id]? = some b.start_) ∧
      Grid.chain { g with successors_ := r.2 } r.1 = some (id :: l) := by
  have hadd : ∃ r, b.AddCell g.successors_ id = some r := by
    unfold Box.AddCell
    by_cases he : b.IsEmpty
    · exact ⟨_, if_pos he⟩
    · rw [if_neg he, if_pos hlt]
      exact ⟨_, rfl⟩
  obtain ⟨r, hr⟩ := hadd
  obtain ⟨hr1, hr2, _⟩ := Box.AddCell_eq b g.successors_ id r hr
  have hmod : (b.length_ + 1) % 2 ^ 16 = b.length_ + 1 := Nat.mod_eq_of_lt hlen
  refine ⟨r, hr, by rw [hr1], by rw [hr1]; exact hmod, ?_, ?_⟩
  · intro he
    rw [hr2, he]
    simp only [Bool.false_eq_true, if_false]
    exact List.getElem?_set_self hlt
  · show Box.Iterator.run r.2 r.1.length_ r.1.begin = some (id :: l)
    rw [hr1]
    simp only [hmod, Box.begin]
    rw [Box.Iterator.run_succ, hr2]
    by_cases he : b.IsEmpty
    · have hz : b.length_ = 0 := by simpa [Box.IsEmpty] using he
      have hl0 : l = [] := List.length_eq_zero.1 (by rw [Grid.chain_length g b l hl, hz])
      simp only [he, if_true]
      rw [List.getElem?_eq_getElem hlt]
      simp [hz, hl0, Box.Iterator.run]
    · simp only [he, Bool.false_eq_true, if_false]
      rw [List.getElem?_set_self hlt]
      have hc := Box.Iterator.run_set g.successors_ id b.start_ b.length_ b.start_ l hl
        (fun i hi h => hid (h ▸ hi))
      simp only [hc]

/-- C14, witness: the box of the entities at (1/2, 1/2, 1/2) before the last
`AddCell` of the construction of the grid for the ids 3 and 7: the box holds
the id 3 and `AddCell(7)` makes its chain `7, 3`. -/
theorem AddCell_prepends_witness :
    ∃ r, Box.AddCell { start_ := 3, length_ := 1 } [0, 0, 1, 0, 2, 4, 5, 0] 7 = some r ∧
      r.1.start_ = 7 ∧ r.1.length_ = 1 + 1 ∧
      (Box.IsEmpty { start_ := 3, length_ := 1 } = false → r.2[7]? = some 3) ∧
      Grid.chain { grid_3_and_7 with successors_ := r.2 } r.1 = some [7, 3] :=
  AddCell_prepends { grid_3_and_7 with successors_ := [0, 0, 1, 0, 2, 4, 5, 0] }
    { start_ := 3, length_ := 1 } 7 [3] (by decide) (by decide) (by decide) (by decide)

/-- C14, counterexample: the box with `start_ = 65534` and `length_ = 65535`
over the successor table `0, 0, 1, 2, ..., 65534` has the chain
`65534, ..., 0`; the id 65535 is a valid index of the table and not in the
chain; after `AddCell(65535)` the box has `length_ = 0` and its chain traversal
is empty. -/
theorem AddCell_wraps_length :
    ∃ l r,
      Box.Iterator.run (0 :: List.range 65535) 65535
        (Box.begin { start_ := 65534, length_ := 65535 }) = some l ∧
      l.length = 65535 ∧ 65535 ∉ l ∧ 65535 < (0 :: List.range 65535).length ∧
      Box.AddCell { start_ := 65534, length_ := 65535 } (0 :: List.range 65535) 65535 = some r ∧
      r.1.length_ = 0 ∧ Box.Iterator.run r.2 r.1.length_ r.1.begin = some [] := by
  have hlen : 65535 < (0 :: List.range 65535).length := by
    rw [List.length_cons, List.length_range]
    norm_num
  refine ⟨(List.range 65535).reverse, _, Box.Iterator.run_range 65535 65534 (by norm_num), ?_,
    ?_, hlen, Box.AddCell_nonempty _ _ 65535 (by decide) hlen, rfl, rfl⟩
  · rw [List.length_reverse, List.length_range]
  · rw [List.mem_reverse, List.mem_range]
    exact Nat.lt_irrefl _

/-- C15 (amended): for every grid built by the constructor and every box of it
that is assigned fewer than `2^16` entities, the chain traversal of the box
lists exactly the ids of the entities assigned to the box, in strictly
decreasing id order (the constructor inserts the ids in increasing order). -/
theorem chain_in_reverse_insertion_order (positions : List (array3 ℚ)) (box_length : Nat)
    (max_value : array3 ℚ) (g : Grid) (h : Grid.ctor positions box_length max_value = some g)
    (b : Nat) (box : Box) (hb : g.boxes_[b]? = some box) (hpop : g.population b < 2 ^ 16) :
    ∃ ids, g.chain box = some ids ∧
      (∀ i, i ∈ ids ↔ i < positions.length ∧ g.BoxIndexOfEntity i = some b) ∧
      ids.Pairwise (fun i j => j < i) := by
  obtain ⟨wf, hpos, _⟩ := Grid.ctor_wf _ _ _ g h
  obtain ⟨_, hc⟩ := wf.chain_eq_members b box hb hpop
  refine ⟨g.members b, hc, ?_, g.membersBelow_sorted b _⟩
  intro i
  rw [Grid.mem_members, hpos]

/-- C15, witness: the box of the entities 3 and 7 in the grid built for eight
entities of which only 3 and 7 are at (1/2, 1/2, 1/2); its chain traversal is
`7, 3`. -/
theorem chain_in_reverse_insertion_order_witness :
    Grid.ctor positions_3_and_7 1 { a0 := 2, a1 := 1, a2 := 1 } = some grid_3_and_7 ∧
    grid_3_and_7.boxes_[0]? = some { start_ := 7, length_ := 2 } ∧
    grid_3_and_7.chain { start_ := 7, length_ := 2 } = some [7, 3] ∧
    ∃ ids, grid_3_and_7.chain { start_ := 7, length_ := 2 } = some ids ∧
      (∀ i, i ∈ ids ↔ i < positions_3_and_7.length ∧ grid_3_and_7.BoxIndexOfEntity i = some 0) ∧
      ids.Pairwise (fun i j => j < i) :=
  ⟨by decide, by decide, by decide,
    chain_in_reverse_insertion_order positions_3_and_7 1 { a0 := 2, a1 := 1, a2 := 1 }
      grid_3_and_7 (by decide) 0 { start_ := 7, length_ := 2 } (by decide) (by decide)⟩

/-- C15, counterexample: 65536 entities at the origin of the one-box grid; the
constructor returns a grid whose only box is assigned all 65536 entities and
has an empty chain traversal. -/
theorem chain_empty_after_wrap :
    ∃ g box, Grid.ctor (List.replicate 65536 { a0 := 0, a1 := 0, a2 := 0 }) 1
        { a0 := 1, a1 := 1, a2 := 1 } = some g ∧
      g.boxes_ = [box] ∧ g.population 0 = 65536 ∧ g.chain box = some [] := by
  obtain ⟨g, hg, hlen, hpop, hl⟩ := Grid.ctor_one_box 65536
  obtain ⟨box, hbox⟩ : ∃ box, g.boxes_ = [box] := by
    match hb : g.boxes_, hlen with
    | [box], _ => exact ⟨box, rfl⟩
  refine ⟨g, box, hg, hbox, hpop, ?_⟩
  rw [hbox] at hl
  have hz : box.length_ = 0 := by
    have h1 : box.length_ = 65536 % 2 ^ 16 := by simpa using hl
    omega
  unfold Grid.chain
  rw [hz]
  rfl

/-- C16: for every built grid and every non-empty list of valid box pointers
(an `InlineVector` holds fewer than `2^16` of them; empty boxes are allowed
anywhere in the list), the chains of the listed boxes are defined, the
`NeighborIterator` constructor returns, and the loop that reads `operator*` and
applies `operator++` until `IsAtEnd` ends after as many steps as the listed
boxes hold entries, having read the concatenation, in list order, of the chain
traversals of the listed boxes. -/
theorem neighbor_iterator_reads_chains (positions : List (array3 ℚ)) (box_length : Nat)
    (max_value : array3 ℚ) (g : Grid) (h : Grid.ctor positions box_length max_value = some g)
    (nb : List Nat) (hne : nb ≠ []) (hsz : nb.length < 2 ^ 16)
    (hvalid : ∀ p ∈ nb, p < g.boxes_.length) :
    ∃ R it, g.chainsOf nb = some R ∧ NeighborIterator.ctor g nb = some it ∧
      ∀ fuel, g.sumLengths nb ≤ fuel →
        ∃ itEnd, it.run g fuel = some (R, itEnd) ∧ itEnd.IsAtEnd = true := by
  obtain ⟨wf, _, _⟩ := Grid.ctor_wf _ _ _ g h
  obtain ⟨R, hR⟩ := wf.chainsOf_isSome nb hvalid
  obtain ⟨it, hit, hrun⟩ := NeighborIterator.ctor_run g nb R hne hsz hR
  exact ⟨R, it, hR, hit, hrun⟩

/-- C16, witness: in the grid built for the domain bound (4,4,4), whose boxes
25, 42 and 38 hold the entities 0, 2 and 1, the list of the boxes
0, 25, 1, 42, 38, 2 is read as 0, 2, 1. -/
theorem neighbor_iterator_reads_chains_witness :
    Grid.ctor [{ a0 := 1, a1 := 2, a2 := 1 }, { a0 := 2, a1 := 1, a2 := 2 }, { a0 := 2, a1 := 2, a2 := 2 }] 1 { a0 := 4, a1 := 4, a2 := 4 } = some grid_4x4x4 ∧
    grid_4x4x4.chainsOf [0, 25, 1, 42, 38, 2] = some [0, 2, 1] ∧
    ∃ R it, grid_4x4x4.chainsOf [0, 25, 1, 42, 38, 2] = some R ∧
      NeighborIterator.ctor grid_4x4x4 [0, 25, 1, 42, 38, 2] = some it ∧
      ∀ fuel, grid_4x4x4.sumLengths [0, 25, 1, 42, 38, 2] ≤ fuel →
        ∃ itEnd, it.run grid_4x4x4 fuel = some (R, itEnd) ∧ itEnd.IsAtEnd = true :=
  ⟨by decide, by decide,
    neighbor_iterator_reads_chains
      [{ a0 := 1, a1 := 2, a2 := 1 }, { a0 := 2, a1 := 1, a2 := 2 }, { a0 := 2, a1 := 2, a2 := 2 }] 1
      { a0 := 4, a1 := 4, a2 := 4 } grid_4x4x4 (by decide) [0, 25, 1, 42, 38, 2] (by decide)
      (by decide) (by decide)⟩

/-- C17: for every center box index the neighbor list produced by
`GetMooreBoxes` contains the center box; it is the first entry. -/
theorem GetMooreBoxes_contains_center (g : Grid) (c : Nat) :
    c ∈ g.GetMooreBoxes c ∧ (g.GetMooreBoxes c)[0]? = some c :=
  ⟨List.mem_cons_self _ _, rfl⟩

/-- C18, the code at the failing input: in the grid built for the positions
(1,1,1) and (2,2,2) and the domain bound (4,4,4), the list that `GetMooreBoxes`
forms for the interior box 21, of coordinate (1,1,1), holds box 42, of
coordinate (2,2,2), twice, and the loop for entity 0 reads the id 1 twice. -/
theorem GetMooreBoxes_lists_a_box_twice :
    Grid.ctor [{ a0 := 1, a1 := 1, a2 := 1 }, { a0 := 2, a1 := 2, a2 := 2 }] 1
      { a0 := 4, a1 := 4, a2 := 4 } = some grid_4x4x4_diagonal ∧
    grid_4x4x4_diagonal.GetBoxCoordinates 21 = some { a0 := 1, a1 := 1, a2 := 1 } ∧
    grid_4x4x4_diagonal.IsInterior { a0 := 1, a1 := 1, a2 := 1 } ∧
    grid_4x4x4_diagonal.GetBoxCoordinates 42 = some { a0 := 2, a1 := 2, a2 := 2 } ∧
    (grid_4x4x4_diagonal.GetMooreBoxes 21).count 42 = 2 ∧
    ¬ (grid_4x4x4_diagonal.GetMooreBoxes 21).Nodup ∧
    (grid_4x4x4_diagonal.NeighborsOf 0).map Prod.fst = some [0, 1, 1] := by
  decide

/-- C19 (amended): for every built grid and every entity `i` such that every
box pointer that `GetMooreBoxes` forms for the box of `i` is valid and the box
of `i` is assigned fewer than `2^16` entities, the loop over the
`NeighborIterator` for `i` ends and the id `i` is among the ids it reads. -/
theorem own_id_is_read (positions : List (array3 ℚ)) (box_length : Nat)
    (max_value : array3 ℚ) (g : Grid) (h : Grid.ctor positions box_length max_value = some g)
    (i idx : Nat) (hi : i < positions.length) (hidx : g.BoxIndexOfEntity i = some idx)
    (hvalid : ∀ p ∈ g.GetMooreBoxes idx, p < g.boxes_.length)
    (hpop : g.population idx < 2 ^ 16) :
    ∃ ids itEnd, g.NeighborsOf i = some (ids, itEnd) ∧ itEnd.IsAtEnd = true ∧ i ∈ ids := by
  obtain ⟨wf, hpos, _⟩ := Grid.ctor_wf _ _ _ g h
  obtain ⟨ids, itEnd, hN, hend, hch⟩ := wf.NeighborsOf_spec i idx hidx hvalid
  exact ⟨ids, itEnd, hN, hend,
    wf.mem_ids_of_box _ ids hch i idx (g.mem_GetMooreBoxes_self idx) (hpos ▸ hi) hidx hpop⟩

/-- C19, witness: entity 0 of the grid built for two entities at (1,1,1) and the
domain bound (3,3,3). -/
theorem own_id_is_read_witness :
    Grid.ctor [{ a0 := 1, a1 := 1, a2 := 1 }, { a0 := 1, a1 := 1, a2 := 1 }] 1 { a0 := 3, a1 := 3, a2 := 3 } = some grid_3x3x3 ∧
    ∃ ids itEnd, grid_3x3x3.NeighborsOf 0 = some (ids, itEnd) ∧ itEnd.IsAtEnd = true ∧ 0 ∈ ids :=
  ⟨by decide,
    own_id_is_read [{ a0 := 1, a1 := 1, a2 := 1 }, { a0 := 1, a1 := 1, a2 := 1 }] 1
      { a0 := 3, a1 := 3, a2 := 3 } grid_3x3x3 (by decide) 0 13 (by decide) (by decide)
      (by decide) (by decide)⟩

/-- C19, counterexample.  In the grid built for the domain bound (2,2,2) entity
1 is in box 7, the box pointer `&boxes_[7 + 4]` that `GetMooreBoxes` forms is
outside the 8 boxes, and the loop for entity 1 is undefined.  With 65536
entities at (0,0,3) in the grid of 1 x 1 x 7 unit boxes every box pointer formed
for box 3 is valid and the loop for entity 0 ends without reading the id 0. -/
theorem own_id_not_read :
    (Grid.ctor [{ a0 := 0, a1 := 0, a2 := 0 }, { a0 := 1, a1 := 1, a2 := 1 }] 1 { a0 := 2, a1 := 2, a2 := 2 } = some grid_2x2x2 ∧
      grid_2x2x2.BoxIndexOfEntity 1 = some 7 ∧ 11 ∈ grid_2x2x2.GetMooreBoxes 7 ∧
      grid_2x2x2.boxes_.length = 8 ∧ grid_2x2x2.NeighborsOf 1 = none) ∧
    ∃ g, Grid.ctor (List.replicate 65536 { a0 := 0, a1 := 0, a2 := 3 }) 1
        { a0 := 1, a1 := 1, a2 := 7 } = some g ∧
      g.BoxIndexOfEntity 0 = some 3 ∧ g.population 3 = 65536 ∧
      (∀ p ∈ g.GetMooreBoxes 3, p < g.boxes_.length) ∧
      ∃ ids itEnd, g.NeighborsOf 0 = some (ids, itEnd) ∧ itEnd.IsAtEnd = true ∧ 0 ∉ ids := by
  refine ⟨by decide, ?_⟩
  obtain ⟨g, hg, _, h0, hpop, hvalid, hN⟩ := Grid.ctor_column 65536 (by norm_num) (by norm_num)
  exact ⟨g, hg, h0, hpop, hvalid, hN⟩

/-- C20 (amended): for every position set and domain bound, the constructor
called with box side length 0 divides by zero: its behaviour is undefined, it
reports no error and returns no grid. -/
theorem box_length_zero_undefined (positions : List (array3 ℚ)) (max_value : array3 ℚ) :
    Grid.ctor positions 0 max_value = none ∧
      Grid.BuildGrid positions 0 max_value = BuildOutcome.undefined := by
  have h : Grid.ctor positions 0 max_value = none := by
    unfold Grid.ctor
    rw [if_pos rfl]
  exact ⟨h, by unfold Grid.BuildGrid; rw [h]⟩

/-- C20, counterexample: for no position and the domain bound (1,1,1) the
outcome of the constructor with box side length 0 is not
`InvalidConfiguration`. -/
theorem box_length_zero_not_reported :
    Grid.BuildGrid [] 0 { a0 := 1, a1 := 1, a2 := 1 } ≠ BuildOutcome.InvalidConfiguration := by
  decide

/-! ## The constructor on out-of-range input, the accumulator of `ForEachNeighbor` and the time steps: auxiliary facts -/

/-- The fields that the initial part of the constructor copies from its
arguments. -/
theorem Grid.ctor_init_frame (positions : List (array3 ℚ)) (box_length : Nat)
    (max_value : array3 ℚ) (g0 : Grid)
    (h : Grid.ctor_init positions box_length max_value = some g0) :
    g0.positions_ = positions ∧ g0.box_lenght_ = box_length := by
  unfold Grid.ctor_init at h
  by_cases hL : box_length = 0
  · simp [hL] at h
  · rw [if_neg hL] at h
    cases h0 : double_to_unsigned 64 max_value.a0 with
    | none => simp [h0] at h
    | some m0 =>
      cases h1 : double_to_unsigned 64 max_value.a1 with
      | none => simp [h0, h1] at h
      | some m1 =>
        cases h2 : double_to_unsigned 64 max_value.a2 with
        | none => simp [h0, h1, h2] at h
        | some m2 =>
          simp only [h0, h1, h2, Option.some.injEq] at h
          subst h
          exact ⟨rfl, rfl⟩

/-- The assignment loop is undefined when the box index of one of the
positions is. -/
theorem Grid.assign_undefined : ∀ (rest : List (array3 ℚ)) (k : Nat) (g : Grid),
    (∃ p ∈ rest, g.GetBoxIndexPos p = none) → Grid.assign rest k g = none := by
  intro rest
  induction rest with
  | nil =>
    intro k g h
    obtain ⟨p, hp, _⟩ := h
    cases hp
  | cons q qs ih =>
    intro k g h
    obtain ⟨p, hp, hnone⟩ := h
    unfold Grid.assign
    cases hi : g.GetBoxIndexPos q with
    | none => rfl
    | some idx =>
      cases hb : g.GetBox idx with
      | none => simp only [hb]
      | some box =>
        cases ha : box.AddCell g.successors_ k with
        | none => simp only [hb, ha]
        | some r =>
          simp only [hb, ha]
          apply ih
          rcases List.mem_cons.1 hp with rfl | hmem
          · rw [hi] at hnone
            cases hnone
          · refine ⟨p, hmem, ?_⟩
            exact (Grid.GetBoxIndexPos_congr (g := g) ⟨rfl, rfl, rfl, rfl⟩ p).trans hnone

/-- The quotient `floor(p) / L` of a component with `floor(p) <= -L` is negative
and its conversion to `uint32_t` is undefined. -/
theorem floor_div_to_uint32_neg (p : ℚ) (L : Nat) (h : ⌊p⌋ ≤ -(L : Int)) :
    floor_div_to_uint32 p L = none := by
  by_cases hL : L = 0
  · unfold floor_div_to_uint32
    rw [if_pos hL]
  · have hLpos : 0 < L := Nat.pos_of_ne_zero hL
    have hLq : (0 : ℚ) < (L : ℚ) := by exact_mod_cast hLpos
    rw [floor_div_to_uint32_eq p L hLpos]
    have hz : ((⌊p⌋ : Int) : ℚ) ≤ -(L : ℚ) := by exact_mod_cast h
    have hq : ((⌊p⌋ : Int) : ℚ) / (L : ℚ) ≤ -1 := by
      rw [div_le_iff₀ hLq]
      linarith
    have hr := round_to_double_le_neg_one _ hq
    generalize round_to_double (((⌊p⌋ : Int) : ℚ) / (L : ℚ)) = r at hr
    unfold double_to_unsigned
    have hneg : ¬ (0 : ℚ) ≤ r := by
      rw [not_le]
      linarith
    have hceil : ⌈r⌉ ≤ -1 := by
      rw [Int.ceil_le]
      exact_mod_cast hr
    simp only [if_neg hneg]
    rw [if_neg (by omega)]

/-- The box index of a position is undefined when the conversion of one of its
box coordinates is. -/
theorem Grid.GetBoxIndexPos_undefined (g : Grid) (p : array3 ℚ)
    (h : floor_div_to_uint32 p.a0 g.box_lenght_ = none ∨
      floor_div_to_uint32 p.a1 g.box_lenght_ = none ∨
      floor_div_to_uint32 p.a2 g.box_lenght_ = none) : g.GetBoxIndexPos p = none := by
  unfold Grid.GetBoxIndexPos Grid.BoxCoordOf
  rcases h with h | h | h
  · rw [h]
    rfl
  · rw [h]
    cases floor_div_to_uint32 p.a0 g.box_lenght_ <;> rfl
  · rw [h]
    cases floor_div_to_uint32 p.a0 g.box_lenght_ <;>
      cases floor_div_to_uint32 p.a1 g.box_lenght_ <;> rfl

/-- The initial part of the constructor for a domain bound whose components are
multiples `m[k] * L` of the box side length, without 32-bit overflow. -/
theorem Grid.ctor_init_multiple (positions : List (array3 ℚ)) (box_length : Nat) (m : array3 Nat)
    (hL : 0 < box_length) (hL32 : box_length < 2 ^ 32)
    (h0 : m.a0 < 2 ^ 32) (h1 : m.a1 < 2 ^ 32) (h2 : m.a2 < 2 ^ 32)
    (hxy : m.a0 * m.a1 < 2 ^ 32) :
    Grid.ctor_init positions box_length
        { a0 := ((m.a0 * box_length : Nat) : ℚ), a1 := ((m.a1 * box_length : Nat) : ℚ),
          a2 := ((m.a2 * box_length : Nat) : ℚ) } =
      some { boxes_ := List.replicate (m.a0 * m.a1 * m.a2) { start_ := 0, length_ := 0 },
             positions_ := positions,
             box_lenght_ := box_length,
             num_boxes_axis_ := { a0 := m.a0, a1 := m.a1, a2 := m.a2 },
             num_boxes_xy_ := m.a0 * m.a1,
             successors_ := List.replicate positions.length 0 } := by
  have hb : ∀ k : Nat, k < 2 ^ 32 → k * box_length < 2 ^ 64 := by
    intro k hk
    have h3 : k * box_length ≤ (2 ^ 32 - 1) * (2 ^ 32 - 1) :=
      Nat.mul_le_mul (by omega) (by omega)
    have h4 : (2 ^ 32 - 1) * (2 ^ 32 - 1) < 2 ^ 64 := by norm_num
    omega
  have hc : ∀ k : Nat, k < 2 ^ 32 →
      double_to_unsigned 64 ((k * box_length : Nat) : ℚ) = some (k * box_length) := by
    intro k hk
    have := double_to_unsigned_of_nonneg 64 ((k * box_length : Nat) : ℚ) (Nat.cast_nonneg _)
      (by rw [Nat.floor_natCast]; exact hb k hk)
    rw [this, Nat.floor_natCast]
  have hd : ∀ k : Nat, k < 2 ^ 32 → k * box_length / box_length % 2 ^ 32 = k := by
    intro k hk
    rw [Nat.mul_div_cancel _ hL, Nat.mod_eq_of_lt hk]
  have htot : m.a0 * m.a1 * m.a2 < 2 ^ 64 := by
    have h3 : m.a0 * m.a1 * m.a2 ≤ (2 ^ 32 - 1) * (2 ^ 32 - 1) :=
      Nat.mul_le_mul (by omega) (by omega)
    have h4 : (2 ^ 32 - 1) * (2 ^ 32 - 1) < 2 ^ 64 := by norm_num
    omega
  unfold Grid.ctor_init
  rw [if_neg (by omega)]
  simp only [hc _ h0, hc _ h1, hc _ h2, hd _ h0, hd _ h1, hd _ h2, Nat.mod_eq_of_lt hxy,
    Nat.mod_eq_of_lt htot]

/-- The assignment loop over a grid without boxes: it returns the grid when
there is no position and is undefined otherwise. -/
theorem Grid.assign_no_boxes (rest : List (array3 ℚ)) (k : Nat) (g : Grid) (hb : g.boxes_ = []) :
    (rest = [] → Grid.assign rest k g = some g) ∧ (rest ≠ [] → Grid.assign rest k g = none) := by
  constructor
  · intro h
    rw [h]
    rfl
  · intro h
    cases rest with
    | nil => exact absurd rfl h
    | cons p ps =>
      unfold Grid.assign
      cases hi : g.GetBoxIndexPos p with
      | none => rfl
      | some idx =>
        have hg : g.GetBox idx = none := by
          unfold Grid.GetBox
          rw [hb]
          rfl
        simp only [hg]

/-- The constructor never reports an error. -/
theorem Grid.BuildGrid_cases (positions : List (array3 ℚ)) (box_length : Nat)
    (max_value : array3 ℚ) :
    Grid.BuildGrid positions box_length max_value ≠ BuildOutcome.InvalidConfiguration ∧
      Grid.BuildGrid positions box_length max_value ≠ BuildOutcome.OutOfDomain := by
  unfold Grid.BuildGrid
  cases Grid.ctor positions box_length max_value with
  | none => exact ⟨by simp, by simp⟩
  | some g => exact ⟨by simp, by simp⟩

/-- Adding ids one by one to a `size_t` accumulator gives the sum modulo
`2^64`. -/
theorem size_t_sum_eq (ids : List Nat) :
    ∀ v : Nat, ids ≠ [] ∨ v < 2 ^ 64 → size_t_sum v ids = (v + ids.sum) % 2 ^ 64 := by
  induction ids with
  | nil =>
    intro v h
    rcases h with h | h
    · exact absurd rfl h
    · simp only [size_t_sum, List.foldl_nil, List.sum_nil, Nat.add_zero]
      exact (Nat.mod_eq_of_lt h).symm
  | cons id rest ih =>
    intro v _
    have h1 : size_t_sum v (id :: rest) = size_t_sum (size_t_add v id) rest := rfl
    rw [h1, ih (size_t_add v id) (Or.inr (Nat.mod_lt _ (by norm_num))), List.sum_cons]
    unfold size_t_add
    omega

/-- Writing to a slot the value it holds leaves the vector as it is. -/
theorem set_slot_same (l : List Nat) (i v : Nat) (h : l[i]? = some v) : l.set i v = l := by
  apply List.ext_getElem?
  intro j
  by_cases hj : i = j
  · subst hj
    rw [List.getElem?_set_self (List.getElem?_eq_some_iff.1 h).1, h]
  · rw [List.getElem?_set_ne hj]

/-- Adding ids to a slot leaves the grid and the size of `sum` as they are. -/
theorem ForEachNeighborState.add_frame (s s1 : ForEachNeighborState) (i : Nat) (ids : List Nat)
    (h : s.add i ids = some s1) : s1.grid = s.grid ∧ s1.sum.length = s.sum.length := by
  unfold ForEachNeighborState.add at h
  cases ids with
  | nil =>
    simp only [Option.some.injEq] at h
    subst h
    exact ⟨rfl, rfl⟩
  | cons id rest =>
    simp only at h
    cases hv : s.sum[i]? with
    | none => simp [hv] at h
    | some v =>
      simp only [hv, Option.some.injEq] at h
      subst h
      exact ⟨rfl, List.length_set _ _ _⟩

/-- The `while` loop of `ForEachNeighbor` adds to slot `i` the ids that the loop
over the iterator reads, and is defined when that loop ends. -/
theorem Grid.ForEachNeighbor_while_eq (i : Nat) :
    ∀ (k : Nat) (it : NeighborIterator) (s : ForEachNeighborState),
      Grid.ForEachNeighbor_while i k it s =
        match it.run s.grid k with
        | none => none
        | some r => if r.2.IsAtEnd then (s.add i r.1).map (fun s1 => (s1, r.2)) else none := by
  intro k
  induction k with
  | zero =>
    intro it s
    simp only [Grid.ForEachNeighbor_while, NeighborIterator.run, ForEachNeighborState.add,
      Option.map_some']
  | succ k ih =>
    intro it s
    unfold Grid.ForEachNeighbor_while NeighborIterator.run
    by_cases he : it.IsAtEnd = true
    · simp only [he, if_true, ForEachNeighborState.add, Option.map_some']
    · simp only [he, Bool.false_eq_true, if_false]
      cases hn : it.next s.grid with
      | none =>
        cases hv : s.sum[i]? with
        | none => simp only [hv, hn]
        | some v => simp only [hv, hn]
      | some it1 =>
        cases hr : it1.run s.grid k with
        | none =>
          cases hv : s.sum[i]? with
          | none => simp only [hv, hn, hr]
          | some v => simp only [hv, hn, ih, hr]
        | some r =>
          cases hv : s.sum[i]? with
          | none =>
            simp only [hv, hn, hr, ForEachNeighborState.add, Option.map_none', ite_self]
          | some v =>
            have hlt : i < s.sum.length := (List.getElem?_eq_some_iff.1 hv).1
            simp only [hv, hn, ih, hr]
            by_cases hend : r.2.IsAtEnd = true
            · simp only [hend, if_true]
              cases hr1 : r.1 with
              | nil =>
                simp only [ForEachNeighborState.add, hv, Option.map_some', size_t_sum,
                  List.foldl_cons, List.foldl_nil]
              | cons id rest =>
                simp only [ForEachNeighborState.add, hv, Option.map_some', size_t_sum,
                  List.foldl_cons, List.getElem?_set_self hlt, List.set_set]
            · simp only [hend, Bool.false_eq_true, if_false]

/-- The body of the `for` loop of `ForEachNeighbor` adds to slot `i` the ids
that the `NeighborIterator` for `i` produces. -/
theorem Grid.ForEachNeighbor_body_eq (s : ForEachNeighborState) (i : Nat) :
    Grid.ForEachNeighbor_body s i = (s.grid.NeighborIds i).bind (s.add i) := by
  unfold Grid.ForEachNeighbor_body Grid.NeighborIds Grid.NeighborsOf
  cases hp : s.grid.positions_[i]? with
  | none => simp only [hp, Option.none_bind]
  | some position =>
    cases hx : s.grid.GetBoxIndexPos position with
    | none => simp only [hp, hx, Option.none_bind]
    | some idx =>
      simp only [hp, hx]
      generalize s.grid.GetMooreBoxes idx = nb
      cases hc : NeighborIterator.ctor s.grid nb with
      | none => simp only [Option.none_bind]
      | some it =>
        simp only []
        rw [Grid.ForEachNeighbor_while_eq]
        cases hr : it.run s.grid (s.grid.sumLengths nb) with
        | none => simp only [Option.none_bind]
        | some r =>
          by_cases hend : r.2.IsAtEnd = true
          · simp only [hend, if_true, Option.some_bind]
            cases s.add i r.1 <;> rfl
          · simp only [hend, Bool.false_eq_true, if_false, Option.none_bind]

/-- The body of the `for` loop leaves the grid as it is. -/
theorem Grid.ForEachNeighbor_body_frame (s s1 : ForEachNeighborState) (i : Nat)
    (h : Grid.ForEachNeighbor_body s i = some s1) :
    s1.grid = s.grid ∧ s1.sum.length = s.sum.length := by
  rw [Grid.ForEachNeighbor_body_eq] at h
  cases hN : s.grid.NeighborIds i with
  | none => simp [hN] at h
  | some ids =>
    simp only [hN, Option.some_bind] at h
    exact s.add_frame s1 i ids h

/-- The `for` loop leaves the grid as it is, whatever the order of the
indices. -/
theorem Grid.ForEachNeighbor_for_frame :
    ∀ (order : List Nat) (s s1 : ForEachNeighborState),
      Grid.ForEachNeighbor_for order s = some s1 →
        s1.grid = s.grid ∧ s1.sum.length = s.sum.length := by
  intro order
  induction order with
  | nil =>
    intro s s1 h
    simp only [Grid.ForEachNeighbor_for, Option.some.injEq] at h
    subst h
    exact ⟨rfl, rfl⟩
  | cons i rest ih =>
    intro s s1 h
    unfold Grid.ForEachNeighbor_for at h
    cases hb : Grid.ForEachNeighbor_body s i with
    | none => simp [hb] at h
    | some s2 =>
      simp only [hb] at h
      obtain ⟨h1, h2⟩ := ih s2 s1 h
      obtain ⟨h3, h4⟩ := Grid.ForEachNeighbor_body_frame s s2 i hb
      exact ⟨h1.trans h3, h2.trans h4⟩

/-- Adding ids to two slots commutes. -/
theorem ForEachNeighborState.add_comm (s : ForEachNeighborState) (i j : Nat) (a b : List Nat)
    (hij : i ≠ j) :
    (s.add i a).bind (fun s1 => s1.add j b) = (s.add j b).bind (fun s1 => s1.add i a) := by
  cases a with
  | nil =>
    cases b with
    | nil => rfl
    | cons y ys =>
      simp only [ForEachNeighborState.add, Option.some_bind]
      cases s.sum[j]? <;> rfl
  | cons x xs =>
    cases b with
    | nil =>
      simp only [ForEachNeighborState.add, Option.some_bind]
      cases s.sum[i]? <;> rfl
    | cons y ys =>
      simp only [ForEachNeighborState.add]
      cases hi : s.sum[i]? with
      | none =>
        cases hj : s.sum[j]? with
        | none => rfl
        | some w =>
          simp only [Option.none_bind, Option.some_bind, List.getElem?_set_ne hij.symm, hi]
      | some v =>
        cases hj : s.sum[j]? with
        | none =>
          simp only [Option.none_bind, Option.some_bind, List.getElem?_set_ne hij, hj]
        | some w =>
          simp only [Option.some_bind, List.getElem?_set_ne hij, List.getElem?_set_ne hij.symm,
            hi, hj, List.set_comm _ _ _ hij]

/-- Two bodies of the `for` loop commute. -/
theorem Grid.ForEachNeighbor_body_comm (s : ForEachNeighborState) (i j : Nat) :
    (Grid.ForEachNeighbor_body s i).bind (fun s1 => Grid.ForEachNeighbor_body s1 j) =
      (Grid.ForEachNeighbor_body s j).bind (fun s1 => Grid.ForEachNeighbor_body s1 i) := by
  by_cases hij : i = j
  · subst hij
    rfl
  · have key : ∀ (k l : Nat) (c : List Nat), s.grid.NeighborIds l = some c →
        (Grid.ForEachNeighbor_body s k).bind (fun s1 => Grid.ForEachNeighbor_body s1 l) =
          (Grid.ForEachNeighbor_body s k).bind (fun s1 => s1.add l c) := by
      intro k l c hc
      cases hb : Grid.ForEachNeighbor_body s k with
      | none => rfl
      | some s1 =>
        obtain ⟨hg, _⟩ := Grid.ForEachNeighbor_body_frame s s1 k hb
        simp only [Option.some_bind, Grid.ForEachNeighbor_body_eq s1, hg, hc]
    have keyn : ∀ (k l : Nat), s.grid.NeighborIds l = none →
        (Grid.ForEachNeighbor_body s k).bind (fun s1 => Grid.ForEachNeighbor_body s1 l) =
          none := by
      intro k l hc
      cases hb : Grid.ForEachNeighbor_body s k with
      | none => rfl
      | some s1 =>
        obtain ⟨hg, _⟩ := Grid.ForEachNeighbor_body_frame s s1 k hb
        simp only [Option.some_bind, Grid.ForEachNeighbor_body_eq s1, hg, hc, Option.none_bind]
    cases hi : s.grid.NeighborIds i with
    | none =>
      rw [keyn j i hi, Grid.ForEachNeighbor_body_eq s i, hi]
      rfl
    | some a =>
      cases hj : s.grid.NeighborIds j with
      | none =>
        rw [keyn i j hj, Grid.ForEachNeighbor_body_eq s j, hj]
        rfl
      | some b =>
        rw [key i j b hj, key j i a hi, Grid.ForEachNeighbor_body_eq s i,
          Grid.ForEachNeighbor_body_eq s j, hi, hj]
        exact s.add_comm i j a b hij

/-- The `for` loop over two leading indices. -/
theorem Grid.ForEachNeighbor_for_cons_cons (i j : Nat) (rest : List Nat)
    (s : ForEachNeighborState) :
    Grid.ForEachNeighbor_for (i :: j :: rest) s =
      ((Grid.ForEachNeighbor_body s i).bind (fun s1 => Grid.ForEachNeighbor_body s1 j)).bind
        (Grid.ForEachNeighbor_for rest) := by
  simp only [Grid.ForEachNeighbor_for]
  cases Grid.ForEachNeighbor_body s i with
  | none => rfl
  | some s1 =>
    simp only [Option.some_bind]
    cases Grid.ForEachNeighbor_body s1 j <;> rfl

/-- The result of the `for` loop does not depend on the order of the
indices. -/
theorem Grid.ForEachNeighbor_for_perm (order1 order2 : List Nat) (h : order1.Perm order2) :
    ∀ s : ForEachNeighborState,
      Grid.ForEachNeighbor_for order1 s = Grid.ForEachNeighbor_for order2 s := by
  induction h with
  | nil => intro s; rfl
  | cons x _ ih =>
    intro s
    simp only [Grid.ForEachNeighbor_for]
    cases Grid.ForEachNeighbor_body s x with
    | none => rfl
    | some s1 => exact ih s1
  | swap x y l =>
    intro s
    rw [Grid.ForEachNeighbor_for_cons_cons, Grid.ForEachNeighbor_for_cons_cons,
      Grid.ForEachNeighbor_body_comm s y x]
  | trans _ _ ih1 ih2 =>
    intro s
    exact (ih1 s).trans (ih2 s)

/-- The loop that reads and advances a `NeighborIterator` applies `operator++`
once for every id it reads, and the iterator is not at its end before any of
these applications. -/
theorem NeighborIterator.run_advance (g : Grid) :
    ∀ (fuel : Nat) (it : NeighborIterator) (ids : List Nat) (itE : NeighborIterator),
      it.run g fuel = some (ids, itE) →
        NeighborIterator.advance g ids.length it = some itE ∧
          ∀ k, k < ids.length →
            ∃ itk, NeighborIterator.advance g k it = some itk ∧ itk.IsAtEnd = false := by
  intro fuel
  induction fuel with
  | zero =>
    intro it ids itE h
    simp only [NeighborIterator.run, Option.some.injEq, Prod.mk.injEq] at h
    obtain ⟨h1, h2⟩ := h
    subst h1 h2
    exact ⟨rfl, fun k hk => absurd hk (Nat.not_lt_zero k)⟩
  | succ fuel ih =>
    intro it ids itE h
    unfold NeighborIterator.run at h
    by_cases he : it.IsAtEnd = true
    · simp only [he, if_true, Option.some.injEq, Prod.mk.injEq] at h
      obtain ⟨h1, h2⟩ := h
      subst h1 h2
      exact ⟨rfl, fun k hk => absurd hk (Nat.not_lt_zero k)⟩
    · simp only [he, Bool.false_eq_true, if_false] at h
      cases hn : it.next g with
      | none => simp [hn] at h
      | some it1 =>
        cases hr : it1.run g fuel with
        | none => simp [hn, hr] at h
        | some r =>
          simp only [hn, hr, Option.some.injEq, Prod.mk.injEq] at h
          obtain ⟨h1, h2⟩ := h
          subst h1 h2
          obtain ⟨a1, a2⟩ := ih it1 r.1 r.2 hr
          refine ⟨?_, ?_⟩
          · simp only [List.length_cons, NeighborIterator.advance, hn]
            exact a1
          · intro k hk
            cases k with
            | zero => exact ⟨it, rfl, by simpa using he⟩
            | succ k =>
              obtain ⟨itk, b1, b2⟩ := a2 k (by simpa using hk)
              exact ⟨itk, by simp only [NeighborIterator.advance, hn]; exact b1, b2⟩

/-- One invocation of `MFEMPDEOp::operator()`: the time it records and the
steps it passes to `Step`. -/
theorem MFEMPDEOp.call_spec (op : MFEMPDEOp) (sim : SimulationView) :
    (op.call sim).1.last_time_run_ = sim.current_time ∧
      (op.call sim).2 =
        (if round_to_double (sim.current_time - op.last_time_run_) = 0 then []
          else [round_to_double (sim.current_time - op.last_time_run_)]) ∧
      (op.call sim).2.sum = round_to_double (sim.current_time - op.last_time_run_) := by
  unfold MFEMPDEOp.call
  by_cases h : round_to_double (sim.current_time - op.last_time_run_) = 0
  · simp only [h, if_true, List.sum_nil, and_self]
  · simp only [h, if_false, List.sum_cons, List.sum_nil, add_zero, and_self]

/-- One invocation of `DiffusionOp::operator()`: the time it records and the sum
of the steps it passes to `Diffuse`. -/
theorem DiffusionOp.diffuse_call_spec (op : DiffusionOp) (sim : SimulationView) :
    (op.call sim).1.last_time_run_ = sim.current_time ∧
      ((op.call sim).2.map DiffusionGridCall.time_step).sum =
        round_to_double (sim.current_time - op.last_time_run_) := by
  unfold DiffusionOp.call
  by_cases h : round_to_double (sim.current_time - op.last_time_run_) = 0
  · simp only [h, if_true, List.map_nil, List.sum_nil, and_self]
  · simp only [h, if_false, true_and]
    cases sim.has_grown && sim.bound_space_open <;> cases sim.calculate_gradients <;>
      simp [DiffusionGridCall.time_step]

/-- When no subtraction is rounded, the steps passed to `Step` over a sequence
of invocations add up to the difference of the recorded times, and a field that
starts at the first recorded time ends at the last one. -/
theorem MFEMPDEOp.calls_exact (sims : List SimulationView) :
    ∀ op : MFEMPDEOp, ExactTimes op.last_time_run_ sims →
      (op.calls sims).2.sum = (op.calls sims).1.last_time_run_ - op.last_time_run_ ∧
        SimTimeAfter op.last_time_run_ (op.calls sims).2 = (op.calls sims).1.last_time_run_ := by
  induction sims with
  | nil => intro op _; simp [MFEMPDEOp.calls, SimTimeAfter]
  | cons sim rest ih =>
    intro op hex
    obtain ⟨hd, hdiff, hrest⟩ := hex
    obtain ⟨h1, h2, h3⟩ := op.call_spec sim
    rw [hdiff] at h2 h3
    have hr : ExactTimes (op.call sim).1.last_time_run_ rest := by rw [h1]; exact hrest
    obtain ⟨i1, i2⟩ := ih (op.call sim).1 hr
    have hstep : SimTimeAfter op.last_time_run_ (op.call sim).2 = sim.current_time := by
      rw [h2]
      by_cases hz : sim.current_time - op.last_time_run_ = 0
      · rw [if_pos hz]
        simp only [SimTimeAfter, List.foldl_nil]
        linarith
      · rw [if_neg hz]
        simp only [SimTimeAfter, List.foldl_cons, List.foldl_nil]
        rw [show op.last_time_run_ + (sim.current_time - op.last_time_run_) = sim.current_time by
          ring]
        exact hd
    refine ⟨?_, ?_⟩
    · simp only [MFEMPDEOp.calls, List.sum_append, i1, h1, h3]
      ring
    · simp only [MFEMPDEOp.calls]
      have happ : ∀ (t : ℚ) (l1 l2 : List ℚ),
          SimTimeAfter t (l1 ++ l2) = SimTimeAfter (SimTimeAfter t l1) l2 := by
        intro t l1 l2
        simp only [SimTimeAfter, List.foldl_append]
      rw [happ, hstep, ← h1]
      exact i2

/-- When no subtraction is rounded, the steps passed to `Diffuse` over a
sequence of invocations add up to the difference of the recorded times. -/
theorem DiffusionOp.diffuse_calls_exact (sims : List SimulationView) :
    ∀ op : DiffusionOp, ExactTimes op.last_time_run_ sims →
      ((op.calls sims).2.map DiffusionGridCall.time_step).sum =
        (op.calls sims).1.last_time_run_ - op.last_time_run_ := by
  induction sims with
  | nil => intro op _; simp [DiffusionOp.calls]
  | cons sim rest ih =>
    intro op hex
    obtain ⟨_, hdiff, hrest⟩ := hex
    obtain ⟨h1, h3⟩ := op.diffuse_call_spec sim
    rw [hdiff] at h3
    have hr : ExactTimes (op.call sim).1.last_time_run_ rest := by rw [h1]; exact hrest
    have i1 := ih (op.call sim).1 hr
    simp only [DiffusionOp.calls, List.map_append, List.sum_append, i1, h1, h3]
    ring

/-- The time recorded after a sequence of invocations is the time of the last
one. -/
theorem MFEMPDEOp.calls_last (sims : List SimulationView) (sim : SimulationView) :
    ∀ op : MFEMPDEOp, (op.calls (sims ++ [sim])).1.last_time_run_ = sim.current_time := by
  induction sims with
  | nil =>
    intro op
    simp only [List.nil_append, MFEMPDEOp.calls]
    exact (op.call_spec sim).1
  | cons s rest ih =>
    intro op
    simp only [List.cons_append, MFEMPDEOp.calls]
    exact ih _

/-- The time recorded after a sequence of invocations is the time of the last
one. -/
theorem DiffusionOp.diffuse_calls_last (sims : List SimulationView) (sim : SimulationView) :
    ∀ op : DiffusionOp, (op.calls (sims ++ [sim])).1.last_time_run_ = sim.current_time := by
  induction sims with
  | nil =>
    intro op
    simp only [List.nil_append, DiffusionOp.calls]
    exact (op.diffuse_call_spec sim).1
  | cons s rest ih =>
    intro op
    simp only [List.cons_append, DiffusionOp.calls]
    exact ih _

/-! ## Construction errors, the end-to-end scenario, frame properties and time stepping -/

/-- C21 (amended): for every construction input the constructor does not
report `OutOfDomain`.  When some position has a component with
`floor(p[k]) <= -L` (for `L = 1`: a negative component, e.g. one entity at
(-1,0,0)), the constructor converts a negative quotient to `uint32_t`: its
behaviour is undefined and it returns no grid.  Whenever the constructor
returns a grid, every entity `i`, whether or not its computed box coordinate `c`
lies within `[0, num_boxes[k])` on every axis, is assigned to the box with the
index `GetBoxIndex(c)` (`z * num_boxes_xy_ + y * nx + x` in the arithmetic of
the code), that index is below the number of boxes, and `i` is in the chain of
that box when the box holds fewer than `2^16` entities. -/
theorem out_of_domain_not_detected (positions : List (array3 ℚ)) (box_length : Nat)
    (max_value : array3 ℚ) :
    Grid.BuildGrid positions box_length max_value ≠ BuildOutcome.OutOfDomain ∧
    (∀ p ∈ positions,
      (⌊p.a0⌋ ≤ -(box_length : Int) ∨ ⌊p.a1⌋ ≤ -(box_length : Int) ∨
        ⌊p.a2⌋ ≤ -(box_length : Int)) →
      Grid.ctor positions box_length max_value = none ∧
        Grid.BuildGrid positions box_length max_value = BuildOutcome.undefined) ∧
    (∀ g, Grid.ctor positions box_length max_value = some g →
      ∀ i p, positions[i]? = some p →
        ∃ c, g.BoxCoordOf p = some c ∧ g.BoxIndexOfEntity i = some (g.GetBoxIndex c) ∧
          g.GetBoxIndex c < g.boxes_.length ∧
          (g.population (g.GetBoxIndex c) < 2 ^ 16 →
            ∃ box ids, g.boxes_[g.GetBoxIndex c]? = some box ∧ g.chain box = some ids ∧
              i ∈ ids)) := by
  refine ⟨?_, ?_, ?_⟩
  · unfold Grid.BuildGrid
    cases Grid.ctor positions box_length max_value <;> simp
  · intro p hp hneg
    have h : Grid.ctor positions box_length max_value = none := by
      rw [Grid.ctor_eq_init]
      cases hinit : Grid.ctor_init positions box_length max_value with
      | none => rfl
      | some g0 =>
        obtain ⟨_, hL⟩ := Grid.ctor_init_frame _ _ _ g0 hinit
        refine Grid.assign_undefined positions 0 g0 ⟨p, hp, ?_⟩
        apply Grid.GetBoxIndexPos_undefined
        rw [hL]
        rcases hneg with h | h | h
        · exact Or.inl (floor_div_to_uint32_neg _ _ h)
        · exact Or.inr (Or.inl (floor_div_to_uint32_neg _ _ h))
        · exact Or.inr (Or.inr (floor_div_to_uint32_neg _ _ h))
    refine ⟨h, ?_⟩
    unfold Grid.BuildGrid
    rw [h]
  · intro g hg i p hi
    obtain ⟨wf, hpos, _⟩ := Grid.ctor_wf _ _ _ g hg
    have hlt : i < g.positions_.length := by
      rw [hpos]
      exact (List.getElem?_eq_some_iff.1 hi).1
    obtain ⟨idx, hidx, hidxlt⟩ := wf.assigned i hlt
    have hidx0 := hidx
    unfold Grid.BoxIndexOfEntity at hidx
    rw [hpos, hi] at hidx
    simp only [Grid.GetBoxIndexPos] at hidx
    cases hc : g.BoxCoordOf p with
    | none => simp [hc] at hidx
    | some c =>
      simp only [hc, Option.map_some', Option.some.injEq] at hidx
      subst hidx
      refine ⟨c, rfl, hidx0, hidxlt, ?_⟩
      intro hpop
      have hb : g.boxes_[g.GetBoxIndex c]? = some g.boxes_[g.GetBoxIndex c] :=
        List.getElem?_eq_getElem hidxlt
      obtain ⟨_, hchain⟩ := wf.chain_eq_members _ _ hb hpop
      exact ⟨_, _, hb, hchain, (g.mem_members _ i).2 ⟨hlt, hidx0⟩⟩

/-- C21, witness: one entity at (-1,0,0), box side length 1 and the domain bound
(2,2,2): no grid and no `OutOfDomain`; one entity at (5,0,0) with the same box
side length and domain bound: the constructor returns a grid in which the
entity is assigned to the box with the index of its coordinate. -/
theorem out_of_domain_not_detected_witness :
    (Grid.ctor [{ a0 := -1, a1 := 0, a2 := 0 }] 1 { a0 := 2, a1 := 2, a2 := 2 } = none ∧
      Grid.BuildGrid [{ a0 := -1, a1 := 0, a2 := 0 }] 1 { a0 := 2, a1 := 2, a2 := 2 } =
        BuildOutcome.undefined) ∧
    Grid.BuildGrid [{ a0 := -1, a1 := 0, a2 := 0 }] 1 { a0 := 2, a1 := 2, a2 := 2 } ≠
      BuildOutcome.OutOfDomain ∧
    Grid.ctor [{ a0 := 5, a1 := 0, a2 := 0 }] 1 { a0 := 2, a1 := 2, a2 := 2 } =
      some grid_2x2x2_outside ∧
    ∃ c, grid_2x2x2_outside.BoxCoordOf { a0 := 5, a1 := 0, a2 := 0 } = some c ∧
      grid_2x2x2_outside.BoxIndexOfEntity 0 = some (grid_2x2x2_outside.GetBoxIndex c) ∧
      grid_2x2x2_outside.GetBoxIndex c < grid_2x2x2_outside.boxes_.length ∧
      (grid_2x2x2_outside.population (grid_2x2x2_outside.GetBoxIndex c) < 2 ^ 16 →
        ∃ box ids, grid_2x2x2_outside.boxes_[grid_2x2x2_outside.GetBoxIndex c]? = some box ∧
          grid_2x2x2_outside.chain box = some ids ∧ 0 ∈ ids) :=
  ⟨(out_of_domain_not_detected [{ a0 := -1, a1 := 0, a2 := 0 }] 1
      { a0 := 2, a1 := 2, a2 := 2 }).2.1 { a0 := -1, a1 := 0, a2 := 0 } (by decide) (by decide),
   (out_of_domain_not_detected [{ a0 := -1, a1 := 0, a2 := 0 }] 1
      { a0 := 2, a1 := 2, a2 := 2 }).1,
   by decide,
   (out_of_domain_not_detected [{ a0 := 5, a1 := 0, a2 := 0 }] 1
      { a0 := 2, a1 := 2, a2 := 2 }).2.2 grid_2x2x2_outside (by decide) 0
      { a0 := 5, a1 := 0, a2 := 0 } (by decide)⟩

/-- C21, counterexample.  For the position (5,0,0), box side length 1 and the
domain bound (2,2,2) the box coordinate 5 is outside `[0, 2)` and the
constructor returns a grid in which entity 0 is chained in box 5.  For the
position (-1,0,0), box side length 2 and the domain bound (2,2,2) the position
has a negative component and the constructor returns a grid in which entity 0
is chained in box 0. -/
theorem out_of_domain_position_assigned :
    Grid.ctor [{ a0 := 5, a1 := 0, a2 := 0 }] 1 { a0 := 2, a1 := 2, a2 := 2 } =
      some { boxes_ := (List.replicate 8 { start_ := 0, length_ := 0 }).set 5
               { start_ := 0, length_ := 1 },
             positions_ := [{ a0 := 5, a1 := 0, a2 := 0 }], box_lenght_ := 1,
             num_boxes_axis_ := { a0 := 2, a1 := 2, a2 := 2 }, num_boxes_xy_ := 4,
             successors_ := [0] } ∧
    Grid.ctor [{ a0 := -1, a1 := 0, a2 := 0 }] 2 { a0 := 2, a1 := 2, a2 := 2 } =
      some { boxes_ := [{ start_ := 0, length_ := 1 }],
             positions_ := [{ a0 := -1, a1 := 0, a2 := 0 }], box_lenght_ := 2,
             num_boxes_axis_ := { a0 := 1, a1 := 1, a2 := 1 }, num_boxes_xy_ := 1,
             successors_ := [0] } ∧
    Grid.BuildGrid [{ a0 := 5, a1 := 0, a2 := 0 }] 1 { a0 := 2, a1 := 2, a2 := 2 } ≠
      BuildOutcome.OutOfDomain ∧
    Grid.BuildGrid [{ a0 := -1, a1 := 0, a2 := 0 }] 2 { a0 := 2, a1 := 2, a2 := 2 } ≠
      BuildOutcome.OutOfDomain := by
  decide

/-- C22 (amended): for every box side length `1 <= L < 2^32`, every domain bound
whose components are multiples `m[k] * L <= 2^53` with `m[k] < 2^32` and
`m[0] * m[1] < 2^32`, and every position set with `0 <= p[k] < domain_max[k]` on
every axis: when the two allocations of the constructor succeed, so that it
reaches its loop with a grid `g0`, the constructor returns a grid with
`num_boxes_axis_ = m` and `m[0] * m[1] * m[2]` boxes, and for every position the
box coordinate lies within `[0, m[k])` on every axis and the box index is below
the number of boxes. -/
theorem in_domain_position_in_range (positions : List (array3 ℚ)) (box_length : Nat)
    (m : array3 Nat) (hL : 1 ≤ box_length) (hL32 : box_length < 2 ^ 32)
    (h0 : m.a0 < 2 ^ 32) (h1 : m.a1 < 2 ^ 32) (h2 : m.a2 < 2 ^ 32)
    (hxy : m.a0 * m.a1 < 2 ^ 32)
    (b0 : m.a0 * box_length ≤ 2 ^ 53) (b1 : m.a1 * box_length ≤ 2 ^ 53)
    (b2 : m.a2 * box_length ≤ 2 ^ 53)
    (hpos : ∀ p ∈ positions,
      (0 ≤ p.a0 ∧ p.a0 < ((m.a0 * box_length : Nat) : ℚ)) ∧
      (0 ≤ p.a1 ∧ p.a1 < ((m.a1 * box_length : Nat) : ℚ)) ∧
      (0 ≤ p.a2 ∧ p.a2 < ((m.a2 * box_length : Nat) : ℚ)))
    (g0 : Grid)
    (hg0 : Grid.ctor_init positions box_length
        { a0 := ((m.a0 * box_length : Nat) : ℚ), a1 := ((m.a1 * box_length : Nat) : ℚ),
          a2 := ((m.a2 * box_length : Nat) : ℚ) } = some g0) :
    ∃ g, Grid.ctor positions box_length
        { a0 := ((m.a0 * box_length : Nat) : ℚ), a1 := ((m.a1 * box_length : Nat) : ℚ),
          a2 := ((m.a2 * box_length : Nat) : ℚ) } = some g ∧
      g.num_boxes_axis_ = m ∧ g.boxes_.length = m.a0 * m.a1 * m.a2 ∧
      ∀ p ∈ positions, ∃ c idx, g.BoxCoordOf p = some c ∧
        c.a0 < m.a0 ∧ c.a1 < m.a1 ∧ c.a2 < m.a2 ∧
        g.GetBoxIndexPos p = some idx ∧ idx < g.boxes_.length := by
  have hinit := Grid.ctor_init_multiple positions box_length m hL hL32 h0 h1 h2 hxy
  have hcoord : ∀ (q : ℚ) (k : Nat), k < 2 ^ 32 → k * box_length ≤ 2 ^ 53 → 0 ≤ q →
      q < ((k * box_length : Nat) : ℚ) →
      ∃ b, floor_div_to_uint32 q box_length = some b ∧ b < k := by
    intro q k hk hk53 hq0 hq1
    have h53 : q < 2 ^ 53 := by
      refine lt_of_lt_of_le hq1 ?_
      exact_mod_cast hk53
    have hfit : q < 2 ^ 32 * (box_length : ℚ) := by
      refine lt_of_lt_of_le hq1 ?_
      rw [Nat.cast_mul]
      have hk2 : (k : ℚ) ≤ 2 ^ 32 := by exact_mod_cast Nat.le_of_lt hk
      exact mul_le_mul_of_nonneg_right hk2 (Nat.cast_nonneg _)
    obtain ⟨b, hb, _, hb1, _⟩ := floor_div_to_uint32_spec q box_length hL hq0 hfit h53
    refine ⟨b, hb, ?_⟩
    have h3 : ((b * box_length : Nat) : ℚ) < ((k * box_length : Nat) : ℚ) := by
      rw [Nat.cast_mul]
      exact lt_of_le_of_lt hb1 hq1
    have h4 : b * box_length < k * box_length := by exact_mod_cast h3
    exact Nat.lt_of_mul_lt_mul_right h4
  have hlook : ∀ (g : Grid), g.box_lenght_ = box_length → g.num_boxes_axis_ = m →
      g.num_boxes_xy_ = m.a0 * m.a1 → g.boxes_.length = m.a0 * m.a1 * m.a2 →
      ∀ p ∈ positions, ∃ c idx, g.BoxCoordOf p = some c ∧
        c.a0 < m.a0 ∧ c.a1 < m.a1 ∧ c.a2 < m.a2 ∧
        g.GetBoxIndexPos p = some idx ∧ idx < g.boxes_.length := by
    intro g gL gax gxy glen p hp
    obtain ⟨⟨p00, p01⟩, ⟨p10, p11⟩, ⟨p20, p21⟩⟩ := hpos p hp
    obtain ⟨c0, e0, l0⟩ := hcoord p.a0 m.a0 h0 b0 p00 p01
    obtain ⟨c1, e1, l1⟩ := hcoord p.a1 m.a1 h1 b1 p10 p11
    obtain ⟨c2, e2, l2⟩ := hcoord p.a2 m.a2 h2 b2 p20 p21
    have hc : g.BoxCoordOf p = some { a0 := c0, a1 := c1, a2 := c2 } := by
      unfold Grid.BoxCoordOf
      rw [gL, e0, e1, e2]
    have hxy1 : g.num_boxes_xy_ = g.num_boxes_axis_.a0 * g.num_boxes_axis_.a1 := by
      rw [gxy, gax]
    have htot : m.a0 * m.a1 * m.a2 < 2 ^ 64 := by
      have h3 : m.a0 * m.a1 * m.a2 ≤ (2 ^ 32 - 1) * (2 ^ 32 - 1) :=
        Nat.mul_le_mul (by omega) (by omega)
      have h4 : (2 ^ 32 - 1) * (2 ^ 32 - 1) < 2 ^ 64 := by norm_num
      omega
    obtain ⟨_, hidx⟩ := g.GetBoxIndex_eq { a0 := c0, a1 := c1, a2 := c2 } hxy1
      (by rw [gax]; exact hxy) (by rw [gxy, gax]; exact htot)
      (by rw [gax]; exact l0) (by rw [gax]; exact l1) (by rw [gax]; exact l2)
    refine ⟨_, g.GetBoxIndex { a0 := c0, a1 := c1, a2 := c2 }, hc, l0, l1, l2, ?_, ?_⟩
    · unfold Grid.GetBoxIndexPos
      rw [hc]
      rfl
    · rw [glen]
      rw [gxy, gax] at hidx
      exact hidx
  obtain ⟨g, hg⟩ := Grid.assign_isSome positions 0
    { boxes_ := List.replicate (m.a0 * m.a1 * m.a2) { start_ := 0, length_ := 0 },
      positions_ := positions,
      box_lenght_ := box_length,
      num_boxes_axis_ := { a0 := m.a0, a1 := m.a1, a2 := m.a2 },
      num_boxes_xy_ := m.a0 * m.a1,
      successors_ := List.replicate positions.length 0 }
    (by
      intro p hp
      obtain ⟨c, idx, _, _, _, _, h5, h6⟩ :=
        hlook
          { boxes_ := List.replicate (m.a0 * m.a1 * m.a2) { start_ := 0, length_ := 0 },
            positions_ := positions,
            box_lenght_ := box_length,
            num_boxes_axis_ := { a0 := m.a0, a1 := m.a1, a2 := m.a2 },
            num_boxes_xy_ := m.a0 * m.a1,
            successors_ := List.replicate positions.length 0 }
          rfl rfl rfl (List.length_replicate _ _) p hp
      exact ⟨idx, h5, h6⟩)
    (by simp)
  obtain ⟨⟨_, f2, f3, f4⟩, flen, _⟩ := Grid.assign_frame _ _ _ g hg
  have glen : g.boxes_.length = m.a0 * m.a1 * m.a2 := by
    rw [flen]
    exact List.length_replicate _ _
  refine ⟨g, ?_, f3, glen, hlook g f2 f3 f4 glen⟩
  rw [Grid.ctor_eq_init, hg0]
  rw [hinit] at hg0
  obtain rfl := Option.some.inj hg0
  exact hg

/-- C22, witness: box side length 1, the domain bound (2,2,2) and the positions
(0,0,0) and (1,1,1); the constructor reaches its loop with 8 empty boxes. -/
theorem in_domain_position_in_range_witness :
    ∃ g, Grid.ctor [{ a0 := 0, a1 := 0, a2 := 0 }, { a0 := 1, a1 := 1, a2 := 1 }] 1
        { a0 := ((({ a0 := 2, a1 := 2, a2 := 2 } : array3 Nat).a0 * 1 : Nat) : ℚ),
          a1 := ((({ a0 := 2, a1 := 2, a2 := 2 } : array3 Nat).a1 * 1 : Nat) : ℚ),
          a2 := ((({ a0 := 2, a1 := 2, a2 := 2 } : array3 Nat).a2 * 1 : Nat) : ℚ) } = some g ∧
      g.num_boxes_axis_ = { a0 := 2, a1 := 2, a2 := 2 } ∧
      g.boxes_.length = ({ a0 := 2, a1 := 2, a2 := 2 } : array3 Nat).a0 *
        ({ a0 := 2, a1 := 2, a2 := 2 } : array3 Nat).a1 *
        ({ a0 := 2, a1 := 2, a2 := 2 } : array3 Nat).a2 ∧
      ∀ p ∈ [({ a0 := 0, a1 := 0, a2 := 0 } : array3 ℚ), { a0 := 1, a1 := 1, a2 := 1 }],
        ∃ c idx, g.BoxCoordOf p = some c ∧
          c.a0 < ({ a0 := 2, a1 := 2, a2 := 2 } : array3 Nat).a0 ∧
          c.a1 < ({ a0 := 2, a1 := 2, a2 := 2 } : array3 Nat).a1 ∧
          c.a2 < ({ a0 := 2, a1 := 2, a2 := 2 } : array3 Nat).a2 ∧
          g.GetBoxIndexPos p = some idx ∧ idx < g.boxes_.length :=
  in_domain_position_in_range [{ a0 := 0, a1 := 0, a2 := 0 }, { a0 := 1, a1 := 1, a2 := 1 }] 1
    { a0 := 2, a1 := 2, a2 := 2 } (by decide) (by decide) (by decide) (by decide) (by decide)
    (by decide) (by decide) (by decide) (by decide) (by decide) _
    (Grid.ctor_init_multiple [{ a0 := 0, a1 := 0, a2 := 0 }, { a0 := 1, a1 := 1, a2 := 1 }] 1
      { a0 := 2, a1 := 2, a2 := 2 } (by decide) (by decide) (by decide) (by decide) (by decide)
      (by decide))

/-- C22, counterexample: for box side length 2 and the domain bound (3,2,2) the
constructor allocates one box (`nx = ny = nz = 1`); the position (2,0,0) has
`0 <= p[k] < domain_max[k]` on every axis, its box coordinate is (1,0,0), which
is not below `nx = 1`, its box index 1 is outside the allocated box, and the
constructor is undefined. -/
theorem in_domain_position_out_of_range :
    (Grid.ctor_init [{ a0 := 2, a1 := 0, a2 := 0 }] 2 { a0 := 3, a1 := 2, a2 := 2 }).map
        (fun g => (g.num_boxes_axis_, g.boxes_.length,
          g.BoxCoordOf { a0 := 2, a1 := 0, a2 := 0 },
          g.GetBoxIndexPos { a0 := 2, a1 := 0, a2 := 0 })) =
      some ({ a0 := 1, a1 := 1, a2 := 1 }, 1, some { a0 := 1, a1 := 0, a2 := 0 }, some 1) ∧
    Grid.ctor [{ a0 := 2, a1 := 0, a2 := 0 }] 2 { a0 := 3, a1 := 2, a2 := 2 } = none := by
  decide

/-- C23 (amended): for every construction input with a positive box side
length whose domain bound has non-negative components that fit `size_t` and is
smaller than the box side length on some axis, the constructor reports no
error: it allocates no box, it returns the grid without boxes when there is no
position, and its behaviour is undefined (a box lookup outside `boxes_`) when
there is a position. -/
theorem zero_sized_domain_no_boxes (positions : List (array3 ℚ)) (box_length : Nat)
    (max_value : array3 ℚ) (hL : 0 < box_length)
    (h0 : 0 ≤ max_value.a0) (h1 : 0 ≤ max_value.a1) (h2 : 0 ≤ max_value.a2)
    (b0 : ⌊max_value.a0⌋₊ < 2 ^ 64) (b1 : ⌊max_value.a1⌋₊ < 2 ^ 64)
    (b2 : ⌊max_value.a2⌋₊ < 2 ^ 64)
    (hz : max_value.a0 < (box_length : ℚ) ∨ max_value.a1 < (box_length : ℚ) ∨
      max_value.a2 < (box_length : ℚ)) :
    Grid.BuildGrid positions box_length max_value ≠ BuildOutcome.InvalidConfiguration ∧
    ∃ g0, Grid.ctor_init positions box_length max_value = some g0 ∧ g0.boxes_ = [] ∧
      (g0.num_boxes_axis_.a0 = 0 ∨ g0.num_boxes_axis_.a1 = 0 ∨ g0.num_boxes_axis_.a2 = 0) ∧
      (positions = [] → Grid.ctor positions box_length max_value = some g0) ∧
      (positions ≠ [] → Grid.ctor positions box_length max_value = none) := by
  refine ⟨(Grid.BuildGrid_cases positions box_length max_value).1, ?_⟩
  have c0 := double_to_unsigned_of_nonneg 64 max_value.a0 h0 b0
  have c1 := double_to_unsigned_of_nonneg 64 max_value.a1 h1 b1
  have c2 := double_to_unsigned_of_nonneg 64 max_value.a2 h2 b2
  have hzero : ∀ q : ℚ, 0 ≤ q → q < (box_length : ℚ) → ⌊q⌋₊ / box_length % 2 ^ 32 = 0 := by
    intro q hq0 hq
    rw [Nat.div_eq_of_lt ((Nat.floor_lt hq0).2 hq)]
    rfl
  have hax : ⌊max_value.a0⌋₊ / box_length % 2 ^ 32 = 0 ∨
      ⌊max_value.a1⌋₊ / box_length % 2 ^ 32 = 0 ∨ ⌊max_value.a2⌋₊ / box_length % 2 ^ 32 = 0 := by
    rcases hz with h | h | h
    · exact Or.inl (hzero _ h0 h)
    · exact Or.inr (Or.inl (hzero _ h1 h))
    · exact Or.inr (Or.inr (hzero _ h2 h))
  have htot : (⌊max_value.a0⌋₊ / box_length % 2 ^ 32 * (⌊max_value.a1⌋₊ / box_length % 2 ^ 32)) %
      2 ^ 32 * (⌊max_value.a2⌋₊ / box_length % 2 ^ 32) % 2 ^ 64 = 0 := by
    rcases hax with h | h | h
    · rw [h]; simp
    · rw [h]; simp
    · rw [h]; simp
  have hinit : Grid.ctor_init positions box_length max_value = some
      { boxes_ := [],
        positions_ := positions,
        box_lenght_ := box_length,
        num_boxes_axis_ := { a0 := ⌊max_value.a0⌋₊ / box_length % 2 ^ 32,
                             a1 := ⌊max_value.a1⌋₊ / box_length % 2 ^ 32,
                             a2 := ⌊max_value.a2⌋₊ / box_length % 2 ^ 32 },
        num_boxes_xy_ := (⌊max_value.a0⌋₊ / box_length % 2 ^ 32 *
          (⌊max_value.a1⌋₊ / box_length % 2 ^ 32)) % 2 ^ 32,
        successors_ := List.replicate positions.length 0 } := by
    unfold Grid.ctor_init
    rw [if_neg (by omega)]
    simp only [c0, c1, c2, htot, List.replicate_zero]
  obtain ⟨ha, hb⟩ := Grid.assign_no_boxes positions 0 _ (rfl :
    ({ boxes_ := [],
       positions_ := positions,
       box_lenght_ := box_length,
       num_boxes_axis_ := { a0 := ⌊max_value.a0⌋₊ / box_length % 2 ^ 32,
                            a1 := ⌊max_value.a1⌋₊ / box_length % 2 ^ 32,
                            a2 := ⌊max_value.a2⌋₊ / box_length % 2 ^ 32 },
       num_boxes_xy_ := (⌊max_value.a0⌋₊ / box_length % 2 ^ 32 *
         (⌊max_value.a1⌋₊ / box_length % 2 ^ 32)) % 2 ^ 32,
       successors_ := List.replicate positions.length 0 } : Grid).boxes_ = [])
  refine ⟨_, hinit, rfl, hax, ?_, ?_⟩
  · intro hp
    rw [Grid.ctor_eq_init, hinit]
    exact ha hp
  · intro hp
    rw [Grid.ctor_eq_init, hinit]
    exact hb hp

/-- C23, witness: one position at the origin, box side length 2 and the domain
bound (1,4,4). -/
theorem zero_sized_domain_no_boxes_witness :
    Grid.BuildGrid [{ a0 := 0, a1 := 0, a2 := 0 }] 2 { a0 := 1, a1 := 4, a2 := 4 } ≠
      BuildOutcome.InvalidConfiguration ∧
    ∃ g0, Grid.ctor_init [{ a0 := 0, a1 := 0, a2 := 0 }] 2 { a0 := 1, a1 := 4, a2 := 4 } =
        some g0 ∧ g0.boxes_ = [] ∧
      (g0.num_boxes_axis_.a0 = 0 ∨ g0.num_boxes_axis_.a1 = 0 ∨ g0.num_boxes_axis_.a2 = 0) ∧
      ([({ a0 := 0, a1 := 0, a2 := 0 } : array3 ℚ)] = [] →
        Grid.ctor [{ a0 := 0, a1 := 0, a2 := 0 }] 2 { a0 := 1, a1 := 4, a2 := 4 } = some g0) ∧
      ([({ a0 := 0, a1 := 0, a2 := 0 } : array3 ℚ)] ≠ [] →
        Grid.ctor [{ a0 := 0, a1 := 0, a2 := 0 }] 2 { a0 := 1, a1 := 4, a2 := 4 } = none) :=
  zero_sized_domain_no_boxes [{ a0 := 0, a1 := 0, a2 := 0 }] 2 { a0 := 1, a1 := 4, a2 := 4 }
    (by decide) (by decide) (by decide) (by decide) (by norm_num) (by norm_num) (by norm_num)
    (Or.inl (by norm_num))

/-- C23, counterexample: for no position, box side length 1 and the domain
bound (0,1,1) the constructor returns a grid without boxes; the outcome is not
`InvalidConfiguration`. -/
theorem zero_sized_domain_not_reported :
    Grid.ctor [] 1 { a0 := 0, a1 := 1, a2 := 1 } =
      some { boxes_ := [], positions_ := [], box_lenght_ := 1,
             num_boxes_axis_ := { a0 := 0, a1 := 1, a2 := 1 }, num_boxes_xy_ := 0,
             successors_ := [] } ∧
    Grid.BuildGrid [] 1 { a0 := 0, a1 := 1, a2 := 1 } ≠ BuildOutcome.InvalidConfiguration := by
  decide

/-- C24: for the domain bound (2,2,2), box side length 1 and the positions
(0.1,0.1,0.1) and (1.9,1.9,1.9) the constructor returns a grid with
`nx = ny = nz = 2` and 8 boxes; entity 0 is assigned to box 0 and entity 1 to
box 7, the chain of box 0 is `0`, the chain of box 7 is `1`, and the other six
boxes are empty. -/
theorem end_to_end_scenario :
    Grid.ctor [{ a0 := mkRat 1 10, a1 := mkRat 1 10, a2 := mkRat 1 10 },
               { a0 := mkRat 19 10, a1 := mkRat 19 10, a2 := mkRat 19 10 }] 1
      { a0 := 2, a1 := 2, a2 := 2 } = some grid_end_to_end ∧
    grid_end_to_end.num_boxes_axis_ = { a0 := 2, a1 := 2, a2 := 2 } ∧
    grid_end_to_end.boxes_.length = 8 ∧
    grid_end_to_end.BoxIndexOfEntity 0 = some 0 ∧
    grid_end_to_end.BoxIndexOfEntity 1 = some 7 ∧
    grid_end_to_end.boxes_.map grid_end_to_end.chain =
      [some [0], some [], some [], some [], some [], some [], some [], some [1]] ∧
    grid_end_to_end.boxes_.map Box.IsEmpty =
      [false, true, true, true, true, true, true, false] := by
  decide

/-- C25 (amended): in the grid built for the domain bound (2,2,2), box side
length 1 and the positions (0.1,0.1,0.1) and (1.9,1.9,1.9), entity 0 is in the
corner box 0 and entity 1 in the corner box 7; `GetMooreBoxes` forms the box
pointers `&boxes_[0 - 4]` and `&boxes_[7 + 4]`, which are outside the 8 boxes,
and the loop over the `NeighborIterator` is undefined for either entity.  In the
grid built for the domain bound (5,5,5) and the positions (1.1,1.1,1.1) and
(3.9,3.9,3.9), whose boxes are interior, the sequence for entity 0 is `0` and
the sequence for entity 1 is `1`. -/
theorem corner_neighbors_undefined :
    (Grid.ctor [{ a0 := mkRat 1 10, a1 := mkRat 1 10, a2 := mkRat 1 10 },
               { a0 := mkRat 19 10, a1 := mkRat 19 10, a2 := mkRat 19 10 }] 1
      { a0 := 2, a1 := 2, a2 := 2 } = some grid_end_to_end ∧
      grid_end_to_end.BoxIndexOfEntity 0 = some 0 ∧
      (grid_end_to_end.GetMooreBoxes 0)[1]? = some 18446744073709551612 ∧
      grid_end_to_end.GetBox 18446744073709551612 = none ∧
      grid_end_to_end.NeighborsOf 0 = none ∧
      grid_end_to_end.BoxIndexOfEntity 1 = some 7 ∧
      (grid_end_to_end.GetMooreBoxes 7)[2]? = some 11 ∧
      grid_end_to_end.GetBox 11 = none ∧
      grid_end_to_end.NeighborsOf 1 = none) ∧
    (Grid.ctor [{ a0 := mkRat 11 10, a1 := mkRat 11 10, a2 := mkRat 11 10 },
               { a0 := mkRat 39 10, a1 := mkRat 39 10, a2 := mkRat 39 10 }] 1
      { a0 := 5, a1 := 5, a2 := 5 } = some grid_5x5x5_far ∧
      (grid_5x5x5_far.NeighborsOf 0).map Prod.fst = some [0] ∧
      (grid_5x5x5_far.NeighborsOf 1).map Prod.fst = some [1]) := by
  decide

/-- C25, counterexample: in the grid built for the domain bound (2,2,2) and the
positions (0.1,0.1,0.1) and (1.9,1.9,1.9) the sequence read for entity 0 is not
`0` and the sequence read for entity 1 is not `1`. -/
theorem corner_neighbors_not_own_box :
    (grid_end_to_end.NeighborsOf 0).map Prod.fst ≠ some [0] ∧
    (grid_end_to_end.NeighborsOf 1).map Prod.fst ≠ some [1] := by
  decide

/-- C26: for every grid, every order of the indices and every content of the
accumulator, when the `for` loop of `ForEachNeighbor` (which calls
`GetMooreBoxes`, constructs a `NeighborIterator`, dereferences and advances it)
returns, the grid it leaves is the grid it started from: every box has its
`start_` and `length_` and `successors_` is unchanged; likewise for the member
`ForEachNeighbor`. -/
theorem queries_leave_grid_unchanged (g : Grid) (order : List Nat) (sum : List Nat)
    (s1 : ForEachNeighborState)
    (h : Grid.ForEachNeighbor_for order { grid := g, sum := sum } = some s1) :
    s1.grid = g ∧ s1.grid.boxes_ = g.boxes_ ∧ s1.grid.successors_ = g.successors_ ∧
      ∀ s v, g.ForEachNeighbor = some (s, v) → s.grid = g := by
  obtain ⟨hg, _⟩ := Grid.ForEachNeighbor_for_frame order _ s1 h
  refine ⟨hg, by rw [hg], by rw [hg], ?_⟩
  intro s v hs
  unfold Grid.ForEachNeighbor at hs
  cases hf : Grid.ForEachNeighbor_for (List.range g.positions_.length)
      { grid := g, sum := List.replicate g.positions_.length 0 } with
  | none => simp [hf] at hs
  | some s2 =>
    simp only [hf] at hs
    cases hv : s2.sum[4]? with
    | none => simp [hv] at hs
    | some w =>
      simp only [hv, Option.some.injEq, Prod.mk.injEq] at hs
      rw [← hs.1]
      exact (Grid.ForEachNeighbor_for_frame _ _ s2 hf).1

/-- C26, witness: the grid built for five entities at (1,1,1) and the domain
bound (3,3,3); the loop over the indices 0 to 4 returns with every slot of the
accumulator at 10 and the grid unchanged. -/
theorem queries_leave_grid_unchanged_witness :
    Grid.ctor [{ a0 := 1, a1 := 1, a2 := 1 }, { a0 := 1, a1 := 1, a2 := 1 },
               { a0 := 1, a1 := 1, a2 := 1 }, { a0 := 1, a1 := 1, a2 := 1 },
               { a0 := 1, a1 := 1, a2 := 1 }] 1 { a0 := 3, a1 := 3, a2 := 3 } =
      some grid_3x3x3_five ∧
    Grid.ForEachNeighbor_for [0, 1, 2, 3, 4] { grid := grid_3x3x3_five, sum := [0, 0, 0, 0, 0] } =
      some { grid := grid_3x3x3_five, sum := [10, 10, 10, 10, 10] } ∧
    grid_3x3x3_five.ForEachNeighbor =
      some ({ grid := grid_3x3x3_five, sum := [10, 10, 10, 10, 10] }, 10) ∧
    (({ grid := grid_3x3x3_five, sum := [10, 10, 10, 10, 10] } : ForEachNeighborState).grid =
        grid_3x3x3_five ∧
      ({ grid := grid_3x3x3_five, sum := [10, 10, 10, 10, 10] } : ForEachNeighborState).grid.boxes_ =
        grid_3x3x3_five.boxes_ ∧
      ({ grid := grid_3x3x3_five, sum := [10, 10, 10, 10, 10] } :
        ForEachNeighborState).grid.successors_ = grid_3x3x3_five.successors_ ∧
      ∀ s v, grid_3x3x3_five.ForEachNeighbor = some (s, v) → s.grid = grid_3x3x3_five) :=
  ⟨by decide, by decide, by decide,
    queries_leave_grid_unchanged grid_3x3x3_five [0, 1, 2, 3, 4] [0, 0, 0, 0, 0]
      { grid := grid_3x3x3_five, sum := [10, 10, 10, 10, 10] } (by decide)⟩

/-- Adding ids to slot `i` writes slot `i` only. -/
theorem ForEachNeighborState.add_slots (s : ForEachNeighborState) (i : Nat) (ids : List Nat)
    (v : Nat) (hv : s.sum[i]? = some v) :
    ∃ s1, s.add i ids = some s1 ∧ s1.grid = s.grid ∧
      s1.sum = s.sum.set i (size_t_sum v ids) ∧
      s1.sum[i]? = some (size_t_sum v ids) ∧ ∀ j, j ≠ i → s1.sum[j]? = s.sum[j]? := by
  have hlt : i < s.sum.length := (List.getElem?_eq_some_iff.1 hv).1
  have hset : (s.sum.set i (size_t_sum v ids))[i]? = some (size_t_sum v ids) :=
    List.getElem?_set_self hlt
  have hne : ∀ j, j ≠ i → (s.sum.set i (size_t_sum v ids))[j]? = s.sum[j]? :=
    fun j hj => List.getElem?_set_ne (Ne.symm hj)
  cases ids with
  | nil =>
    refine ⟨s, rfl, rfl, ?_, ?_, fun _ _ => rfl⟩
    · simp only [size_t_sum, List.foldl_nil]
      exact (set_slot_same s.sum i v hv).symm
    · simpa [size_t_sum] using hv
  | cons id rest =>
    refine ⟨{ s with sum := s.sum.set i (size_t_sum v (id :: rest)) }, ?_, rfl, rfl, hset, hne⟩
    simp only [ForEachNeighborState.add, hv]

/-- The `for` loop over distinct indices whose neighbor loops are defined and
end: every listed slot receives the ids read for its index, the other slots
are left as they are. -/
theorem Grid.ForEachNeighbor_for_spec :
    ∀ (order : List Nat) (s : ForEachNeighborState), order.Nodup →
      (∀ i ∈ order, i < s.sum.length ∧ ∃ ids, s.grid.NeighborIds i = some ids) →
      ∃ s1, Grid.ForEachNeighbor_for order s = some s1 ∧ s1.grid = s.grid ∧
        s1.sum.length = s.sum.length ∧
        (∀ j, j ∉ order → s1.sum[j]? = s.sum[j]?) ∧
        ∀ i ∈ order, ∀ ids v, s.grid.NeighborIds i = some ids → s.sum[i]? = some v →
          s1.sum[i]? = some (size_t_sum v ids) := by
  intro order
  induction order with
  | nil =>
    intro s _ _
    exact ⟨s, rfl, rfl, rfl, fun _ _ => rfl, fun i hi => absurd hi (List.not_mem_nil i)⟩
  | cons i rest ih =>
    intro s hnd hall
    obtain ⟨hi_not, hnd1⟩ := List.nodup_cons.1 hnd
    obtain ⟨hilt, ids, hids⟩ := hall i (List.mem_cons_self _ _)
    have hv : s.sum[i]? = some s.sum[i] := List.getElem?_eq_getElem hilt
    obtain ⟨s1, hadd, hg1, hsum1, hsi, hsj⟩ := s.add_slots i ids _ hv
    have hbody : Grid.ForEachNeighbor_body s i = some s1 := by
      rw [Grid.ForEachNeighbor_body_eq, hids]
      exact hadd
    have hlen1 : s1.sum.length = s.sum.length := by
      rw [hsum1]
      exact List.length_set _ _ _
    obtain ⟨s2, hfor, hg2, hlen2, hout, hin⟩ := ih s1 hnd1 (by
      intro j hj
      obtain ⟨h1, h2⟩ := hall j (List.mem_cons_of_mem _ hj)
      rw [hlen1, hg1]
      exact ⟨h1, h2⟩)
    refine ⟨s2, ?_, hg2.trans hg1, hlen2.trans hlen1, ?_, ?_⟩
    · simp only [Grid.ForEachNeighbor_for, hbody]
      exact hfor
    · intro j hj
      have hji : j ≠ i := fun e => hj (e ▸ List.mem_cons_self _ _)
      have hjr : j ∉ rest := fun e => hj (List.mem_cons_of_mem _ e)
      rw [hout j hjr, hsj j hji]
    · intro j hj ids1 v1 hids1 hv1
      rcases List.mem_cons.1 hj with rfl | hjr
      · rw [hout j hi_not, hsi]
        rw [hids] at hids1
        rw [hv] at hv1
        cases hids1
        cases hv1
        rfl
      · have hji : j ≠ i := fun e => hi_not (e ▸ hjr)
        exact hin j hjr ids1 v1 (by rw [hg1]; exact hids1) (by rw [hsj j hji]; exact hv1)

/-- C27 (amended): in every built grid, for every entity index `i` for which
all 27 indices that `GetMooreBoxes` forms for the box of `i` are indices of
allocated boxes, the loop over the `NeighborIterator` is defined and ends, the
ids it produces are the chains of the listed boxes in list order, and the body
of the `for` loop of `ForEachNeighbor` for `i` leaves the grid as it is and
writes only slot `i` of the accumulator, where it leaves the value of the slot
plus the sum of those ids (in `size_t` arithmetic).  When this holds for every
entity, the `for` loop over the indices `0, ..., n-1` taken in any order,
started with the accumulator at zero, returns, and slot `i` of the final
accumulator holds the sum of the ids produced for `i` modulo `2^64`, whatever
the order.  For every grid, the result of the `for` loop is the same for every
order of the same indices. -/
theorem ForEachNeighbor_accumulates (positions : List (array3 ℚ)) (box_length : Nat)
    (max_value : array3 ℚ) (g : Grid) (h : Grid.ctor positions box_length max_value = some g) :
    (∀ i, g.MooreBoxesValid i →
      ∃ idx ids itEnd, g.BoxIndexOfEntity i = some idx ∧
        g.NeighborsOf i = some (ids, itEnd) ∧ itEnd.IsAtEnd = true ∧
        g.chainsOf (g.GetMooreBoxes idx) = some ids ∧
        ∀ sum v, sum[i]? = some v → v < 2 ^ 64 →
          Grid.ForEachNeighbor_body { grid := g, sum := sum } i =
              some { grid := g, sum := sum.set i ((v + ids.sum) % 2 ^ 64) } ∧
            ∀ j, j ≠ i → (sum.set i ((v + ids.sum) % 2 ^ 64))[j]? = sum[j]?) ∧
    ((∀ i, i < positions.length → g.MooreBoxesValid i) →
      ∀ order : List Nat, order.Perm (List.range positions.length) →
        ∃ acc, Grid.ForEachNeighbor_for order
            { grid := g, sum := List.replicate positions.length 0 } =
              some { grid := g, sum := acc } ∧
          acc.length = positions.length ∧
          ∀ i ids itEnd, i < positions.length → g.NeighborsOf i = some (ids, itEnd) →
            acc[i]? = some (ids.sum % 2 ^ 64)) ∧
    (∀ order1 order2 : List Nat, order1.Perm order2 → ∀ s : ForEachNeighborState,
      Grid.ForEachNeighbor_for order1 s = Grid.ForEachNeighbor_for order2 s) := by
  obtain ⟨wf, hpos, _⟩ := Grid.ctor_wf _ _ _ g h
  have hN : ∀ i, g.MooreBoxesValid i →
      ∃ idx ids itEnd, g.BoxIndexOfEntity i = some idx ∧
        g.NeighborsOf i = some (ids, itEnd) ∧ itEnd.IsAtEnd = true ∧
        g.chainsOf (g.GetMooreBoxes idx) = some ids ∧ g.NeighborIds i = some ids := by
    intro i hval
    unfold Grid.MooreBoxesValid at hval
    cases hidx : g.BoxIndexOfEntity i with
    | none => simp [hidx] at hval
    | some idx =>
      simp only [hidx] at hval
      obtain ⟨ids, itEnd, h1, h2, h3⟩ := wf.NeighborsOf_spec i idx hidx hval
      refine ⟨idx, ids, itEnd, rfl, h1, h2, h3, ?_⟩
      unfold Grid.NeighborIds
      rw [h1]
      simp only [h2, if_true]
  refine ⟨?_, ?_, Grid.ForEachNeighbor_for_perm⟩
  · intro i hval
    obtain ⟨idx, ids, itEnd, h0, h1, h2, h3, h4⟩ := hN i hval
    refine ⟨idx, ids, itEnd, h0, h1, h2, h3, ?_⟩
    intro sum v hv hv64
    refine ⟨?_, fun j hj => List.getElem?_set_ne (Ne.symm hj)⟩
    obtain ⟨s1, hadd, hg1, hsum1, _, _⟩ :=
      ForEachNeighborState.add_slots { grid := g, sum := sum } i ids v hv
    rw [Grid.ForEachNeighbor_body_eq]
    simp only [h4, Option.some_bind]
    rw [hadd, ← size_t_sum_eq ids v (Or.inr hv64)]
    cases s1
    simp only at hg1 hsum1
    rw [hg1, hsum1]
  · intro hall order hperm
    have hnd : order.Nodup := hperm.nodup_iff.2 (List.nodup_range _)
    have hmem : ∀ i, i ∈ order ↔ i < positions.length := by
      intro i
      rw [hperm.mem_iff, List.mem_range]
    obtain ⟨s1, hfor, hg1, hlen, _, hin⟩ := Grid.ForEachNeighbor_for_spec order
      { grid := g, sum := List.replicate positions.length 0 } hnd (by
        intro i hi
        have hi1 := (hmem i).1 hi
        obtain ⟨_, ids, _, _, _, _, _, h4⟩ := hN i (hall i hi1)
        exact ⟨by simpa using hi1, ids, h4⟩)
    cases s1 with
    | mk g1 acc =>
      simp only at hg1 hlen hin
      subst hg1
      refine ⟨acc, hfor, by simpa using hlen, ?_⟩
      intro i ids itEnd hi hNi
      obtain ⟨_, ids1, itEnd1, _, h1, _, _, h4⟩ := hN i (hall i hi)
      rw [hNi] at h1
      cases h1
      have h0 : (List.replicate positions.length 0)[i]? = some 0 := by
        rw [List.getElem?_replicate]
        simp [hi]
      rw [hin i ((hmem i).2 hi) ids 0 h4 h0, size_t_sum_eq ids 0 (Or.inr (by norm_num))]
      simp

/-- C27, witness: the grid built for five entities at (1,1,1) and the domain
bound (3,3,3); the iterator for index 0 produces the ids 4, 3, 2, 1, 0, and the
loop taken in the order 3, 1, 4, 0, 2 leaves in every slot the sum of the ids
produced for its index. -/
theorem ForEachNeighbor_accumulates_witness :
    Grid.ctor [{ a0 := 1, a1 := 1, a2 := 1 }, { a0 := 1, a1 := 1, a2 := 1 },
               { a0 := 1, a1 := 1, a2 := 1 }, { a0 := 1, a1 := 1, a2 := 1 },
               { a0 := 1, a1 := 1, a2 := 1 }] 1 { a0 := 3, a1 := 3, a2 := 3 } =
      some grid_3x3x3_five ∧
    (grid_3x3x3_five.NeighborsOf 0).map Prod.fst = some [4, 3, 2, 1, 0] ∧
    ∃ acc, Grid.ForEachNeighbor_for [3, 1, 4, 0, 2]
        { grid := grid_3x3x3_five,
          sum := List.replicate
            [({ a0 := 1, a1 := 1, a2 := 1 } : array3 ℚ), { a0 := 1, a1 := 1, a2 := 1 },
             { a0 := 1, a1 := 1, a2 := 1 }, { a0 := 1, a1 := 1, a2 := 1 },
             { a0 := 1, a1 := 1, a2 := 1 }].length 0 } =
          some { grid := grid_3x3x3_five, sum := acc } ∧
      acc.length =
        [({ a0 := 1, a1 := 1, a2 := 1 } : array3 ℚ), { a0 := 1, a1 := 1, a2 := 1 },
         { a0 := 1, a1 := 1, a2 := 1 }, { a0 := 1, a1 := 1, a2 := 1 },
         { a0 := 1, a1 := 1, a2 := 1 }].length ∧
      ∀ i ids itEnd,
        i < [({ a0 := 1, a1 := 1, a2 := 1 } : array3 ℚ), { a0 := 1, a1 := 1, a2 := 1 },
             { a0 := 1, a1 := 1, a2 := 1 }, { a0 := 1, a1 := 1, a2 := 1 },
             { a0 := 1, a1 := 1, a2 := 1 }].length →
        grid_3x3x3_five.NeighborsOf i = some (ids, itEnd) →
          acc[i]? = some (ids.sum % 2 ^ 64) :=
  ⟨by decide, by decide,
   (ForEachNeighbor_accumulates
      [{ a0 := 1, a1 := 1, a2 := 1 }, { a0 := 1, a1 := 1, a2 := 1 },
       { a0 := 1, a1 := 1, a2 := 1 }, { a0 := 1, a1 := 1, a2 := 1 },
       { a0 := 1, a1 := 1, a2 := 1 }] 1 { a0 := 3, a1 := 3, a2 := 3 } grid_3x3x3_five
      (by decide)).2.1 (by decide) [3, 1, 4, 0, 2] (by decide)⟩

/-- C27, counterexample: in the grid built for the positions (0,0,0) and
(1,1,1), box side length 1 and the domain bound (2,2,2), the box of entity 0 is
the corner box 0; `GetMooreBoxes` forms indices outside `boxes_` for it, the
loop body for index 0 dereferences such a box pointer and leaves no value in
slot 0, and the `for` loop has no final accumulator. -/
theorem ForEachNeighbor_body_undefined_at_corner :
    Grid.ctor [{ a0 := 0, a1 := 0, a2 := 0 }, { a0 := 1, a1 := 1, a2 := 1 }] 1
        { a0 := 2, a1 := 2, a2 := 2 } = some grid_2x2x2 ∧
    ¬ grid_2x2x2.MooreBoxesValid 0 ∧
    grid_2x2x2.NeighborsOf 0 = none ∧
    Grid.ForEachNeighbor_body { grid := grid_2x2x2, sum := [0, 0] } 0 = none ∧
    Grid.ForEachNeighbor_for [0, 1] { grid := grid_2x2x2, sum := [0, 0] } = none := by
  decide

/-- C28: for every built grid and every non-empty list of valid box pointers
(an `InlineVector` holds fewer than `2^16` of them), the `NeighborIterator`
constructor returns, the iterator is not at its end after fewer applications of
`operator++` than the sum of `length_` over the listed boxes, it is at its end
after exactly that many applications, and it is at its end immediately after
construction when every listed box is empty. -/
theorem neighbor_iterator_ends_after_sum_of_lengths (positions : List (array3 ℚ))
    (box_length : Nat) (max_value : array3 ℚ) (g : Grid)
    (h : Grid.ctor positions box_length max_value = some g)
    (nb : List Nat) (hne : nb ≠ []) (hsz : nb.length < 2 ^ 16)
    (hvalid : ∀ p ∈ nb, p < g.boxes_.length) :
    ∃ it, NeighborIterator.ctor g nb = some it ∧
      (∀ k, k < g.sumLengths nb →
        ∃ itk, NeighborIterator.advance g k it = some itk ∧ itk.IsAtEnd = false) ∧
      (∃ itN, NeighborIterator.advance g (g.sumLengths nb) it = some itN ∧
        itN.IsAtEnd = true) ∧
      (g.sumLengths nb = 0 → it.IsAtEnd = true) := by
  obtain ⟨wf, _, _⟩ := Grid.ctor_wf _ _ _ g h
  obtain ⟨R, hR⟩ := wf.chainsOf_isSome nb hvalid
  obtain ⟨it, hit, hrun⟩ := NeighborIterator.ctor_run g nb R hne hsz hR
  obtain ⟨itEnd, hE, hend⟩ := hrun _ (Nat.le_refl _)
  obtain ⟨a1, a2⟩ := NeighborIterator.run_advance g _ it R itEnd hE
  rw [Grid.chainsOf_length g nb R hR] at a1 a2
  refine ⟨it, hit, a2, ⟨itEnd, a1, hend⟩, ?_⟩
  intro h0
  rw [h0] at a1
  simp only [NeighborIterator.advance, Option.some.injEq] at a1
  rw [a1]
  exact hend

/-- C28, witness: in the grid built for the domain bound (4,4,4), whose boxes
25, 42 and 38 hold one entity each, the iterator over the boxes
0, 25, 1, 42, 38, 2 is at its end after 3 applications of `operator++` and not
before. -/
theorem neighbor_iterator_ends_after_sum_of_lengths_witness :
    Grid.ctor [{ a0 := 1, a1 := 2, a2 := 1 }, { a0 := 2, a1 := 1, a2 := 2 }, { a0 := 2, a1 := 2, a2 := 2 }] 1 { a0 := 4, a1 := 4, a2 := 4 } = some grid_4x4x4 ∧
    grid_4x4x4.sumLengths [0, 25, 1, 42, 38, 2] = 3 ∧
    ∃ it, NeighborIterator.ctor grid_4x4x4 [0, 25, 1, 42, 38, 2] = some it ∧
      (∀ k, k < grid_4x4x4.sumLengths [0, 25, 1, 42, 38, 2] →
        ∃ itk, NeighborIterator.advance grid_4x4x4 k it = some itk ∧ itk.IsAtEnd = false) ∧
      (∃ itN, NeighborIterator.advance grid_4x4x4
          (grid_4x4x4.sumLengths [0, 25, 1, 42, 38, 2]) it = some itN ∧
        itN.IsAtEnd = true) ∧
      (grid_4x4x4.sumLengths [0, 25, 1, 42, 38, 2] = 0 → it.IsAtEnd = true) :=
  ⟨by decide, by decide,
    neighbor_iterator_ends_after_sum_of_lengths
      [{ a0 := 1, a1 := 2, a2 := 1 }, { a0 := 2, a1 := 1, a2 := 2 }, { a0 := 2, a1 := 2, a2 := 2 }] 1
      { a0 := 4, a1 := 4, a2 := 4 } grid_4x4x4 (by decide) [0, 25, 1, 42, 38, 2] (by decide)
      (by decide) (by decide)⟩

/-- C29, the code at the failing input: in the grid built for the domain bound
(4,3,3) the interior box of coordinate (1,1,1) has index 17; the fourth and the
fifth entry of the list of `GetMooreBoxes` are `17 - ny = 14` and
`17 + ny = 20`, the boxes of coordinates (2,0,1) and (0,2,1), while the boxes of
coordinates (1,0,1) and (1,2,1) have the indices 13 and 21. -/
theorem face_neighbors_use_ny_as_stride :
    Grid.ctor [] 1 { a0 := 4, a1 := 3, a2 := 3 } = some grid_4x3x3 ∧
    grid_4x3x3.IsInterior { a0 := 1, a1 := 1, a2 := 1 } ∧
    grid_4x3x3.GetBoxIndex { a0 := 1, a1 := 1, a2 := 1 } = 17 ∧
    (grid_4x3x3.GetMooreBoxes 17).take 7 = [17, 5, 29, 14, 20, 16, 18] ∧
    grid_4x3x3.GetBoxIndex { a0 := 1, a1 := 0, a2 := 1 } = 13 ∧
    grid_4x3x3.GetBoxIndex { a0 := 1, a1 := 2, a2 := 1 } = 21 ∧
    grid_4x3x3.GetBoxCoordinates 14 = some { a0 := 2, a1 := 0, a2 := 1 } ∧
    grid_4x3x3.GetBoxCoordinates 20 = some { a0 := 0, a1 := 2, a2 := 1 } := by
  decide

/-- C30 (amended): for every sequence of invocations of
`MFEMPDEOp::operator()`, and likewise of `DiffusionOp::operator()`, on an
operation whose `last_time_run_` starts at 0, at simulated times that are
doubles and whose consecutive differences (the first time minus 0 included)
are doubles, so that no subtraction of `operator()` is rounded: the time steps
passed to `Step` (resp. `Diffuse`) for a grid sum to the simulated time of the
last invocation, and a field that starts at time 0 and adds each step to its
`double` time ends at that time. -/
theorem time_steps_sum_to_simulated_time (d : ℚ) (sims : List SimulationView)
    (sim : SimulationView) (hex : ExactTimes 0 (sims ++ [sim])) :
    ((MFEMPDEOp.calls { last_time_run_ := 0, delta_t_ := d } (sims ++ [sim])).2.sum =
        sim.current_time ∧
      SimTimeAfter 0 (MFEMPDEOp.calls { last_time_run_ := 0, delta_t_ := d } (sims ++ [sim])).2 =
        sim.current_time) ∧
    ((DiffusionOp.calls { last_time_run_ := 0, delta_t_ := d } (sims ++ [sim])).2.map
        DiffusionGridCall.time_step).sum = sim.current_time := by
  have h1 := MFEMPDEOp.calls_exact (sims ++ [sim]) { last_time_run_ := 0, delta_t_ := d } hex
  rw [MFEMPDEOp.calls_last] at h1
  have h2 := DiffusionOp.diffuse_calls_exact (sims ++ [sim])
    { last_time_run_ := 0, delta_t_ := d } hex
  rw [DiffusionOp.diffuse_calls_last] at h2
  simp only [sub_zero] at h1 h2
  exact ⟨h1, h2⟩

/-- C30, example: the double nearest to 0.01 is `5764607523034235 * 2^-59`;
invocations at the simulated times 0 and that double pass the single step 0.01
to `Step`, resp. `Diffuse`, the steps sum to it and the field's time ends at it
(the check `EXPECT_EQ(0.01, GetSimTime())` of the test). -/
theorem time_steps_sum_to_simulated_time_example :
    ExactTimes 0
      ([{ current_time := 0, has_grown := false, bound_space_open := false,
          calculate_gradients := false }] ++
       [{ current_time := 5764607523034235 / 576460752303423488, has_grown := false,
          bound_space_open := false, calculate_gradients := false }]) ∧
    ((MFEMPDEOp.calls { last_time_run_ := 0, delta_t_ := 0 }
      ([{ current_time := 0, has_grown := false, bound_space_open := false,
          calculate_gradients := false }] ++
       [{ current_time := 5764607523034235 / 576460752303423488, has_grown := false,
          bound_space_open := false, calculate_gradients := false }])).2.sum =
      5764607523034235 / 576460752303423488 ∧
    SimTimeAfter 0 (MFEMPDEOp.calls { last_time_run_ := 0, delta_t_ := 0 }
      ([{ current_time := 0, has_grown := false, bound_space_open := false,
          calculate_gradients := false }] ++
       [{ current_time := 5764607523034235 / 576460752303423488, has_grown := false,
          bound_space_open := false, calculate_gradients := false }])).2 =
      5764607523034235 / 576460752303423488) ∧
    ((DiffusionOp.calls { last_time_run_ := 0, delta_t_ := 0 }
      ([{ current_time := 0, has_grown := false, bound_space_open := false,
          calculate_gradients := false }] ++
       [{ current_time := 5764607523034235 / 576460752303423488, has_grown := false,
          bound_space_open := false, calculate_gradients := false }])).2.map
        DiffusionGridCall.time_step).sum = 5764607523034235 / 576460752303423488 := by
  have hd : round_to_double (5764607523034235 / 576460752303423488) =
      5764607523034235 / 576460752303423488 := by
    have h := round_to_double_dyadic 5764607523034235 (-59) (by decide)
    have e : ((5764607523034235 : Int) : ℚ) * (2 : ℚ) ^ (-59 : Int) =
        5764607523034235 / 576460752303423488 := by norm_num
    rw [e] at h
    exact h
  have hex : ExactTimes 0
      ([{ current_time := 0, has_grown := false, bound_space_open := false,
          calculate_gradients := false }] ++
       [{ current_time := 5764607523034235 / 576460752303423488, has_grown := false,
          bound_space_open := false, calculate_gradients := false }]) := by
    simp only [List.singleton_append, ExactTimes, sub_zero, round_to_double_zero, hd, and_self]
  exact ⟨hex, time_steps_sum_to_simulated_time 0
      [{ current_time := 0, has_grown := false, bound_space_open := false,
         calculate_gradients := false }]
      { current_time := 5764607523034235 / 576460752303423488, has_grown := false,
        bound_space_open := false, calculate_gradients := false } hex⟩

/-- C30, counterexample: the doubles nearest to 0.2 and 0.9 are
`3602879701896397 * 2^-54` and `8106479329266893 * 2^-53`.  Invocations at
these two times pass the steps 0.2 and `6305039478318694 * 2^-53` (the rounded
difference, the double nearest to 0.7); the two steps do not sum to the time of
the last invocation, and the field's time does not end at it. -/
theorem time_steps_rounded_sum_differs :
    (MFEMPDEOp.calls { last_time_run_ := 0, delta_t_ := 0 }
      [{ current_time := 3602879701896397 / 18014398509481984, has_grown := false,
         bound_space_open := false, calculate_gradients := false },
       { current_time := 8106479329266893 / 9007199254740992, has_grown := false,
         bound_space_open := false, calculate_gradients := false }]).2 =
      [3602879701896397 / 18014398509481984, 6305039478318694 / 9007199254740992] ∧
    round_to_double (3602879701896397 / 18014398509481984) =
      3602879701896397 / 18014398509481984 ∧
    round_to_double (8106479329266893 / 9007199254740992) =
      8106479329266893 / 9007199254740992 ∧
    ([3602879701896397 / 18014398509481984, 6305039478318694 / 9007199254740992] :
      List ℚ).sum ≠ 8106479329266893 / 9007199254740992 ∧
    SimTimeAfter 0 [3602879701896397 / 18014398509481984, 6305039478318694 / 9007199254740992] ≠
      8106479329266893 / 9007199254740992 := by
  have ha : round_to_double (3602879701896397 / 18014398509481984) =
      3602879701896397 / 18014398509481984 := by
    have h := round_to_double_dyadic 3602879701896397 (-54) (by decide)
    have e : ((3602879701896397 : Int) : ℚ) * (2 : ℚ) ^ (-54 : Int) =
        3602879701896397 / 18014398509481984 := by norm_num
    rw [e] at h
    exact h
  have hb : round_to_double (8106479329266893 / 9007199254740992) =
      8106479329266893 / 9007199254740992 := by
    have h := round_to_double_dyadic 8106479329266893 (-53) (by decide)
    have e : ((8106479329266893 : Int) : ℚ) * (2 : ℚ) ^ (-53 : Int) =
        8106479329266893 / 9007199254740992 := by norm_num
    rw [e] at h
    exact h
  have hc : round_to_double
      (8106479329266893 / 9007199254740992 - 3602879701896397 / 18014398509481984) =
      6305039478318694 / 9007199254740992 := by
    rw [round_to_double_eval _ (-1) 6305039478318694 (by norm_num) (by norm_num)
      (by rw [round_half_even_tie _ 6305039478318694 (by norm_num)]; decide)]
    norm_num
  have hs : round_to_double
      (3602879701896397 / 18014398509481984 + 6305039478318694 / 9007199254740992) =
      8106479329266892 / 9007199254740992 := by
    rw [round_to_double_eval _ (-1) 8106479329266892 (by norm_num) (by norm_num)
      (by rw [round_half_even_tie _ 8106479329266892 (by norm_num)]; decide)]
    norm_num
  have hc1 : round_to_double (12610078956637389 / 18014398509481984) =
      6305039478318694 / 9007199254740992 := by
    have e : (12610078956637389 / 18014398509481984 : ℚ) =
        8106479329266893 / 9007199254740992 - 3602879701896397 / 18014398509481984 := by
      norm_num
    rw [e]
    exact hc
  refine ⟨?_, ha, hb, by norm_num, ?_⟩
  · norm_num [MFEMPDEOp.calls, MFEMPDEOp.call, ha, hc1]
  · simp only [SimTimeAfter, List.foldl_cons, List.foldl_nil, zero_add, ha, hs]
    norm_num

/-! ## The initial grid and the reads of the chain traversal: auxiliary facts -/

/-- The relations between the fields of the grid that the initial part of the
constructor returns. -/
theorem Grid.ctor_init_fields (positions : List (array3 ℚ)) (box_length : Nat)
    (max_value : array3 ℚ) (g0 : Grid)
    (h : Grid.ctor_init positions box_length max_value = some g0) :
    g0.num_boxes_xy_ = (g0.num_boxes_axis_.a0 * g0.num_boxes_axis_.a1) % 2 ^ 32 ∧
      g0.boxes_.length = (g0.num_boxes_xy_ * g0.num_boxes_axis_.a2) % 2 ^ 64 ∧
      g0.successors_.length = positions.length := by
  unfold Grid.ctor_init at h
  by_cases hL : box_length = 0
  · simp [hL] at h
  · rw [if_neg hL] at h
    cases h0 : double_to_unsigned 64 max_value.a0 with
    | none => simp [h0] at h
    | some m0 =>
      cases h1 : double_to_unsigned 64 max_value.a1 with
      | none => simp [h0, h1] at h
      | some m1 =>
        cases h2 : double_to_unsigned 64 max_value.a2 with
        | none => simp [h0, h1, h2] at h
        | some m2 =>
          simp only [h0, h1, h2, Option.some.injEq] at h
          subst h
          exact ⟨rfl, List.length_replicate _ _, List.length_replicate _ _⟩

/-- The indices read by `operator++` during a chain traversal are the values
that `operator*` returns. -/
theorem Box.Iterator.reads_eq_run (succ : List Nat) :
    ∀ (k : Nat) (it : Box.Iterator),
      Box.Iterator.reads succ k it = Box.Iterator.run succ k it := by
  intro k
  induction k with
  | zero => intro it; rfl
  | succ k ih =>
    intro it
    simp only [Box.Iterator.reads, Box.Iterator.run, ih, Box.Iterator.deref]

/-! ## The diffusion operation, symmetry, frame and bounds -/

/-- C31: for every invocation of `DiffusionOp::operator()`, `last_time_run_`
afterwards is the current simulated time and `delta_t_` is the current time
minus the previous `last_time_run_`, as the subtraction of the two doubles
returns it; when the current time equals `last_time_run_` no call is made on
any diffusion grid; otherwise the calls made on each diffusion grid are
`Update()` iff the environment has grown and `bound_space` is `kOpen`, then
`Diffuse(delta_t_)` exactly once, then `CalculateGradient()` iff
`calculate_gradients` is set. -/
theorem DiffusionOp_call_behaviour (op : DiffusionOp) (sim : SimulationView) :
    (op.call sim).1.last_time_run_ = sim.current_time ∧
    (op.call sim).1.delta_t_ = round_to_double (sim.current_time - op.last_time_run_) ∧
    (sim.current_time = op.last_time_run_ → (op.call sim).2 = []) ∧
    (sim.current_time ≠ op.last_time_run_ →
      (op.call sim).2 =
        (if sim.has_grown = true ∧ sim.bound_space_open = true then [DiffusionGridCall.Update]
          else []) ++
        [DiffusionGridCall.Diffuse (round_to_double (sim.current_time - op.last_time_run_))] ++
        (if sim.calculate_gradients = true then [DiffusionGridCall.CalculateGradient] else []) ∧
      (op.call sim).2.count
        (DiffusionGridCall.Diffuse (round_to_double (sim.current_time - op.last_time_run_))) =
        1) := by
  unfold DiffusionOp.call
  by_cases h : round_to_double (sim.current_time - op.last_time_run_) = 0
  · have h0 := (round_to_double_eq_zero_iff _).1 h
    simp only [h, if_true, true_and]
    exact ⟨fun _ => trivial, fun hne => absurd (sub_eq_zero.1 h0) hne⟩
  · simp only [h, if_false, true_and]
    refine ⟨fun he => absurd ((round_to_double_eq_zero_iff _).2 (sub_eq_zero.2 he)) h,
      fun _ => ?_⟩
    cases sim.has_grown <;> cases sim.bound_space_open <;> cases sim.calculate_gradients <;>
      simp

/-- C31, witness: an operation last run at time 0 invoked at time 1, with a
grown environment, open space and gradients requested: each grid receives
`Update()`, `Diffuse(1 - 0)` and `CalculateGradient()`. -/
theorem DiffusionOp_call_behaviour_witness :
    (DiffusionOp.call { last_time_run_ := 0, delta_t_ := 0 }
      { current_time := 1, has_grown := true, bound_space_open := true,
        calculate_gradients := true }).2 =
      [DiffusionGridCall.Update, DiffusionGridCall.Diffuse (round_to_double (1 - 0)),
       DiffusionGridCall.CalculateGradient] ∧
    round_to_double (1 - 0) = 1 ∧
    (DiffusionOp.call { last_time_run_ := 0, delta_t_ := 0 }
      { current_time := 1, has_grown := true, bound_space_open := true,
        calculate_gradients := true }).1.last_time_run_ = 1 :=
  ⟨((DiffusionOp_call_behaviour { last_time_run_ := 0, delta_t_ := 0 }
      { current_time := 1, has_grown := true, bound_space_open := true,
        calculate_gradients := true }).2.2.2 (by decide)).1,
   by simpa using round_to_double_intCast 1 (by decide),
   (DiffusionOp_call_behaviour { last_time_run_ := 0, delta_t_ := 0 }
      { current_time := 1, has_grown := true, bound_space_open := true,
        calculate_gradients := true }).1⟩

/-- Symmetry of the neighbor sequences away from the offset that
`GetMooreBoxes` leaves out: for every built grid with `nx = ny` and
`nx * ny < 2^32` and every two entities `i` and `j` whose boxes are interior
boxes that hold fewer than `2^16` entities each and whose box coordinates do
not differ by the offset `(+1, -1, +1)` in either direction, the loops over the
`NeighborIterator` for `i` and for `j` end, and `j` is read for `i` if and only
if `i` is read for `j`. -/
theorem neighbors_symmetric_interior (positions : List (array3 ℚ)) (box_length : Nat)
    (max_value : array3 ℚ) (g : Grid) (h : Grid.ctor positions box_length max_value = some g)
    (hsq : g.num_boxes_axis_.a1 = g.num_boxes_axis_.a0)
    (h32 : g.num_boxes_axis_.a0 * g.num_boxes_axis_.a1 < 2 ^ 32)
    (i j : Nat) (pi pj : array3 ℚ) (ci cj : array3 Nat)
    (hi : g.positions_[i]? = some pi) (hj : g.positions_[j]? = some pj)
    (hci : g.BoxCoordOf pi = some ci) (hcj : g.BoxCoordOf pj = some cj)
    (hinti : g.IsInterior ci) (hintj : g.IsInterior cj)
    (hpopi : g.population (g.GetBoxIndex ci) < 2 ^ 16)
    (hpopj : g.population (g.GetBoxIndex cj) < 2 ^ 16)
    (hoff1 : ¬ (cj.a0 = ci.a0 + 1 ∧ cj.a1 + 1 = ci.a1 ∧ cj.a2 = ci.a2 + 1))
    (hoff2 : ¬ (ci.a0 = cj.a0 + 1 ∧ ci.a1 + 1 = cj.a1 ∧ ci.a2 = cj.a2 + 1)) :
    ∃ idsi endi idsj endj, g.NeighborsOf i = some (idsi, endi) ∧ endi.IsAtEnd = true ∧
      g.NeighborsOf j = some (idsj, endj) ∧ endj.IsAtEnd = true ∧ (j ∈ idsi ↔ i ∈ idsj) := by
  have hri := hinti
  have hrj := hintj
  obtain ⟨⟨_, hi0⟩, ⟨_, hi1⟩, ⟨_, hi2⟩⟩ := hri
  obtain ⟨⟨_, hj0⟩, ⟨_, hj1⟩, ⟨_, hj2⟩⟩ := hrj
  obtain ⟨idsi, endi, hNi, hendi, halli⟩ :=
    Grid.interior_sequence _ _ _ g h hsq h32 i pi ci hi hci hinti
  obtain ⟨idsj, endj, hNj, hendj, hallj⟩ :=
    Grid.interior_sequence _ _ _ g h hsq h32 j pj cj hj hcj hintj
  obtain ⟨a1, a2⟩ := halli j pj cj hj hcj (by omega) (by omega) (by omega)
  obtain ⟨b1, b2⟩ := hallj i pi ci hi hci (by omega) (by omega) (by omega)
  refine ⟨idsi, endi, idsj, endj, hNi, hendi, hNj, hendj, ?_, ?_⟩
  · intro hm
    exact b2 (a1 hm).symm hoff2 hpopi
  · intro hm
    exact a2 (b1 hm).symm hoff1 hpopj

/-- Example of the symmetry away from the missing offset: entities 0 and 2 of
the grid built for the domain bound (4,4,4), in the interior boxes of
coordinates (1,2,1) and (2,2,2). -/
theorem neighbors_symmetric_interior_example :
    Grid.ctor [{ a0 := 1, a1 := 2, a2 := 1 }, { a0 := 2, a1 := 1, a2 := 2 }, { a0 := 2, a1 := 2, a2 := 2 }] 1 { a0 := 4, a1 := 4, a2 := 4 } = some grid_4x4x4 ∧
    ∃ idsi endi idsj endj, grid_4x4x4.NeighborsOf 0 = some (idsi, endi) ∧ endi.IsAtEnd = true ∧
      grid_4x4x4.NeighborsOf 2 = some (idsj, endj) ∧ endj.IsAtEnd = true ∧
      (2 ∈ idsi ↔ 0 ∈ idsj) :=
  ⟨by decide,
    neighbors_symmetric_interior
      [{ a0 := 1, a1 := 2, a2 := 1 }, { a0 := 2, a1 := 1, a2 := 2 }, { a0 := 2, a1 := 2, a2 := 2 }] 1
      { a0 := 4, a1 := 4, a2 := 4 } grid_4x4x4 (by decide) (by decide) (by decide) 0 2
      { a0 := 1, a1 := 2, a2 := 1 } { a0 := 2, a1 := 2, a2 := 2 } { a0 := 1, a1 := 2, a2 := 1 } { a0 := 2, a1 := 2, a2 := 2 } (by decide) (by decide) (by decide)
      (by decide) (by decide) (by decide) (by decide) (by decide) (by decide) (by decide)⟩

/-- C32, the code at the failing input: in the grid built for the domain bound
(4,4,4) the entities 0 and 1 are in the interior boxes 25 and 38, of
coordinates (1,2,1) and (2,1,2).  The list that `GetMooreBoxes` forms for box
38 holds box 25 (offset `(-1, +1, -1)`), the list for box 25 does not hold box
38 (offset `(+1, -1, +1)`) and holds box 46 (offset `(+1, +1, +1)`) twice.  The
loop for entity 1 reads the ids 1, 2, 0 and the loop for entity 0 reads the ids
0, 2: entity 0 is read for entity 1 and entity 1 is not read for entity 0. -/
theorem neighbors_not_symmetric :
    Grid.ctor [{ a0 := 1, a1 := 2, a2 := 1 }, { a0 := 2, a1 := 1, a2 := 2 }, { a0 := 2, a1 := 2, a2 := 2 }] 1 { a0 := 4, a1 := 4, a2 := 4 } = some grid_4x4x4 ∧
    grid_4x4x4.BoxCoordOf { a0 := 1, a1 := 2, a2 := 1 } = some { a0 := 1, a1 := 2, a2 := 1 } ∧
    grid_4x4x4.BoxCoordOf { a0 := 2, a1 := 1, a2 := 2 } = some { a0 := 2, a1 := 1, a2 := 2 } ∧
    grid_4x4x4.IsInterior { a0 := 1, a1 := 2, a2 := 1 } ∧
    grid_4x4x4.IsInterior { a0 := 2, a1 := 1, a2 := 2 } ∧
    grid_4x4x4.GetBoxIndex { a0 := 1, a1 := 2, a2 := 1 } = 25 ∧
    grid_4x4x4.GetBoxIndex { a0 := 2, a1 := 1, a2 := 2 } = 38 ∧
    25 ∈ grid_4x4x4.GetMooreBoxes 38 ∧ 38 ∉ grid_4x4x4.GetMooreBoxes 25 ∧
    (grid_4x4x4.GetMooreBoxes 25).count 46 = 2 ∧
    (grid_4x4x4.NeighborsOf 1).map Prod.fst = some [1, 2, 0] ∧
    (grid_4x4x4.NeighborsOf 0).map Prod.fst = some [0, 2] ∧
    0 ∈ [1, 2, 0] ∧ 1 ∉ [0, 2] := by
  decide

/-- C33: for every grid state, every box (held at index `idx` of `boxes_`) and
every valid entity id: `AddCell(id)` on the box is defined, it leaves `start_` and `length_` of every
other box as they are, it changes no entry of `successors_` other than
`successors_[id]`, and the chain traversal of every other box whose chain does
not hold `id` is the same after the call. -/
theorem AddCell_leaves_other_boxes (g : Grid) (idx : Nat) (box : Box) (id : Nat)
    (hid : id < g.successors_.length) :
    ∃ r, box.AddCell g.successors_ id = some r ∧
      r.2.length = g.successors_.length ∧
      (∀ k, k ≠ id → r.2[k]? = g.successors_[k]?) ∧
      ∀ (j : Nat) (other : Box), j ≠ idx → g.boxes_[j]? = some other →
        (g.boxes_.set idx r.1)[j]? = some other ∧
        ∀ l, g.chain other = some l → id ∉ l →
          Grid.chain { g with boxes_ := g.boxes_.set idx r.1, successors_ := r.2 } other =
            some l := by
  have hadd : ∃ r, box.AddCell g.successors_ id = some r := by
    unfold Box.AddCell
    by_cases he : box.IsEmpty
    · exact ⟨_, if_pos he⟩
    · rw [if_neg he, if_pos hid]
      exact ⟨_, rfl⟩
  obtain ⟨r, hr⟩ := hadd
  obtain ⟨_, hr2, hlen⟩ := Box.AddCell_eq box g.successors_ id r hr
  refine ⟨r, hr, hlen, ?_, ?_⟩
  · intro k hk
    rw [hr2]
    by_cases he : box.IsEmpty
    · simp only [he, if_true]
    · simp only [he, Bool.false_eq_true, if_false]
      exact List.getElem?_set_ne (Ne.symm hk)
  · intro j other hj hother
    refine ⟨by rw [List.getElem?_set_ne (Ne.symm hj)]; exact hother, ?_⟩
    intro l hl hnot
    show Box.Iterator.run r.2 other.length_ other.begin = some l
    rw [hr2]
    by_cases he : box.IsEmpty
    · simp only [he, if_true]
      exact hl
    · simp only [he, Bool.false_eq_true, if_false]
      exact Box.Iterator.run_set g.successors_ id box.start_ other.length_ other.start_ l hl
        (fun i hi hik => hnot (hik ▸ hi))

/-- C33, witness: the state before the last `AddCell` of the construction of
the grid for the ids 3 and 7: `AddCell(7)` on box 0 leaves box 1 and its chain
`6, 5, 4, 2, 1, 0` as they are. -/
theorem AddCell_leaves_other_boxes_witness :
    Grid.chain { grid_3_and_7 with successors_ := [0, 0, 1, 0, 2, 4, 5, 0] }
      { start_ := 6, length_ := 6 } = some [6, 5, 4, 2, 1, 0] ∧
    ∃ r, Box.AddCell { start_ := 3, length_ := 1 } [0, 0, 1, 0, 2, 4, 5, 0] 7 = some r ∧
      r.2.length = [0, 0, 1, 0, 2, 4, 5, 0].length ∧
      (∀ k, k ≠ 7 → r.2[k]? = [0, 0, 1, 0, 2, 4, 5, 0][k]?) ∧
      ∀ (j : Nat) (other : Box), j ≠ 0 →
        [({ start_ := 3, length_ := 1 } : Box), { start_ := 6, length_ := 6 }][j]? = some other →
        ([({ start_ := 3, length_ := 1 } : Box), { start_ := 6, length_ := 6 }].set 0 r.1)[j]? =
            some other ∧
        ∀ l, Grid.chain
            { grid_3_and_7 with
              boxes_ := [{ start_ := 3, length_ := 1 }, { start_ := 6, length_ := 6 }],
              successors_ := [0, 0, 1, 0, 2, 4, 5, 0] } other = some l → 7 ∉ l →
          Grid.chain
            { grid_3_and_7 with
              boxes_ := [({ start_ := 3, length_ := 1 } : Box),
                         { start_ := 6, length_ := 6 }].set 0 r.1,
              successors_ := r.2 } other = some l :=
  ⟨by decide,
    AddCell_leaves_other_boxes
      { grid_3_and_7 with
        boxes_ := [{ start_ := 3, length_ := 1 }, { start_ := 6, length_ := 6 }],
        successors_ := [0, 0, 1, 0, 2, 4, 5, 0] }
      0 { start_ := 3, length_ := 1 } 7 (by decide)⟩

/-- C34: for every grid as the constructor sets it up before the assignment
loop, with `nx * ny * nz < 2^32`: the number of boxes is `nx * ny * nz`; for
every position whose box coordinate is below `(nx, ny, nz)` the index returned
by `GetBoxIndex(position)` is smaller than `nx * ny * nz`; and when this holds
for all positions the constructor returns a grid (every access of `boxes_` and
every write to `successors_` is within bounds). -/
theorem box_index_in_bounds (positions : List (array3 ℚ)) (box_length : Nat)
    (max_value : array3 ℚ) (g0 : Grid)
    (h0 : Grid.ctor_init positions box_length max_value = some g0)
    (h32 : g0.num_boxes_axis_.a0 * g0.num_boxes_axis_.a1 * g0.num_boxes_axis_.a2 < 2 ^ 32) :
    g0.boxes_.length =
        g0.num_boxes_axis_.a0 * g0.num_boxes_axis_.a1 * g0.num_boxes_axis_.a2 ∧
      (∀ (p : array3 ℚ) (c : array3 Nat), g0.BoxCoordOf p = some c →
        c.a0 < g0.num_boxes_axis_.a0 → c.a1 < g0.num_boxes_axis_.a1 →
        c.a2 < g0.num_boxes_axis_.a2 →
        ∃ idx, g0.GetBoxIndexPos p = some idx ∧
          idx < g0.num_boxes_axis_.a0 * g0.num_boxes_axis_.a1 * g0.num_boxes_axis_.a2) ∧
      ((∀ p ∈ positions, ∃ c, g0.BoxCoordOf p = some c ∧ c.a0 < g0.num_boxes_axis_.a0 ∧
          c.a1 < g0.num_boxes_axis_.a1 ∧ c.a2 < g0.num_boxes_axis_.a2) →
        ∃ g, Grid.ctor positions box_length max_value = some g ∧
          g.boxes_.length = g0.boxes_.length ∧ g.successors_.length = positions.length) := by
  obtain ⟨hxy, hlen, hsucc⟩ := Grid.ctor_init_fields _ _ _ g0 h0
  have hpos : ∀ (z : Nat), 0 < z → z = g0.num_boxes_axis_.a2 →
      g0.num_boxes_axis_.a0 * g0.num_boxes_axis_.a1 < 2 ^ 32 := by
    intro z hz hzeq
    have h1 : g0.num_boxes_axis_.a0 * g0.num_boxes_axis_.a1 * 1 ≤
        g0.num_boxes_axis_.a0 * g0.num_boxes_axis_.a1 * g0.num_boxes_axis_.a2 :=
      Nat.mul_le_mul_left _ (by omega)
    omega
  have hboxes : g0.boxes_.length =
      g0.num_boxes_axis_.a0 * g0.num_boxes_axis_.a1 * g0.num_boxes_axis_.a2 := by
    rw [hlen]
    by_cases hz : g0.num_boxes_axis_.a2 = 0
    · rw [hz]
      simp
    · have hxy32 := hpos _ (Nat.pos_of_ne_zero hz) rfl
      rw [hxy, Nat.mod_eq_of_lt hxy32, Nat.mod_eq_of_lt (by omega)]
  have hlook : ∀ (p : array3 ℚ) (c : array3 Nat), g0.BoxCoordOf p = some c →
      c.a0 < g0.num_boxes_axis_.a0 → c.a1 < g0.num_boxes_axis_.a1 →
      c.a2 < g0.num_boxes_axis_.a2 →
      ∃ idx, g0.GetBoxIndexPos p = some idx ∧
        idx < g0.num_boxes_axis_.a0 * g0.num_boxes_axis_.a1 * g0.num_boxes_axis_.a2 := by
    intro p c hc c0 c1 c2
    have hxy32 := hpos _ (Nat.lt_of_le_of_lt (Nat.zero_le _) c2) rfl
    have hxy1 : g0.num_boxes_xy_ = g0.num_boxes_axis_.a0 * g0.num_boxes_axis_.a1 := by
      rw [hxy, Nat.mod_eq_of_lt hxy32]
    obtain ⟨_, hidx⟩ := g0.GetBoxIndex_eq c hxy1 hxy32 (by rw [hxy1]; omega) c0 c1 c2
    refine ⟨g0.GetBoxIndex c, ?_, ?_⟩
    · unfold Grid.GetBoxIndexPos
      rw [hc]
      rfl
    · rw [hxy1] at hidx
      exact hidx
  refine ⟨hboxes, hlook, ?_⟩
  intro hall
  obtain ⟨g, hg⟩ := Grid.assign_isSome positions 0 g0
    (by
      intro p hp
      obtain ⟨c, hc, c0, c1, c2⟩ := hall p hp
      obtain ⟨idx, h1, h2⟩ := hlook p c hc c0 c1 c2
      exact ⟨idx, h1, by rw [hboxes]; exact h2⟩)
    (by rw [hsucc]; omega)
  obtain ⟨_, flen, fsucc⟩ := Grid.assign_frame _ _ _ g hg
  refine ⟨g, ?_, flen, by rw [fsucc, hsucc]⟩
  rw [Grid.ctor_eq_init, h0]
  exact hg

/-- C34, witness: the positions (0,0,0) and (1,1,1), box side length 1 and the
domain bound (2,2,2). -/
theorem box_index_in_bounds_witness :
    Grid.ctor_init [{ a0 := 0, a1 := 0, a2 := 0 }, { a0 := 1, a1 := 1, a2 := 1 }] 1
        { a0 := 2, a1 := 2, a2 := 2 } =
      some { grid_2x2x2 with boxes_ := List.replicate 8 { start_ := 0, length_ := 0 } } ∧
    ({ grid_2x2x2 with boxes_ := List.replicate 8 { start_ := 0, length_ := 0 } } : Grid).boxes_.length =
        2 * 2 * 2 ∧
      (∀ (p : array3 ℚ) (c : array3 Nat),
        Grid.BoxCoordOf { grid_2x2x2 with boxes_ := List.replicate 8 { start_ := 0, length_ := 0 } } p =
          some c →
        c.a0 < 2 → c.a1 < 2 → c.a2 < 2 →
        ∃ idx,
          Grid.GetBoxIndexPos
            { grid_2x2x2 with boxes_ := List.replicate 8 { start_ := 0, length_ := 0 } } p =
              some idx ∧ idx < 2 * 2 * 2) ∧
      ((∀ p ∈ [({ a0 := 0, a1 := 0, a2 := 0 } : array3 ℚ), { a0 := 1, a1 := 1, a2 := 1 }],
          ∃ c, Grid.BoxCoordOf
              { grid_2x2x2 with boxes_ := List.replicate 8 { start_ := 0, length_ := 0 } } p =
                some c ∧ c.a0 < 2 ∧ c.a1 < 2 ∧ c.a2 < 2) →
        ∃ g, Grid.ctor [{ a0 := 0, a1 := 0, a2 := 0 }, { a0 := 1, a1 := 1, a2 := 1 }] 1
            { a0 := 2, a1 := 2, a2 := 2 } = some g ∧
          g.boxes_.length =
            ({ grid_2x2x2 with boxes_ := List.replicate 8 { start_ := 0, length_ := 0 } } :
              Grid).boxes_.length ∧
          g.successors_.length =
            [({ a0 := 0, a1 := 0, a2 := 0 } : array3 ℚ), { a0 := 1, a1 := 1, a2 := 1 }].length) :=
  ⟨by decide,
    box_index_in_bounds [{ a0 := 0, a1 := 0, a2 := 0 }, { a0 := 1, a1 := 1, a2 := 1 }] 1
      { a0 := 2, a1 := 2, a2 := 2 }
      { grid_2x2x2 with boxes_ := List.replicate 8 { start_ := 0, length_ := 0 } }
      (by decide) (by decide)⟩

/-- C35, the code at the failing input: in the grid built for two entities at
(1,1,1) and the domain bound (3,3,3) the `for` loop of `ForEachNeighbor`
returns with the accumulator `1, 1` of size 2; the statement after the loop
reads `sum[4]`, which is outside the accumulator, and `ForEachNeighbor` is
undefined.  The same holds for the grid built for no position. -/
theorem ForEachNeighbor_reads_slot_4 :
    Grid.ctor [{ a0 := 1, a1 := 1, a2 := 1 }, { a0 := 1, a1 := 1, a2 := 1 }] 1 { a0 := 3, a1 := 3, a2 := 3 } = some grid_3x3x3 ∧
    grid_3x3x3.positions_.length = 2 ∧
    Grid.ForEachNeighbor_for (List.range 2) { grid := grid_3x3x3, sum := List.replicate 2 0 } =
      some { grid := grid_3x3x3, sum := [1, 1] } ∧
    ([1, 1] : List Nat)[4]? = none ∧
    grid_3x3x3.ForEachNeighbor = none ∧
    Grid.ctor [] 1 { a0 := 4, a1 := 3, a2 := 3 } = some grid_4x3x3 ∧
    Grid.ForEachNeighbor_for (List.range 0) { grid := grid_4x3x3, sum := List.replicate 0 0 } =
      some { grid := grid_4x3x3, sum := [] } ∧
    grid_4x3x3.ForEachNeighbor = none := by
  decide

/-- C36: for every built grid with `nx * ny < 2^32` and every box coordinate
`(bx, by, bz)` with `bx < nx`, `by < ny` and `bz < 2^32`,
`GetBoxCoordinates(GetBoxIndex((bx, by, bz)))` is `(bx, by, bz)`; hence
`GetBoxIndex` takes different values on different such coordinates. -/
theorem coordinates_of_index_roundtrip (positions : List (array3 ℚ)) (box_length : Nat)
    (max_value : array3 ℚ) (g : Grid) (h : Grid.ctor positions box_length max_value = some g)
    (h32 : g.num_boxes_axis_.a0 * g.num_boxes_axis_.a1 < 2 ^ 32)
    (c : array3 Nat) (c0 : c.a0 < g.num_boxes_axis_.a0) (c1 : c.a1 < g.num_boxes_axis_.a1)
    (c2 : c.a2 < 2 ^ 32) :
    g.GetBoxCoordinates (g.GetBoxIndex c) = some c ∧
      ∀ d : array3 Nat, d.a0 < g.num_boxes_axis_.a0 → d.a1 < g.num_boxes_axis_.a1 →
        d.a2 < 2 ^ 32 → g.GetBoxIndex d = g.GetBoxIndex c → d = c := by
  obtain ⟨wf, _, _⟩ := Grid.ctor_wf _ _ _ g h
  have hxy : g.num_boxes_xy_ = g.num_boxes_axis_.a0 * g.num_boxes_axis_.a1 := by
    rw [wf.xy_eq, Nat.mod_eq_of_lt h32]
  have key : ∀ e : array3 Nat, e.a0 < g.num_boxes_axis_.a0 → e.a1 < g.num_boxes_axis_.a1 →
      e.a2 < 2 ^ 32 → g.GetBoxCoordinates (g.GetBoxIndex e) = some e := by
    intro e e0 e1 e2
    have hny := wf.ny_lt
    have hnx : 0 < g.num_boxes_axis_.a0 := by omega
    have hrow : e.a1 * g.num_boxes_axis_.a0 + e.a0 <
        g.num_boxes_axis_.a0 * g.num_boxes_axis_.a1 := by
      have h1 : (e.a1 + 1) * g.num_boxes_axis_.a0 ≤
          g.num_boxes_axis_.a1 * g.num_boxes_axis_.a0 := Nat.mul_le_mul_right _ (by omega)
      rw [Nat.add_mul, Nat.one_mul] at h1
      rw [Nat.mul_comm g.num_boxes_axis_.a0 g.num_boxes_axis_.a1]
      omega
    have hplane : e.a2 * (g.num_boxes_axis_.a0 * g.num_boxes_axis_.a1) ≤
        (2 ^ 32 - 1) * (g.num_boxes_axis_.a0 * g.num_boxes_axis_.a1) :=
      Nat.mul_le_mul_right _ (by omega)
    have hsq : (2 ^ 32 - 1) * (g.num_boxes_axis_.a0 * g.num_boxes_axis_.a1) ≤
        (2 ^ 32 - 1) * (2 ^ 32 - 1) := Nat.mul_le_mul_left _ (by omega)
    have hnum : (2 ^ 32 - 1) * (2 ^ 32 - 1) + 2 ^ 32 < 2 ^ 64 := by norm_num
    have hidx : g.GetBoxIndex e =
        e.a2 * (g.num_boxes_axis_.a0 * g.num_boxes_axis_.a1) +
          (e.a1 * g.num_boxes_axis_.a0 + e.a0) := by
      unfold Grid.GetBoxIndex size_t_add
      rw [hxy, Nat.mod_eq_of_lt (a := e.a2 * (g.num_boxes_axis_.a0 * g.num_boxes_axis_.a1))
        (by omega), Nat.mod_eq_of_lt (a := e.a1 * g.num_boxes_axis_.a0) (by omega),
        Nat.mod_eq_of_lt (a := e.a2 * (g.num_boxes_axis_.a0 * g.num_boxes_axis_.a1) +
          e.a1 * g.num_boxes_axis_.a0) (by omega), Nat.mod_eq_of_lt (by omega)]
      omega
    have hxypos : 0 < g.num_boxes_axis_.a0 * g.num_boxes_axis_.a1 := by omega
    have hmod : (e.a2 * (g.num_boxes_axis_.a0 * g.num_boxes_axis_.a1) +
        (e.a1 * g.num_boxes_axis_.a0 + e.a0)) % (g.num_boxes_axis_.a0 * g.num_boxes_axis_.a1) =
        e.a1 * g.num_boxes_axis_.a0 + e.a0 := by
      rw [Nat.add_comm, Nat.add_mul_mod_self_right, Nat.mod_eq_of_lt hrow]
    have hdiv : (e.a2 * (g.num_boxes_axis_.a0 * g.num_boxes_axis_.a1) +
        (e.a1 * g.num_boxes_axis_.a0 + e.a0)) / (g.num_boxes_axis_.a0 * g.num_boxes_axis_.a1) =
        e.a2 := by
      rw [Nat.add_comm, Nat.add_mul_div_right _ _ hxypos, Nat.div_eq_of_lt hrow, Nat.zero_add]
    have hmod1 : (e.a1 * g.num_boxes_axis_.a0 + e.a0) % g.num_boxes_axis_.a0 = e.a0 := by
      rw [Nat.add_comm, Nat.add_mul_mod_self_right, Nat.mod_eq_of_lt e0]
    have hdiv1 : (e.a1 * g.num_boxes_axis_.a0 + e.a0) / g.num_boxes_axis_.a0 = e.a1 := by
      rw [Nat.add_comm, Nat.add_mul_div_right _ _ hnx, Nat.div_eq_of_lt e0, Nat.zero_add]
    unfold Grid.GetBoxCoordinates
    rw [if_neg (by rw [hxy]; omega), hidx]
    simp only [hxy, hmod, hdiv, hmod1, hdiv1]
    rw [Nat.mod_eq_of_lt (by omega : e.a1 < 2 ^ 32), Nat.mod_eq_of_lt e2]
  refine ⟨key c c0 c1 c2, ?_⟩
  intro d d0 d1 d2 hd
  have h1 := key d d0 d1 d2
  rw [hd, key c c0 c1 c2] at h1
  exact (Option.some.inj h1).symm

/-- C36, witness: the coordinate (1,1,5) in the grid built for the domain bound
(4,3,3); its index is 65 and `GetBoxCoordinates(65)` is (1,1,5). -/
theorem coordinates_of_index_roundtrip_witness :
    Grid.ctor [] 1 { a0 := 4, a1 := 3, a2 := 3 } = some grid_4x3x3 ∧
    grid_4x3x3.GetBoxIndex { a0 := 1, a1 := 1, a2 := 5 } = 65 ∧
    (grid_4x3x3.GetBoxCoordinates (grid_4x3x3.GetBoxIndex { a0 := 1, a1 := 1, a2 := 5 }) =
        some { a0 := 1, a1 := 1, a2 := 5 } ∧
      ∀ d : array3 Nat, d.a0 < grid_4x3x3.num_boxes_axis_.a0 →
        d.a1 < grid_4x3x3.num_boxes_axis_.a1 → d.a2 < 2 ^ 32 →
        grid_4x3x3.GetBoxIndex d = grid_4x3x3.GetBoxIndex { a0 := 1, a1 := 1, a2 := 5 } →
        d = { a0 := 1, a1 := 1, a2 := 5 }) :=
  ⟨by decide, by decide,
    coordinates_of_index_roundtrip [] 1 { a0 := 4, a1 := 3, a2 := 3 } grid_4x3x3 (by decide)
      (by decide) { a0 := 1, a1 := 1, a2 := 5 } (by decide) (by decide) (by decide)⟩

/-- C37: for every grid built by the constructor and every box of it, the chain
traversal of the box for `length_` steps is defined; every index at which
`operator++` reads `successors_` during the traversal, the read of the last
step included, is smaller than the number of entities and than the size of
`successors_`; and every value that `operator*` returns is an entity id smaller
than the number of entities. -/
theorem chain_reads_in_bounds (positions : List (array3 ℚ)) (box_length : Nat)
    (max_value : array3 ℚ) (g : Grid) (h : Grid.ctor positions box_length max_value = some g)
    (b : Nat) (box : Box) (hb : g.boxes_[b]? = some box) :
    ∃ ids reads, g.chain box = some ids ∧
      Box.Iterator.reads g.successors_ box.length_ box.begin = some reads ∧
      ids.length = box.length_ ∧ reads.length = box.length_ ∧
      (∀ k ∈ reads, k < positions.length ∧ k < g.successors_.length) ∧
      ∀ id ∈ ids, id < positions.length := by
  obtain ⟨wf, hpos, _⟩ := Grid.ctor_wf _ _ _ g h
  obtain ⟨_, hc⟩ := wf.chain_eq b box hb
  have hlen := Grid.chain_length g box _ hc
  have hlt : ∀ id ∈ List.take box.length_ (g.members b), id < positions.length := by
    intro id hid
    rw [← hpos]
    exact ((g.mem_members b id).1 (List.mem_of_mem_take hid)).1
  refine ⟨_, _, hc, ?_, hlen, hlen, ?_, hlt⟩
  · rw [Box.Iterator.reads_eq_run]
    exact hc
  · intro k hk
    refine ⟨hlt k hk, ?_⟩
    rw [wf.successors_length, hpos]
    exact hlt k hk

/-- C37, witness: box 1 of the grid built for eight entities of which the six
other than 3 and 7 are at (3/2, 1/2, 1/2); the traversal reads `successors_` at
6, 5, 4, 2, 1, 0. -/
theorem chain_reads_in_bounds_witness :
    Grid.ctor positions_3_and_7 1 { a0 := 2, a1 := 1, a2 := 1 } = some grid_3_and_7 ∧
    Box.Iterator.reads grid_3_and_7.successors_ 6 (Box.begin { start_ := 6, length_ := 6 }) =
      some [6, 5, 4, 2, 1, 0] ∧
    ∃ ids reads, grid_3_and_7.chain { start_ := 6, length_ := 6 } = some ids ∧
      Box.Iterator.reads grid_3_and_7.successors_ (Box.length_ { start_ := 6, length_ := 6 })
        (Box.begin { start_ := 6, length_ := 6 }) = some reads ∧
      ids.length = Box.length_ { start_ := 6, length_ := 6 } ∧
      reads.length = Box.length_ { start_ := 6, length_ := 6 } ∧
      (∀ k ∈ reads, k < positions_3_and_7.length ∧ k < grid_3_and_7.successors_.length) ∧
      ∀ id ∈ ids, id < positions_3_and_7.length :=
  ⟨by decide, by decide,
    chain_reads_in_bounds positions_3_and_7 1 { a0 := 2, a1 := 1, a2 := 1 } grid_3_and_7
      (by decide) 1 { start_ := 6, length_ := 6 } (by decide)⟩

end bdm
